import Mathlib

/-!
# avrootloader.c : a shallow embedding

The driver talks to the AVRootloader bootloader over a serial line.  The
embedding keeps the C names.  Conventions:

* a byte is a natural number below 256; a buffer is a list of bytes.  The
  platform is x86-64: plain char is signed, so where the source takes the value
  of a plain char object (the comparison of rcv[i] with the unsigned char
  trig[i], the return value of avrootloader_read_byte_flash) a byte from 0x80 up
  stands for the negative number char_val gives;
* unsigned short and unsigned int arithmetic is reduced modulo 2^16 and 2^32
  where the source relies on it; an int argument such as n_bytes is a natural
  number, taken to be below 2^31;
* a variable length array is an object on the stack: its size is computed in
  unsigned int arithmetic, a size beyond STACK_LIMIT stops the run, and so does
  a write past the end of the array;
* the receive side of the serial line is a function from event numbers to
  events: at event k either a byte arrives (some b) or one probe interval
  elapses with nothing to read (none).  The line is an argument of every
  operation, the read cursor rxpos is part of the programmer state;
* everything handed to serial_send is logged, one entry per call, in tx;
  report_progress calls are logged in progress;
* a call of the C function exit, a step that C leaves undefined and a loop
  that never ends are the abort outcomes of an operation; the state reached
  is kept, so the bytes already transmitted stay observable;
* the host is little endian (the bytes of an unsigned int are read through a
  char pointer in avrootloader_paged_write_flash);
* malloc is taken to succeed; usleep and diagnostic output are not modelled.
-/

namespace Avrootloader

/-! ## CRC16 -/

/-- Modelled from the spec: one bit of calcCRC16r, which is declared in crc16.h and
is not among the sources.  Section 4.1 of the spec: reflected, table free, XOR
based, one bit per iteration.  Returns the new crc and the shifted data. -/
def calcCRC16r_bit (crc c mask : Nat) : Nat × Nat :=
  (if (crc ^^^ c) &&& 1 = 1 then (crc >>> 1) ^^^ mask else crc >>> 1, c >>> 1)

/-- Modelled from the spec: the bit loop of calcCRC16r, n iterations. -/
def calcCRC16r_loop : Nat → Nat → Nat → Nat → Nat
  | 0, crc, _, _ => crc
  | n + 1, crc, c, mask =>
    calcCRC16r_loop n (calcCRC16r_bit crc c mask).1 (calcCRC16r_bit crc c mask).2 mask

/-- Modelled from the spec: calcCRC16r (crc16.h), the CRC16 update by one byte,
8 iterations per byte; only the low 8 bits of the data argument are consumed. -/
def calcCRC16r (crc c mask : Nat) : Nat :=
  calcCRC16r_loop 8 crc (c % 256) mask

/-- The recurring loop
for (i = 0; i < len; i++) tmp = calcCRC16r(tmp, bytes[i], 0xa001);
where tmp is an unsigned short. -/
def crc_loop (tmp : Nat) (bytes : List Nat) : Nat :=
  bytes.foldl (fun t b => calcCRC16r t b 0xa001 % 65536) tmp

/-- The CRC16 of the claims: polynomial 0xA001, initial value 0, accumulated
left to right over the bytes. -/
def crc16 (bytes : List Nat) : Nat :=
  bytes.foldl (fun t b => calcCRC16r t b 0xa001) 0

/-! ## The programmer state and the serial line -/

/-- The receive side of the serial line. -/
abbrev Line := Nat → Option Nat

/-- A line on which the listed events happen and then nothing arrives any more. -/
def lineOf (evs : List (Option Nat)) : Line := fun k => evs.getD k none

/-- A device that answers every read with the byte b. -/
def lineConst (b : Nat) : Line := fun _ => some b

/-- The reasons for which the driver stops.  The first eight are the messages of
avrootloader_vfy_cmd_sent; not_responding is the exit of avrootloader_recv, timeout
and unexpected_response are the exits of avrootloader_initialize, read_unsupported
and eeprom_crc those of the read routines.  memory_fault stands for a step that C
leaves undefined (an access outside an object, a division by zero), hang for a
loop that never ends. -/
inductive Fatal where
  | verification
  | unknown_command
  | crc
  | boundary
  | decryption
  | programming
  | wrong_version
  | unknown (c : Nat)
  | not_responding
  | timeout
  | unexpected_response (c : Nat)
  | read_unsupported
  | eeprom_crc
  | memory_fault
  | hang
deriving DecidableEq, Repr

/-- PROGRAMMER with its struct pdata cookie (the fields the driver uses here)
and the state of the serial line. -/
structure Pgm where
  rxpos : Nat := 0
  tx : List (List Nat) := []
  progress : List (Nat × Nat) := []
  sigbytes : List Nat := [0, 0, 0]
  internalbuf : Option (List Nat) := none
  maxdelay : Nat := 0
  page_size : Nat := 0
  bootpages : Nat := 0
  current_page_vrfy : Nat := 0
  nbytes : Nat := 0
  features : Nat := 0
  trig : List Nat := []
  key : List Nat := []
  eeprom : Option (List Nat) := none
deriving DecidableEq, Repr

/-- The result of running an operation: it returns a value, or the process stops. -/
inductive Outcome (α : Type) where
  | ok (a : α) (s : Pgm)
  | abort (e : Fatal) (s : Pgm)
deriving DecidableEq, Repr

/-- The programmer state in which an operation ended. -/
def Outcome.pgm {α : Type} : Outcome α → Pgm
  | .ok _ s => s
  | .abort _ s => s

/-- Whether the operation returned to its caller. -/
def Outcome.returned {α : Type} : Outcome α → Bool
  | .ok _ _ => true
  | .abort _ _ => false

/-- The value an operation returned, if it returned. -/
def Outcome.value {α : Type} : Outcome α → Option α
  | .ok a _ => some a
  | .abort _ _ => none

/-- The error with which an operation stopped, if it stopped. -/
def Outcome.error {α : Type} : Outcome α → Option Fatal
  | .ok _ _ => none
  | .abort e _ => some e

/-- All bytes sent so far, in order. -/
def Pgm.sent (s : Pgm) : List Nat := s.tx.flatten

/-- The C function strlen on a char array. -/
def strlen : List Nat → Nat
  | [] => 0
  | c :: cs => if c = 0 then 0 else strlen cs + 1

/-- The C function memset on the start of a buffer. -/
def memset (dst : List Nat) (c len : Nat) : List Nat :=
  List.replicate len c ++ dst.drop len

/-- The C function memcpy to the start of a buffer. -/
def memcpy (dst src : List Nat) (len : Nat) : List Nat :=
  src.take len ++ dst.drop len

/-- The value of a plain char object that holds the byte b.  Plain char is signed
on x86-64: the bytes from 0x80 up are the values -128 .. -1. -/
def char_val (b : Nat) : Int :=
  if b < 128 then (b : Int) else (b : Int) - 256

/-- The stack space of the process: 8 MiB, the default limit of a process on
Linux.  A variable length array of more bytes does not fit. -/
def STACK_LIMIT : Nat := 8388608

/-- Modelled from the spec: serial_send of serial.h (transport adapter, section 6). -/
def serial_send (s : Pgm) (buf : List Nat) (len : Nat) : Pgm :=
  { s with tx := s.tx ++ [buf.take len] }

/-- Modelled from the spec: serial_probe of serial.h, true iff bytes are available;
an empty probe interval is used up by the probe that waited for it. -/
def serial_probe (rx : Line) (s : Pgm) : Bool × Pgm :=
  match rx s.rxpos with
  | some _ => (true, s)
  | none => (false, { s with rxpos := s.rxpos + 1 })

/-- Modelled from the spec: serial_recv of serial.h: the next len bytes from event pos
on, with the cursor behind them, or nothing when a byte fails to arrive. -/
def serial_recv (rx : Line) : Nat → Nat → Option (List Nat × Nat)
  | 0, pos => some ([], pos)
  | len + 1, pos =>
    match rx pos with
    | none => none
    | some b =>
      match serial_recv rx len (pos + 1) with
      | none => none
      | some (bs, p) => some (b % 256 :: bs, p)

def avrootloader_send (s : Pgm) (buf : List Nat) (len : Nat) : Pgm :=
  serial_send s buf len

def avrootloader_recv (rx : Line) (s : Pgm) (len : Nat) : Outcome (List Nat) :=
  match serial_probe rx s with
  | (true, s1) =>
    match serial_recv rx len s1.rxpos with
    | some (bs, p) => .ok bs { s1 with rxpos := p }
    | none => .abort .not_responding s1
  | (false, s1) => .abort .not_responding s1

def avrootloader_vfy_cmd_sent (rx : Line) (s : Pgm) : Outcome Unit :=
  match avrootloader_recv rx s 1 with
  | .abort e s1 => .abort e s1
  | .ok bs s1 =>
    let c := bs.headD 0
    if c = 0xc0 then .abort .verification s1
    else if c = 0xc1 then .abort .unknown_command s1
    else if c = 0xc2 then .abort .crc s1
    else if c = 0xc3 then .abort .boundary s1
    else if c = 0xc4 then .abort .decryption s1
    else if c = 0xc5 then .abort .programming s1
    else if c = 0xc6 then .abort .wrong_version s1
    else if c = 0x30 then .ok () s1
    else .abort (.unknown (c &&& 0xff)) s1

/-! ## Commands -/

def CMD_INIT : Nat := 1
def CMD_WRITEFLASH : Nat := 2
def CMD_ERASEPAGES : Nat := 3
def CMD_SENDBUF : Nat := 4
def CMD_VERIFYFLASH : Nat := 5
def CMD_WRITEE : Nat := 6

def helo : List Nat := [0x00, 0x00, 0x00, 0x00, 0x00, 0x00, 0x00, 0x00, 0x00, 0x0d]
def writeflash : List Nat := [0x01, 0x01, 0xc0, 0x50]
def setbuf : List Nat := [0xfe, 0x00, 0x0f, 0x00, 0x34, 0x18]
def erase : List Nat := [0x02, 0x76, 0x80, 0x86]
def writeeeprom : List Nat := [0x05, 0x01, 0xc2, 0x90]
def vrfyflash : List Nat := [0x03, 0x01, 0xc1, 0x30]
def readeeprom : List Nat := [0x04, 0x00, 0x02, 0xc0]

/-- The SENDBUF header as avrootloader_send_cmd builds it in setbuf. -/
def sendbuf_header (parambytes : Nat) : List Nat :=
  let len := (parambytes + 4294967296 - 2) % 4294967296
  let setbuf := setbuf.set 3 (len &&& 0xff)
  let setbuf := setbuf.set 2 ((len >>> 8) % 256)
  let tmp := crc_loop 0 (setbuf.take (6 - 2))
  let setbuf := setbuf.set 4 (tmp &&& 0xff)
  setbuf.set 5 ((tmp >>> 8) &&& 0xff)

/-- The case CMD_SENDBUF of avrootloader_send_cmd.  The CRC trailer is written
into the last two bytes of params, so the buffer is returned with the return
value.  With parambytes below 2 or beyond the buffer the CRC loop leaves it. -/
def send_cmd_SENDBUF (rx : Line) (s : Pgm) (parambytes : Nat) (params : List Nat) :
    Outcome (Int × List Nat) :=
  let setbuf := sendbuf_header parambytes
  if parambytes < 2 ∨ params.length < parambytes then .abort .memory_fault s
  else
    let tmp := crc_loop 0 (params.take (parambytes - 2))
    let params := params.set (parambytes - 2) (tmp &&& 0xff)
    let params := params.set (parambytes - 1) ((tmp >>> 8) &&& 0xff)
    let s := avrootloader_send s setbuf 6
    let s := avrootloader_send s params parambytes
    match avrootloader_vfy_cmd_sent rx s with
    | .abort e s => .abort e s
    | .ok _ s => .ok (0, params) s

/-- The ERASEPAGES frame as avrootloader_send_cmd builds it in erase. -/
def erase_frame (param : Nat) : List Nat :=
  let erase := erase.set 1 (param % 256)
  let tmp := crc_loop 0 (erase.take (4 - 2))
  let erase := erase.set 2 (tmp &&& 0xff)
  erase.set 3 ((tmp >>> 8) % 256)

def avrootloader_send_cmd (rx : Line) (s : Pgm) (cmd parambytes : Nat) (params : List Nat) :
    Outcome (Int × List Nat) :=
  if cmd = CMD_INIT then
    let tmp := crc_loop 0 (helo.take (strlen helo))
    let tmp := crc_loop tmp (s.key.take (strlen s.key))
    let crc := [tmp &&& 0xff, (tmp >>> 8) &&& 0xff]
    let s1 := avrootloader_send s helo 10
    let s1 := avrootloader_send s1 s.key (strlen s.key)
    let s1 := avrootloader_send s1 crc 2
    .ok (0, params) s1
  else if cmd = CMD_WRITEFLASH then
    match send_cmd_SENDBUF rx s parambytes params with
    | .abort e s1 => .abort e s1
    | .ok (_, params) s1 =>
      let s1 := avrootloader_send s1 writeflash 4
      match avrootloader_vfy_cmd_sent rx s1 with
      | .abort e s1 => .abort e s1
      | .ok _ s1 => .ok (0, params) s1
  else if cmd = CMD_WRITEE then
    match send_cmd_SENDBUF rx s parambytes params with
    | .abort e s1 => .abort e s1
    | .ok (_, params) s1 =>
      let s1 := avrootloader_send s1 writeeeprom 4
      match avrootloader_vfy_cmd_sent rx s1 with
      | .abort e s1 => .abort e s1
      | .ok _ s1 => .ok (0, params) s1
  else if cmd = CMD_ERASEPAGES then
    match params with
    | [] => .abort .memory_fault s
    | p0 :: _ =>
      let s1 := avrootloader_send s (erase_frame p0) 4
      match avrootloader_vfy_cmd_sent rx s1 with
      | .abort e s1 => .abort e s1
      | .ok _ s1 => .ok (0, params) s1
  else if cmd = CMD_VERIFYFLASH then
    match send_cmd_SENDBUF rx s parambytes params with
    | .abort e s1 => .abort e s1
    | .ok (_, params) s1 =>
      let s1 := avrootloader_send s1 vrfyflash 4
      match avrootloader_vfy_cmd_sent rx s1 with
      | .abort e s1 => .abort e s1
      | .ok _ s1 => .ok (0, params) s1
  else if cmd = CMD_SENDBUF then
    send_cmd_SENDBUF rx s parambytes params
  else .ok (-1, params) s

/-! ## Memories and parts -/

/-- AVRMEM, as far as the driver reads it. -/
structure AVRMEM where
  desc : String
  size : Nat
  page_size : Nat
  offset : Nat
  max_write_delay : Nat
  buf : List Nat
deriving DecidableEq, Repr

/-- AVRPART, as far as the driver reads it.  The declaration is not among the
sources; sram is taken to be an int like the other numeric fields. -/
structure AVRPART where
  sram : Int
  mem : List AVRMEM
deriving DecidableEq, Repr

/-- Modelled from the spec: avr_locate_mem of avr.h, the memory of a part with the
given description (memory region descriptor, section 3). -/
def avr_locate_mem (p : AVRPART) (desc : String) : Option AVRMEM :=
  p.mem.find? (fun m => m.desc = desc)

/-- Modelled from the spec: report_progress, the progress callback of section 6;
the calls are recorded. -/
def report_progress (s : Pgm) (done total : Nat) : Pgm :=
  { s with progress := s.progress ++ [(done, total)] }

/-- The frame avrootloader_set_addr builds in cmd. -/
def set_addr_frame (addr : Nat) : List Nat :=
  let cmd := [0xff, (addr >>> 16) &&& 0xff, (addr >>> 8) &&& 0xff, addr &&& 0xff, 0, 0]
  let crcx := crc_loop 0 (cmd.take (6 - 2))
  let cmd := cmd.set 4 ((crcx % 256) &&& 0xff)
  cmd.set 5 (((crcx >>> 8) % 256) &&& 0xff)

def avrootloader_set_addr (rx : Line) (s : Pgm) (addr : Nat) : Outcome Unit :=
  let s1 := avrootloader_send s (set_addr_frame addr) 6
  avrootloader_vfy_cmd_sent rx s1

/-- The function avrootloader_write_byte.  The fallback avr_write_byte_default for
other memories is not among the sources and is an argument. -/
def avrootloader_write_byte (avr_write_byte_default : Pgm → Outcome Int)
    (rx : Line) (s : Pgm) (m : AVRMEM) (addr value : Nat) : Outcome Int :=
  if m.desc = "flash" then .ok (-2) s
  else if m.desc = "eeprom" then
    if m.page_size = 0 then .abort .memory_fault s
    else
      let buf := List.replicate m.page_size 0
      let buf := memset buf 0xff m.page_size
      let buf := buf.set (addr % m.page_size) (value % 256)
      match avrootloader_set_addr rx s ((addr / m.page_size) * m.page_size) with
      | .abort e s1 => .abort e s1
      | .ok _ s1 =>
        match avrootloader_send_cmd rx s1 CMD_WRITEE m.page_size buf with
        | .abort e s2 => .abort e s2
        | .ok _ s2 => .ok 0 s2
  else avr_write_byte_default s

/-! ## Paged transfers -/

/-- The declaration  char buf[size]  of a variable length array whose size
expression has the unsigned int value of size: an array of size mod 2^32 bytes on
the stack, holding the bytes fill (the source does not set them), or nothing when
it does not fit the stack. -/
def vla (size fill : Nat) : Option (List Nat) :=
  if STACK_LIMIT < size % 4294967296 then none
  else some (List.replicate (size % 4294967296) fill)

/-- The loop  while (bufsize < n_bytes) bufsize += page_size;  it never ends when
page_size is 0, which is the answer none. -/
def grow_bufsize (page_size n_bytes : Nat) : Nat → Nat → Option Nat
  | 0, _ => none
  | fuel + 1, bufsize =>
    if bufsize < n_bytes then grow_bufsize page_size n_bytes fuel (bufsize + page_size)
    else some bufsize

/-- The chunk size as the paged write and load routines compute it:
if (n_bytes < (p->sram - page_size)) while ... else bufsize = (p->sram - page_size);
if (bufsize == 0) bufsize = page_size; -/
def compute_bufsize (sram : Int) (page_size n_bytes : Nat) : Option Nat :=
  let bufsize :=
    if (n_bytes : Int) < sram - (page_size : Int) then
      grow_bufsize page_size n_bytes (n_bytes + 1) 0
    else some ((sram - (page_size : Int)) % 4294967296).toNat
  match bufsize with
  | none => none
  | some bufsize => some (if bufsize = 0 then page_size else bufsize)

/-- The chunk loop that avrootloader_paged_write_flash (cmd CMD_WRITEFLASH, src
m->buf), avrootloader_paged_write_eeprom (CMD_WRITEE, m->buf) and the flash branch
of avrootloader_paged_load (CMD_VERIFYFLASH, internalbuf) each contain:
while (written < n_bytes) { fill buf; send_cmd(cmd, sizeof(buf), buf);
written += bufsize; report_progress(written, n_bytes, NULL); }
The loop is run for at most fuel rounds.  The array buf is the one the caller
declared, sizeof(buf) is its length; when it is shorter than bufsize (the size
bufsize + 2 has wrapped) the memset or memcpy of bufsize bytes writes past its
end.  With the array within the stack and n_bytes an int, no sum here reaches
2^32. -/
def paged_loop (rx : Line) (cmd : Nat) (src : List Nat) (bufsize n_bytes : Nat) :
    Nat → Pgm → Nat → List Nat → Outcome (Nat × List Nat)
  | 0, s, written, buf =>
    if written < n_bytes then .abort .hang s else .ok (written, buf) s
  | fuel + 1, s, written, buf =>
    if written < n_bytes then
      if buf.length < bufsize then .abort .memory_fault s
      else
        let size := buf.length
        let buf :=
          if written + bufsize > n_bytes then
            memcpy (memset buf 0xff bufsize) (src.drop written) (n_bytes - written)
          else memcpy buf (src.drop written) bufsize
        match avrootloader_send_cmd rx s cmd size buf with
        | .abort e s1 => .abort e s1
        | .ok (_, buf) s1 =>
          let s1 := report_progress s1 (written + bufsize) n_bytes
          paged_loop rx cmd src bufsize n_bytes fuel s1 (written + bufsize) buf
    else .ok (written, buf) s

/-- The unsigned int tmp as the bytes &tmp points to (little endian host). -/
def le_bytes32 (tmp : Nat) : List Nat :=
  [tmp % 256, (tmp / 256) % 256, (tmp / 65536) % 256, (tmp / 16777216) % 256]

/-- The local tmp of avrootloader_paged_write_flash, in unsigned int arithmetic:
(m->size - written - (bootpages * page_size)) / page_size. -/
def erase_param (size written bootpages page_size : Nat) : Nat :=
  (((size : Int) - (written : Int) - (bootpages : Int) * (page_size : Int))
    % 4294967296).toNat / page_size

def avrootloader_paged_write_flash (rx : Line) (s : Pgm) (p : AVRPART) (m : AVRMEM)
    (page_size n_bytes : Nat) : Outcome Int :=
  match compute_bufsize p.sram page_size n_bytes with
  | none => .abort .hang s
  | some bufsize =>
    match vla (bufsize + 2) 0 with
    | none => .abort .memory_fault s
    | some buf =>
      let s := { s with page_size := page_size, nbytes := n_bytes }
      let internalbuf := List.replicate (n_bytes + page_size) 0
      let internalbuf := memset internalbuf 0xff (n_bytes + page_size)
      if m.buf.length < n_bytes then .abort .memory_fault s
      else
        let internalbuf := memcpy internalbuf m.buf n_bytes
        let s := { s with internalbuf := some internalbuf }
        match avrootloader_set_addr rx s (0 >>> 1) with
        | .abort e s => .abort e s
        | .ok _ s =>
          let s := { s with maxdelay := (m.max_write_delay * bufsize) % 4294967296 }
          match paged_loop rx CMD_WRITEFLASH m.buf bufsize n_bytes n_bytes s 0 buf with
          | .abort e s => .abort e s
          | .ok (written, _) s =>
            if page_size = 0 then .abort .memory_fault s
            else
              let tmp := erase_param m.size written s.bootpages page_size
              let s := { s with maxdelay := (m.max_write_delay * tmp * page_size) % 4294967296 }
              match avrootloader_send_cmd rx s CMD_ERASEPAGES 4 (le_bytes32 tmp) with
              | .abort e s => .abort e s
              | .ok _ s => .ok n_bytes s

/-- One round of the EEPROM loop of avrootloader_paged_load: the block is received
straight into m->buf at written, then its CRC pair, then the status byte.  The
memory buffer is returned beside the outcome, so that it is known after a stop. -/
def load_eeprom_block (rx : Line) (s : Pgm) (mbuf : List Nat) (written bufsize : Nat) :
    List Nat × Outcome Unit :=
  let s := avrootloader_send s readeeprom 4
  match avrootloader_recv rx s bufsize with
  | .abort e s => (mbuf, .abort e s)
  | .ok block s =>
    if mbuf.length < written + bufsize then (mbuf, .abort .memory_fault s)
    else
      let mbuf := mbuf.take written ++ block ++ mbuf.drop (written + bufsize)
      match avrootloader_recv rx s 2 with
      | .abort e s => (mbuf, .abort e s)
      | .ok crc s =>
        let tmp := crc_loop 0 ((mbuf.drop written).take bufsize)
        if (tmp &&& 0xff) ≠ crc.getD 0 0 ∨ (tmp >>> 8) ≠ crc.getD 1 0 then
          (mbuf, .abort .eeprom_crc s)
        else (mbuf, avrootloader_vfy_cmd_sent rx s)

/-- The EEPROM loop of avrootloader_paged_load, for at most fuel rounds. -/
def load_eeprom_loop (rx : Line) (bufsize n_bytes : Nat) :
    Nat → Pgm → List Nat → Nat → List Nat × Outcome Unit
  | 0, s, mbuf, written =>
    if written < n_bytes then (mbuf, .abort .hang s) else (mbuf, .ok () s)
  | fuel + 1, s, mbuf, written =>
    if written < n_bytes then
      match load_eeprom_block rx s mbuf written bufsize with
      | (mbuf, .abort e s) => (mbuf, .abort e s)
      | (mbuf, .ok _ s) => load_eeprom_loop rx bufsize n_bytes fuel s mbuf (written + bufsize)
    else (mbuf, .ok () s)

/-- The function avrootloader_paged_load; the memory with its buffer is returned
beside the return value. -/
def avrootloader_paged_load (rx : Line) (s : Pgm) (p : AVRPART) (m : AVRMEM)
    (page_size n_bytes : Nat) : Outcome (Int × AVRMEM) :=
  if m.desc = "flash" then
    match s.internalbuf with
    | none => .abort .read_unsupported s
    | some internalbuf =>
      match compute_bufsize p.sram page_size n_bytes with
      | none => .abort .hang s
      | some bufsize =>
        match vla (bufsize + 2) 0 with
        | none => .abort .memory_fault s
        | some buf =>
          match avrootloader_set_addr rx s (0 >>> 1) with
          | .abort e s => .abort e s
          | .ok _ s =>
            if internalbuf.length < n_bytes ∨ m.buf.length < n_bytes then
              .abort .memory_fault s
            else
              let m := { m with buf := memcpy m.buf internalbuf n_bytes }
              let s := { s with maxdelay := 5000 }
              match paged_loop rx CMD_VERIFYFLASH internalbuf bufsize n_bytes n_bytes s 0 buf with
              | .abort e s => .abort e s
              | .ok _ s => .ok (n_bytes, m) s
  else if m.desc = "eeprom" then
    match avr_locate_mem p "flash" with
    | none => .abort .memory_fault s
    | some fl =>
      let bufsize := fl.page_size * 2
      let s := { s with maxdelay := 5000 }
      match load_eeprom_loop rx bufsize n_bytes n_bytes s m.buf 0 with
      | (_, .abort e s) => .abort e s
      | (mbuf, .ok _ s) => .ok (n_bytes, { m with buf := mbuf }) s
  else .ok (n_bytes, m) s

/-! ## Byte reads -/

/-- The loop of avrootloader_read_byte_flash: every chunk of the first nbytes
bytes of m->buf is sent with the header in setbuf and a VERIFYFLASH frame, for at
most fuel rounds.  A read of m->buf behind its end stops the run. -/
def read_byte_flash_loop (rx : Line) (src setbuf : List Nat) (bufsize : Nat) :
    Nat → Pgm → Nat → List Nat → Outcome (Nat × List Nat)
  | 0, s, written, buf =>
    if written < s.nbytes then .abort .hang s else .ok (written, buf) s
  | fuel + 1, s, written, buf =>
    if written < s.nbytes then
      let buf :=
        if written + bufsize > s.nbytes then
          memcpy (memset buf 0xff bufsize) (src.drop written) (s.nbytes - written)
        else memcpy buf (src.drop written) bufsize
      if buf.length < bufsize + 2 then .abort .memory_fault s
      else
        let crc := crc_loop 0 (buf.take bufsize)
        let buf := buf.set bufsize (crc &&& 0xff)
        let buf := buf.set (bufsize + 1) ((crc >>> 8) % 256)
        let s := { s with maxdelay := 5000 }
        let s := avrootloader_send s setbuf 6
        let s := avrootloader_send s buf (bufsize + 2)
        match avrootloader_vfy_cmd_sent rx s with
        | .abort e s => .abort e s
        | .ok _ s =>
          let s := avrootloader_send s vrfyflash 4
          match avrootloader_vfy_cmd_sent rx s with
          | .abort e s => .abort e s
          | .ok _ s =>
            let s := report_progress s (written + bufsize) s.nbytes
            read_byte_flash_loop rx src setbuf bufsize fuel s (written + bufsize) buf
    else .ok (written, buf) s

/-- The header that avrootloader_read_byte_flash sends before every chunk: its
local setbuf with the CRC of the first four bytes stored again. -/
def read_byte_flash_header : List Nat :=
  let crc := crc_loop 0 (setbuf.take 4)
  let setbuf := setbuf.set 4 (crc &&& 0xff)
  setbuf.set 5 ((crc >>> 8) % 256)

/-- The function avrootloader_read_byte_flash.  The byte the caller keeps in *value
is passed in and returned beside the return value; junk fills the local array
buf, which the source does not set before the first use.  The value returned is
that of a plain char. -/
def avrootloader_read_byte_flash (rx : Line) (s : Pgm) (p : AVRPART) (m : AVRMEM)
    (addr value junk : Nat) : Outcome (Int × Nat) :=
  match s.internalbuf with
  | none => .abort .read_unsupported s
  | some _ =>
    let bufsize := ((p.sram - (m.page_size : Int)) % 4294967296).toNat
    let bufsize := if bufsize = 0 then m.page_size else bufsize
    match vla (bufsize + 2) junk with
    | none => .abort .memory_fault s
    | some buf =>
      if m.page_size = 0 then .abort .memory_fault s
      else
        let r : Outcome (List Nat) :=
          if s.current_page_vrfy ≠ addr / m.page_size then
            match avrootloader_set_addr rx s (addr >>> 1) with
            | .abort e s => .abort e s
            | .ok _ s =>
              let s := { s with current_page_vrfy := addr / m.page_size }
              match read_byte_flash_loop rx m.buf read_byte_flash_header bufsize s.nbytes s 0 buf with
              | .abort e s => .abort e s
              | .ok (_, buf) s => .ok buf s
          else .ok buf s
        match r with
        | .abort e s => .abort e s
        | .ok buf s =>
          if s.page_size = 0 then .abort .memory_fault s
          else
            match buf.get? (addr % s.page_size) with
            | none => .abort .memory_fault s
            | some b => .ok (char_val b, value) s

/-- The function avrootloader_read_byte_eeprom; *value is returned beside the
return value. -/
def avrootloader_read_byte_eeprom (rx : Line) (s : Pgm) (p : AVRPART) (m : AVRMEM)
    (addr : Nat) : Outcome (Int × Nat) :=
  match avr_locate_mem p "flash" with
  | none => .abort .memory_fault s
  | some fl =>
    let bufsize := fl.page_size * 2
    let r : Outcome (List Nat) :=
      match s.eeprom with
      | some e => .ok e s
      | none =>
        let e := memset (List.replicate m.size 0) 0xff m.size
        let s := { s with eeprom := some e, maxdelay := 5000 }
        match load_eeprom_loop rx bufsize m.size m.size s e 0 with
        | (_, .abort er s) => .abort er s
        | (e, .ok _ s) => .ok e { s with eeprom := some e }
    match r with
    | .abort er s => .abort er s
    | .ok e s =>
      if addr < m.offset then .abort .memory_fault s
      else
        match e.get? (addr - m.offset) with
        | none => .abort .memory_fault s
        | some v => .ok (1, v) s

/-- The function avrootloader_read_byte; *value is passed in and returned beside
the return value. -/
def avrootloader_read_byte (rx : Line) (s : Pgm) (p : AVRPART) (m : AVRMEM)
    (addr value junk : Nat) : Outcome (Int × Nat) :=
  if m.desc = "flash" then avrootloader_read_byte_flash rx s p m addr value junk
  else if m.desc = "eeprom" then avrootloader_read_byte_eeprom rx s p m addr
  else .ok (1, 1) s

/-- The function avrootloader_read_sig_bytes; the memory with its buffer is
returned beside the return value. -/
def avrootloader_read_sig_bytes (s : Pgm) (m : AVRMEM) : Outcome (Int × AVRMEM) :=
  if m.size < 3 then .ok (-1, m) s
  else if m.buf.length < 3 then .abort .memory_fault s
  else
    let buf := m.buf.set 0 (s.sigbytes.getD 0 0)
    let buf := buf.set 1 (s.sigbytes.getD 1 0)
    let buf := buf.set 2 (s.sigbytes.getD 2 0)
    .ok (3, { m with buf := buf }) s

/-! ## The handshake -/

def INIT_TRIALS : Nat := 100
def VERSION_OFFSET_FROM_END : Nat := 3
def SIG_OFFSET_FROM_END : Nat := 4
def BOOTPAGES_OFFSET_FROM_END : Nat := 1

/-- The locals of avrootloader_initialize: char rcv[265], char tmp, unsigned int i
and errcnt. -/
structure InitLocals where
  rcv : List Nat
  tmp : Nat
  i : Nat
  errcnt : Nat
deriving DecidableEq, Repr

/-- The loop condition ((tmp != 0x30) || (i == 0)) && (i < sizeof(rcv)). -/
def initialize_cond (l : InitLocals) : Bool :=
  (l.tmp != 0x30 || l.i == 0) && decide (l.i < 265)

/-- One round of the receive loop of avrootloader_initialize.  The test
rcv[i] == trig[i] compares a plain char with an unsigned char: both are
converted to int, so a byte from 0x80 up in rcv is negative and differs from
every byte of trig. -/
def initialize_body (rx : Line) (s : Pgm) (l : InitLocals) : Outcome InitLocals :=
  let s1 := if l.i = 0 then (avrootloader_send_cmd rx s CMD_INIT 0 [l.tmp]).pgm else s
  match serial_probe rx s1 with
  | (true, s2) =>
    match avrootloader_recv rx s2 1 with
    | .abort e s3 => .abort e s3
    | .ok bs s3 =>
      let tmp := bs.headD l.tmp
      let rcv := l.rcv.set l.i tmp
      let l1 : InitLocals :=
        if l.i < strlen s3.trig then
          if char_val (rcv.getD l.i 0) = (s3.trig.getD l.i 0 : Int) then
            { rcv := rcv, tmp := tmp, i := l.i + 1, errcnt := l.errcnt }
          else { rcv := rcv, tmp := tmp, i := 0, errcnt := l.errcnt + 1 }
        else { rcv := rcv, tmp := tmp, i := l.i + 1, errcnt := l.errcnt }
      if l1.errcnt > INIT_TRIALS then .abort .timeout s3 else .ok l1 s3
  | (false, s2) =>
    let l1 : InitLocals := { l with errcnt := l.errcnt + 1 }
    if l1.errcnt > INIT_TRIALS then .abort .timeout s2 else .ok l1 s2

/-- The receive loop of avrootloader_initialize, for at most fuel rounds. -/
def initialize_loop (rx : Line) : Nat → Pgm → InitLocals → Outcome InitLocals
  | 0, s, l => if initialize_cond l then .abort .hang s else .ok l s
  | fuel + 1, s, l =>
    if initialize_cond l then
      match initialize_body rx s l with
      | .abort e s1 => .abort e s1
      | .ok l1 s1 => initialize_loop rx fuel s1 l1
    else .ok l s

/-- The locals on entry to the loop: rcv is cleared, i and errcnt are 0; tmp is
not set by the source and is given by the caller of this definition. -/
def initialize_entry (tmp : Nat) : InitLocals :=
  { rcv := List.replicate 265 0, tmp := tmp, i := 0, errcnt := 0 }

/-- The rounds the loop can need: each round advances i, at most 265 times in a
row, or counts an error trial, at most 101 times. -/
def initialize_fuel : Nat := 102 * 266

/-- The read rcv[i - k] with the unsigned int index i - k. -/
def rcv_at (rcv : List Nat) (i k : Nat) : Option Nat :=
  rcv.get? ((i + 4294967296 - k) % 4294967296)

/-- The part of avrootloader_initialize that follows the loop. -/
def initialize_parse (s : Pgm) (l : InitLocals) : Outcome Int :=
  match rcv_at l.rcv l.i 1 with
  | none => .abort .memory_fault s
  | some last =>
    if last &&& 0xf0 ≠ 0x30 then .abort (.unexpected_response last) s
    else
      match rcv_at l.rcv l.i VERSION_OFFSET_FROM_END, rcv_at l.rcv l.i 0,
        rcv_at l.rcv l.i BOOTPAGES_OFFSET_FROM_END,
        rcv_at l.rcv l.i (SIG_OFFSET_FROM_END + 1), rcv_at l.rcv l.i SIG_OFFSET_FROM_END with
      | some _, some feat, some pages, some sig1, some sig2 =>
        .ok 0 { s with features := feat &&& 0x0f, bootpages := pages,
                       sigbytes := [0x1e, sig1, sig2] }
      | _, _, _, _, _ => .abort .memory_fault s

/-- The function avrootloader_initialize; tmp is the indeterminate initial value
of the local of that name. -/
def avrootloader_initialize (rx : Line) (s : Pgm) (tmp : Nat) : Outcome Int :=
  match initialize_loop rx initialize_fuel s (initialize_entry tmp) with
  | .abort e s1 => .abort e s1
  | .ok l s1 => initialize_parse s1 l

/-! ## Configurations used in the concrete runs -/

/-- The default trigger that avrootloader_parseextparms stores in trig:
the text (c) 2009 HR and its terminating NUL. -/
def back : List Nat := [40, 99, 41, 32, 50, 48, 48, 57, 32, 72, 82, 0]

/-- The default key that avrootloader_parseextparms stores in key:
the text BOOTLOADER and its terminating NUL. -/
def loader : List Nat := [66, 79, 79, 84, 76, 79, 65, 68, 69, 82, 0]

/-- The two bytes of a CRC, low byte first. -/
def crc_bytes (c : Nat) : List Nat := [c % 256, c / 256]

/-- The switch of avrootloader_vfy_cmd_sent as a table: the error a status byte
stands for, none for the success code. -/
def status_kind (c : Nat) : Option Fatal :=
  if c = 0xc0 then some .verification
  else if c = 0xc1 then some .unknown_command
  else if c = 0xc2 then some .crc
  else if c = 0xc3 then some .boundary
  else if c = 0xc4 then some .decryption
  else if c = 0xc5 then some .programming
  else if c = 0xc6 then some .wrong_version
  else if c = 0x30 then none
  else some (.unknown (c &&& 0xff))

/-- The data of the chunk that starts at address written: the next bufsize bytes
of the source, or what is left of its first n_bytes bytes, filled up with 0xFF. -/
def chunk_at (src : List Nat) (bufsize n_bytes written : Nat) : List Nat :=
  if written + bufsize > n_bytes then
    (src.drop written).take (n_bytes - written) ++
      List.replicate (bufsize - (n_bytes - written)) 0xff
  else (src.drop written).take bufsize

/-- The chunks of a paged transfer in the order of their addresses written,
written + bufsize, ... below n_bytes (at most fuel of them). -/
def chunks_from (src : List Nat) (bufsize n_bytes : Nat) : Nat → Nat → List (List Nat)
  | 0, _ => []
  | fuel + 1, written =>
    if written < n_bytes then
      chunk_at src bufsize n_bytes written ::
        chunks_from src bufsize n_bytes fuel (written + bufsize)
    else []

/-- The three buffers sent for one chunk with data d: SENDBUF header, data with
CRC trailer, commit frame. -/
def chunk_frames (commit : List Nat) (bufsize : Nat) (d : List Nat) : List (List Nat) :=
  [sendbuf_header (bufsize + 2), d ++ crc_bytes (crc16 d), commit]

/-- The commit frame that avrootloader_send_cmd sends after the buffer. -/
def commit_frame (cmd : Nat) : List Nat :=
  if cmd = CMD_WRITEFLASH then writeflash
  else if cmd = CMD_WRITEE then writeeeprom
  else vrfyflash

/-- The rounds in which the program counts an error trial, for the round that
starts in state s with locals l: the probe fails, or i is below the length of the
trigger and the byte received, taken as a plain char, differs from trig[i]. -/
def is_error_trial (rx : Line) (s : Pgm) (l : InitLocals) : Bool :=
  match rx s.rxpos with
  | none => true
  | some b => decide (l.i < strlen s.trig) &&
      (char_val (b % 256) != (s.trig.getD l.i 0 : Int))

/-- An error trial in the sense of section 4.3 of the spec: the probe fails, or i is
below the length of the trigger and the byte received differs from the byte
trig[i]. -/
def spec_error_trial (rx : Line) (s : Pgm) (l : InitLocals) : Bool :=
  match rx s.rxpos with
  | none => true
  | some b => decide (l.i < strlen s.trig) && (b % 256 != s.trig.getD l.i 0)

/-- The states at the head of the receive loop that a run which entered the loop
in state s0 with locals l0 goes through. -/
inductive InitReach (rx : Line) (s0 : Pgm) (l0 : InitLocals) : Pgm → InitLocals → Prop
  | entry : InitReach rx s0 l0 s0 l0
  | round {s s1 : Pgm} {l l1 : InitLocals} : InitReach rx s0 l0 s l →
      initialize_cond l = true → initialize_body rx s l = .ok l1 s1 →
      InitReach rx s0 l0 s1 l1

/-- The number of rounds the receive loop can still make. -/
def init_measure (l : InitLocals) : Nat :=
  (101 - l.errcnt) * 266 + (265 - l.i)

/-- The three buffers of an INIT frame for the key array key: hello, the key up to
its NUL, and the CRC pair that avrootloader_send_cmd computes. -/
def init_frames (key : List Nat) : List (List Nat) :=
  [helo, key.take (strlen key), crc_bytes (crc16 (key.take (strlen key)))]

/-- On the line, from event pos on: a block of bufsize bytes, the CRC pair of that
block, and the status byte 0x30. -/
def good_block (rx : Line) (bufsize pos : Nat) : Prop :=
  ∃ blk p1 p2, serial_recv rx bufsize pos = some (blk, p1) ∧
    serial_recv rx 2 p1 = some (crc_bytes (crc16 blk), p2) ∧ rx p2 = some 0x30

/-- On the line, from event pos on: a block of bufsize bytes and a pair of bytes
that is not the CRC pair of that block. -/
def bad_block (rx : Line) (bufsize pos : Nat) : Prop :=
  ∃ blk c0 c1 p1 p2, serial_recv rx bufsize pos = some (blk, p1) ∧
    serial_recv rx 2 p1 = some ([c0, c1], p2) ∧ [c0, c1] ≠ crc_bytes (crc16 blk)

/-! ## Basic facts -/

theorem and_ff (x : Nat) : x &&& 0xff = x % 256 :=
  Nat.and_pow_two_sub_one_eq_mod x 8

theorem shr8 (x : Nat) : x >>> 8 = x / 256 :=
  Nat.shiftRight_eq_div_pow x 8

theorem calcCRC16r_loop_lt (n : Nat) : ∀ crc c : Nat, crc < 65536 →
    calcCRC16r_loop n crc c 0xa001 < 65536 := by
  induction n with
  | zero => intro crc c h; simpa [calcCRC16r_loop] using h
  | succ n ih =>
    intro crc c h
    simp only [calcCRC16r_loop]
    apply ih
    have h1 : crc >>> 1 < 2 ^ 16 := by
      rw [Nat.shiftRight_eq_div_pow]; omega
    simp only [calcCRC16r_bit]
    split
    · exact Nat.xor_lt_two_pow h1 (by norm_num)
    · simpa using h1

theorem calcCRC16r_lt (crc c : Nat) (h : crc < 65536) : calcCRC16r crc c 0xa001 < 65536 :=
  calcCRC16r_loop_lt 8 crc (c % 256) h

theorem foldl_crc_lt (l : List Nat) : ∀ t : Nat, t < 65536 →
    l.foldl (fun t b => calcCRC16r t b 0xa001) t < 65536 := by
  induction l with
  | nil => intro t h; simpa using h
  | cons b l ih => intro t h; simpa using ih _ (calcCRC16r_lt t b h)

theorem crc_loop_eq_foldl (l : List Nat) : ∀ t : Nat, t < 65536 →
    crc_loop t l = l.foldl (fun t b => calcCRC16r t b 0xa001) t := by
  induction l with
  | nil => intro t _; rfl
  | cons b l ih =>
    intro t h
    have h1 := calcCRC16r_lt t b h
    simp only [crc_loop, List.foldl_cons, Nat.mod_eq_of_lt h1]
    exact ih _ h1

theorem crc_loop_zero (l : List Nat) : crc_loop 0 l = crc16 l :=
  crc_loop_eq_foldl l 0 (by norm_num)

theorem crc16_lt (l : List Nat) : crc16 l < 65536 :=
  foldl_crc_lt l 0 (by norm_num)

theorem crc_lo (l : List Nat) : crc_loop 0 l &&& 0xff = crc16 l % 256 := by
  rw [and_ff, crc_loop_zero]

theorem crc_hi (l : List Nat) : (crc_loop 0 l >>> 8) &&& 0xff = crc16 l / 256 := by
  have := crc16_lt l
  rw [and_ff, shr8, crc_loop_zero]; omega

theorem crc_hi_mod (l : List Nat) : (crc_loop 0 l >>> 8) % 256 = crc16 l / 256 := by
  have := crc16_lt l
  rw [shr8, crc_loop_zero]; omega

/-- A status read leaves everything but the read cursor as it was. -/
theorem recv_pgm (rx : Line) (s : Pgm) (len : Nat) :
    ∃ r, (avrootloader_recv rx s len).pgm = { s with rxpos := r } := by
  unfold avrootloader_recv serial_probe
  cases h : rx s.rxpos with
  | none => exact ⟨s.rxpos + 1, rfl⟩
  | some b =>
    simp only
    cases h2 : serial_recv rx len s.rxpos with
    | none => exact ⟨s.rxpos, rfl⟩
    | some q => exact ⟨q.2, rfl⟩

theorem vfy_pgm (rx : Line) (s : Pgm) :
    ∃ r, (avrootloader_vfy_cmd_sent rx s).pgm = { s with rxpos := r } := by
  obtain ⟨r, hr⟩ := recv_pgm rx s 1
  unfold avrootloader_vfy_cmd_sent
  cases h : avrootloader_recv rx s 1 with
  | abort e s1 => rw [h] at hr; exact ⟨r, hr⟩
  | ok bs s1 =>
    rw [h] at hr
    refine ⟨r, ?_⟩
    simp only [Outcome.pgm] at hr
    subst hr
    simp only
    repeat (split; rfl)
    rfl

theorem vfy_tx (rx : Line) (s : Pgm) : (avrootloader_vfy_cmd_sent rx s).pgm.tx = s.tx := by
  obtain ⟨r, hr⟩ := vfy_pgm rx s
  rw [hr]

/-- What avrootloader_recv does when a byte is waiting. -/
theorem recv_one (rx : Line) (s : Pgm) (c : Nat) (h : rx s.rxpos = some c) :
    avrootloader_recv rx s 1 = .ok [c % 256] { s with rxpos := s.rxpos + 1 } := by
  simp [avrootloader_recv, serial_probe, serial_recv, h]

/-- An acknowledged command. -/
theorem vfy_ack (rx : Line) (s : Pgm) (h : rx s.rxpos = some 0x30) :
    avrootloader_vfy_cmd_sent rx s = .ok () { s with rxpos := s.rxpos + 1 } := by
  simp [avrootloader_vfy_cmd_sent, recv_one rx s 0x30 h]

theorem sendbuf_header_eq (p : Nat) (h2 : 2 ≤ p) (hp : p < 4294967296) :
    sendbuf_header p = [0xfe, 0x00, (p - 2) / 256 % 256, (p - 2) % 256] ++
      crc_bytes (crc16 [0xfe, 0x00, (p - 2) / 256 % 256, (p - 2) % 256]) := by
  have hlen : (p + 4294967294) % 4294967296 = p - 2 := by omega
  simp [sendbuf_header, hlen, setbuf, crc_lo, crc_hi, and_ff, shr8, crc_bytes]
  have h := crc_loop_zero [254, 0, (p - 2) / 256 % 256, (p - 2) % 256]
  have hl := crc16_lt [254, 0, (p - 2) / 256 % 256, (p - 2) % 256]
  rw [h]
  omega

theorem take_set_crc (a b : Nat) : ∀ (q : Nat) (buf : List Nat), q + 2 ≤ buf.length →
    ((buf.set q a).set (q + 1) b).take (q + 2) = buf.take q ++ [a, b] := by
  intro q
  induction q with
  | zero =>
    intro buf hlen
    match buf, hlen with
    | x :: y :: rest, _ => simp
  | succ q ih =>
    intro buf hlen
    match buf, hlen with
    | x :: rest, hl =>
      simp only [List.length_cons] at hl
      have := ih rest (by omega)
      simp only [List.set_cons_succ, List.take_succ_cons, List.cons_append]
      rw [this]

/-- The bytes that the case CMD_SENDBUF hands to serial_send. -/
theorem send_cmd_SENDBUF_tx (rx : Line) (s : Pgm) (p : Nat) (buf : List Nat)
    (h2 : 2 ≤ p) (hlen : p ≤ buf.length) :
    (send_cmd_SENDBUF rx s p buf).pgm.tx = s.tx ++
      [(sendbuf_header p).take 6,
       buf.take (p - 2) ++ crc_bytes (crc16 (buf.take (p - 2)))] := by
  obtain ⟨q, rfl⟩ : ∃ q, p = q + 2 := ⟨p - 2, by omega⟩
  unfold send_cmd_SENDBUF
  have hc : ¬ (q + 2 < 2 ∨ buf.length < q + 2) := by omega
  simp only [hc, if_false]
  have key : ∀ o : Outcome Unit, ∀ v : Int × List Nat,
      (match o with
        | .abort e s => (Outcome.abort e s : Outcome (Int × List Nat))
        | .ok _ s => .ok v s).pgm = o.pgm := by
    intro o v; cases o <;> rfl
  have e1 : q + 2 - 2 = q := by omega
  have e2 : q + 2 - 1 = q + 1 := by omega
  rw [key, vfy_tx]
  simp only [avrootloader_send, serial_send, e1, e2, crc_lo, crc_hi,
    take_set_crc _ _ q buf hlen, crc_bytes, List.append_assoc, List.cons_append,
    List.nil_append]

theorem sendbuf_header_length (p : Nat) : (sendbuf_header p).length = 6 := by
  simp [sendbuf_header, setbuf]

theorem sendbuf_header_take (p : Nat) : (sendbuf_header p).take 6 = sendbuf_header p := by
  rw [List.take_of_length_le]; rw [sendbuf_header_length]

/-- An acknowledged SENDBUF. -/
theorem send_cmd_SENDBUF_ack (rx : Line) (s : Pgm) (b : Nat) (buf : List Nat)
    (hlen : buf.length = b + 2) (hack : rx s.rxpos = some 0x30) :
    ∃ buf1, buf1.length = b + 2 ∧
      send_cmd_SENDBUF rx s (b + 2) buf = .ok (0, buf1)
        { s with rxpos := s.rxpos + 1,
                 tx := s.tx ++ [sendbuf_header (b + 2),
                                buf.take b ++ crc_bytes (crc16 (buf.take b))] } := by
  unfold send_cmd_SENDBUF
  have hc : ¬ (b + 2 < 2 ∨ buf.length < b + 2) := by omega
  have hv : ∀ t, avrootloader_vfy_cmd_sent rx { s with tx := t } =
      .ok () { s with tx := t, rxpos := s.rxpos + 1 } :=
    fun t => vfy_ack rx { s with tx := t } hack
  have e1 : b + 2 - 2 = b := by omega
  have e2 : b + 2 - 1 = b + 1 := by omega
  simp only [hc, if_false, avrootloader_send, serial_send, sendbuf_header_take, hv, e1, e2,
    crc_lo, crc_hi]
  rw [take_set_crc _ _ b buf (by omega)]
  refine ⟨(buf.set b (crc16 (List.take b buf) % 256)).set (b + 1)
    (crc16 (List.take b buf) / 256), by simp [hlen], ?_⟩
  simp [crc_bytes]

/-- An acknowledged chunk: SENDBUF and commit. -/
theorem send_cmd_chunk_ack (rx : Line) (s : Pgm) (cmd b : Nat) (buf : List Nat)
    (hcmd : cmd = CMD_WRITEFLASH ∨ cmd = CMD_WRITEE ∨ cmd = CMD_VERIFYFLASH)
    (hlen : buf.length = b + 2) (hack : rx s.rxpos = some 0x30)
    (hack1 : rx (s.rxpos + 1) = some 0x30) :
    ∃ buf1, buf1.length = b + 2 ∧
      avrootloader_send_cmd rx s cmd (b + 2) buf = .ok (0, buf1)
        { s with rxpos := s.rxpos + 2,
                 tx := s.tx ++ chunk_frames (commit_frame cmd) b (buf.take b) } := by
  obtain ⟨buf1, hl1, h1⟩ := send_cmd_SENDBUF_ack rx s b buf hlen hack
  refine ⟨buf1, hl1, ?_⟩
  rcases hcmd with h | h | h <;> subst h <;>
    simp only [avrootloader_send_cmd, CMD_WRITEFLASH, CMD_WRITEE, CMD_VERIFYFLASH, CMD_INIT,
      CMD_ERASEPAGES, h1, avrootloader_send, serial_send, commit_frame, chunk_frames] <;>
    simp only [OfNat.ofNat_ne_one, if_false, if_true, Nat.reduceEqDiff] <;>
    rw [vfy_ack rx _ hack1] <;>
    simp [writeflash, writeeeprom, vrfyflash]

theorem fill_chunk (src buf : List Nat) (b n w : Nat) (hw : w < n) (hsrc : n ≤ src.length)
    (hlen : buf.length = b + 2) :
    (if w + b > n then memcpy (memset buf 0xff b) (src.drop w) (n - w)
      else memcpy buf (src.drop w) b).length = b + 2 ∧
    (if w + b > n then memcpy (memset buf 0xff b) (src.drop w) (n - w)
      else memcpy buf (src.drop w) b).take b = chunk_at src b n w := by
  unfold chunk_at memcpy memset
  split
  · have h1 : ((src.drop w).take (n - w)).length = n - w := by
      simp only [List.length_take, List.length_drop]; omega
    have h2 : (List.replicate b 255 ++ List.drop b buf).drop (n - w) =
        List.replicate (b - (n - w)) 255 ++ List.drop b buf := by
      rw [List.drop_append_of_le_length (by simp; omega), List.drop_replicate]
    rw [h2]
    constructor
    · simp only [List.length_append, h1, List.length_replicate, List.length_drop]; omega
    · rw [← List.append_assoc, List.take_append_of_le_length
        (by simp only [List.length_append, h1, List.length_replicate]; omega),
        List.take_of_length_le
        (by simp only [List.length_append, h1, List.length_replicate]; omega)]
  · have h1 : ((src.drop w).take b).length = b := by
      simp only [List.length_take, List.length_drop]; omega
    constructor
    · simp only [List.length_append, h1, List.length_drop]; omega
    · rw [List.take_append_of_le_length (by omega), List.take_of_length_le (by omega)]

theorem chunks_from_done (src : List Nat) (b n fuel w : Nat) (h : n ≤ w) :
    chunks_from src b n fuel w = [] := by
  cases fuel with
  | zero => rfl
  | succ f => simp [chunks_from]; omega

/-- The chunk loop on a device that acknowledges every command. -/
theorem paged_loop_run (rx : Line) (cmd : Nat) (src : List Nat) (b n : Nat)
    (hcmd : cmd = CMD_WRITEFLASH ∨ cmd = CMD_WRITEE ∨ cmd = CMD_VERIFYFLASH)
    (hsrc : n ≤ src.length) :
    ∀ (fuel : Nat) (s : Pgm) (w : Nat) (buf : List Nat), buf.length = b + 2 →
      (∀ k, s.rxpos ≤ k → rx k = some 0x30) → n ≤ w + fuel * b →
      ∃ buf1, paged_loop rx cmd src b n fuel s w buf =
        .ok (w + (chunks_from src b n fuel w).length * b, buf1)
          { s with
              rxpos := s.rxpos + 2 * (chunks_from src b n fuel w).length,
              tx := s.tx ++ (chunks_from src b n fuel w).flatMap
                      (chunk_frames (commit_frame cmd) b),
              progress := s.progress ++
                (List.range (chunks_from src b n fuel w).length).map
                  (fun j => (w + (j + 1) * b, n)) } := by
  intro fuel
  induction fuel with
  | zero =>
    intro s w buf _ _ hn
    have hw : ¬ w < n := by omega
    exact ⟨buf, by simp [paged_loop, chunks_from, hw]⟩
  | succ f ih =>
    intro s w buf hlen hack hn
    by_cases hw : w < n
    · obtain ⟨hl1, ht1⟩ := fill_chunk src buf b n w hw hsrc hlen
      obtain ⟨buf1, hl2, h2⟩ := send_cmd_chunk_ack rx s cmd b _ hcmd hl1
        (hack _ (le_refl _)) (hack _ (by omega))
      have hov : ¬ buf.length < b := by omega
      simp only [paged_loop, hw, if_true, hov, if_false]
      simp only [hlen, h2, ht1, report_progress]
      obtain ⟨buf2, h3⟩ := ih
        { s with rxpos := s.rxpos + 2,
                 tx := s.tx ++ chunk_frames (commit_frame cmd) b (chunk_at src b n w),
                 progress := s.progress ++ [(w + b, n)] }
        (w + b) buf1 hl2 (fun k hk => hack k (by simp only at hk; omega))
        (by rw [Nat.succ_mul] at hn; omega)
      refine ⟨buf2, ?_⟩
      rw [h3]
      simp only [chunks_from, hw, if_true, List.length_cons, List.flatMap_cons,
        List.append_assoc, List.range_succ_eq_map, List.map_cons, List.map_map]
      congr 1
      · congr 1
        rw [Nat.succ_mul]; omega
      · congr 1
        · omega
        · congr 1
          simp only [List.cons_append, List.singleton_append, zero_add, one_mul,
            List.cons.injEq, true_and]
          apply List.map_congr_left
          intro j _
          simp only [Function.comp, Nat.succ_eq_add_one]
          congr 1
          ring
    · exact ⟨buf, by simp [paged_loop, chunks_from, hw]⟩

/-- The chunks cover the first n bytes of the source from w on, and the last one is
filled up with 0xFF. -/
theorem chunks_from_flatten (src : List Nat) (b n : Nat) (hsrc : n ≤ src.length) :
    ∀ (fuel w : Nat), w ≤ n → n ≤ w + fuel * b →
      (chunks_from src b n fuel w).flatten =
        (src.take n).drop w ++
          List.replicate (w + (chunks_from src b n fuel w).length * b - n) 0xff := by
  intro fuel
  induction fuel with
  | zero =>
    intro w h1 h2
    have : w = n := by omega
    subst this
    simp [chunks_from, List.drop_eq_nil_iff]
  | succ f ih =>
    intro w h1 h2
    by_cases hw : w < n
    · simp only [chunks_from, hw, if_true, List.flatten_cons, List.length_cons]
      by_cases hlast : w + b > n
      · rw [chunks_from_done src b n f (w + b) (by omega)]
        simp only [chunk_at, hlast, if_true, List.flatten_nil, List.append_nil, List.length_nil,
          zero_add, one_mul]
        rw [List.drop_take]
        congr 2
        omega
      · rw [ih (w + b) (by omega) (by rw [Nat.succ_mul] at h2; omega)]
        simp only [chunk_at, hlast, if_false]
        rw [← List.append_assoc]
        congr 1
        · rw [List.drop_take, List.drop_take, ← List.drop_drop]
          have h3 : (List.drop w src).take b = ((List.drop w src).take (n - w)).take b := by
            rw [List.take_take, min_eq_left (by omega)]
          rw [h3]
          conv_rhs => rw [← List.take_append_drop b (List.take (n - w) (List.drop w src))]
          rw [List.drop_take, show n - (w + b) = n - w - b by omega]
        · congr 1
          rw [Nat.succ_mul]; omega
    · have : w = n := by omega
      subst this
      simp [chunks_from, List.drop_eq_nil_iff]

theorem chunks_from_length_each (src : List Nat) (b n : Nat) (hsrc : n ≤ src.length) :
    ∀ (fuel w : Nat), ∀ d ∈ chunks_from src b n fuel w, d.length = b := by
  intro fuel
  induction fuel with
  | zero => intro w d hd; simp [chunks_from] at hd
  | succ f ih =>
    intro w d hd
    by_cases hw : w < n
    · simp only [chunks_from, hw, if_true, List.mem_cons] at hd
      rcases hd with hd | hd
      · subst hd
        unfold chunk_at
        split
        · simp only [List.length_append, List.length_take, List.length_drop,
            List.length_replicate]; omega
        · simp only [List.length_take, List.length_drop]; omega
      · exact ih _ d hd
    · simp [chunks_from, hw] at hd

/-- The number of chunks is n - w divided by b, rounded up. -/
theorem chunks_from_count (src : List Nat) (b n : Nat) (hb : 0 < b) :
    ∀ (fuel w : Nat), w ≤ n → n ≤ w + fuel * b →
      n ≤ w + (chunks_from src b n fuel w).length * b ∧
      w + (chunks_from src b n fuel w).length * b < n + b := by
  intro fuel
  induction fuel with
  | zero => intro w h1 h2; simp [chunks_from]; omega
  | succ f ih =>
    intro w h1 h2
    by_cases hw : w < n
    · simp only [chunks_from, hw, if_true, List.length_cons]
      by_cases hlast : w + b > n
      · rw [chunks_from_done src b n f (w + b) (by omega)]
        simp only [List.length_nil, zero_add, one_mul]; omega
      · have := ih (w + b) (by omega) (by rw [Nat.succ_mul] at h2; omega)
        rw [Nat.succ_mul]; omega
    · simp [chunks_from, hw]; omega

theorem chunks_from_ceil (src : List Nat) (b n : Nat) (hb : 0 < b) :
    (chunks_from src b n n 0).length = (n + b - 1) / b := by
  have h := chunks_from_count src b n hb n 0 (Nat.zero_le _)
    (by have := Nat.le_mul_of_pos_right n hb; omega)
  symm
  apply Nat.div_eq_of_lt_le
  · omega
  · rw [Nat.succ_mul]; omega

theorem grow_bufsize_some (ps n : Nat) : ∀ (fuel bs : Nat), n ≤ bs + fuel * ps →
    ∃ r, grow_bufsize ps n (fuel + 1) bs = some r := by
  intro fuel
  induction fuel with
  | zero =>
    intro bs h
    have : ¬ bs < n := by omega
    exact ⟨bs, by simp [grow_bufsize, this]⟩
  | succ f ih =>
    intro bs h
    by_cases hlt : bs < n
    · obtain ⟨r, hr⟩ := ih (bs + ps) (by rw [Nat.succ_mul] at h; omega)
      exact ⟨r, by rw [grow_bufsize]; simp only [hlt, if_true]; exact hr⟩
    · exact ⟨bs, by rw [grow_bufsize]; simp [hlt]⟩

/-- With a positive page size the chunk size is defined and positive. -/
theorem compute_bufsize_pos (sram : Int) (ps n : Nat) (hps : 0 < ps) :
    ∃ b, compute_bufsize sram ps n = some b ∧ 0 < b := by
  unfold compute_bufsize
  split
  · obtain ⟨r, hr⟩ := grow_bufsize_some ps n n 0
      (by have := Nat.le_mul_of_pos_right n hps; omega)
    rw [hr]
    refine ⟨_, rfl, ?_⟩
    split <;> omega
  · refine ⟨_, rfl, ?_⟩
    split <;> omega

theorem set_addr_frame_take (addr : Nat) : (set_addr_frame addr).take 6 = set_addr_frame addr := by
  rw [List.take_of_length_le]; simp [set_addr_frame]

theorem erase_frame_take (x : Nat) : (erase_frame x).take 4 = erase_frame x := by
  rw [List.take_of_length_le]; simp [erase_frame, erase]

/-- An acknowledged SET ADDRESS. -/
theorem set_addr_ack (rx : Line) (s : Pgm) (addr : Nat) (hack : rx s.rxpos = some 0x30) :
    avrootloader_set_addr rx s addr =
      .ok () { s with rxpos := s.rxpos + 1, tx := s.tx ++ [set_addr_frame addr] } := by
  have hv : ∀ t, avrootloader_vfy_cmd_sent rx { s with tx := t } =
      .ok () { s with tx := t, rxpos := s.rxpos + 1 } :=
    fun t => vfy_ack rx { s with tx := t } hack
  simp only [avrootloader_set_addr, avrootloader_send, serial_send, hv, set_addr_frame_take]

/-- An acknowledged ERASEPAGES. -/
theorem erase_ack (rx : Line) (s : Pgm) (n x : Nat) (rest : List Nat)
    (hack : rx s.rxpos = some 0x30) :
    avrootloader_send_cmd rx s CMD_ERASEPAGES n (x :: rest) =
      .ok (0, x :: rest) { s with rxpos := s.rxpos + 1, tx := s.tx ++ [erase_frame x] } := by
  simp only [avrootloader_send_cmd, CMD_ERASEPAGES, CMD_INIT, CMD_WRITEFLASH, CMD_WRITEE]
  have hv : ∀ t, avrootloader_vfy_cmd_sent rx { s with tx := t } =
      .ok () { s with tx := t, rxpos := s.rxpos + 1 } :=
    fun t => vfy_ack rx { s with tx := t } hack
  simp only [OfNat.ofNat_ne_one, if_false, Nat.reduceEqDiff, if_true, avrootloader_send,
    serial_send, erase_frame_take, hv]

/-- A variable length array that fits the stack. -/
theorem vla_eq (size fill : Nat) (h : size ≤ STACK_LIMIT) :
    vla size fill = some (List.replicate size fill) := by
  have h1 : size % 4294967296 = size := by
    apply Nat.mod_eq_of_lt
    simp only [STACK_LIMIT] at h
    omega
  unfold vla
  rw [h1, if_neg (by omega)]

/-- The complete run of avrootloader_paged_write_flash on a device that acknowledges
every command: the value returned and the state reached. -/
theorem paged_write_flash_run (rx : Line) (s : Pgm) (p : AVRPART) (m : AVRMEM)
    (ps n b : Nat) (hack : ∀ k, s.rxpos ≤ k → rx k = some 0x30) (hps : 0 < ps)
    (hb : compute_bufsize p.sram ps n = some b) (hvla : b + 2 ≤ STACK_LIMIT)
    (hn : n ≤ m.buf.length) :
    avrootloader_paged_write_flash rx s p m ps n = .ok n
      { s with
          rxpos := s.rxpos + 1 + 2 * (chunks_from m.buf b n n 0).length + 1,
          tx := s.tx ++ [set_addr_frame 0] ++
            (chunks_from m.buf b n n 0).flatMap (chunk_frames writeflash b) ++
            [erase_frame (erase_param m.size ((chunks_from m.buf b n n 0).length * b)
              s.bootpages ps % 256)],
          progress := s.progress ++
            (List.range (chunks_from m.buf b n n 0).length).map (fun j => ((j + 1) * b, n)),
          page_size := ps,
          nbytes := n,
          internalbuf := some (m.buf.take n ++ List.replicate ps 0xff),
          maxdelay := (m.max_write_delay *
            erase_param m.size ((chunks_from m.buf b n n 0).length * b) s.bootpages ps * ps)
              % 4294967296 } := by
  obtain ⟨b1, hb1, hbpos⟩ := compute_bufsize_pos p.sram ps n hps
  rw [hb] at hb1
  cases hb1
  have hlen : ¬ m.buf.length < n := by omega
  have hps0 : ¬ ps = 0 := by omega
  have e0 : (0 : Nat) >>> 1 = 0 := rfl
  have hA := set_addr_ack rx
    { s with page_size := ps, nbytes := n,
             internalbuf := some (memcpy (memset (List.replicate (n + ps) 0) 255 (n + ps)) m.buf n) }
    0 (hack _ (le_refl _))
  obtain ⟨buf1, hB⟩ := paged_loop_run rx CMD_WRITEFLASH m.buf b n (Or.inl rfl) hn n
    { s with rxpos := s.rxpos + 1, tx := s.tx ++ [set_addr_frame 0], page_size := ps,
             nbytes := n,
             internalbuf := some (memcpy (memset (List.replicate (n + ps) 0) 255 (n + ps)) m.buf n),
             maxdelay := (m.max_write_delay * b) % 4294967296 }
    0 (List.replicate (b + 2) 0) (by simp) (fun k hk => hack k (by simp only at hk; omega))
    (by have := Nat.le_mul_of_pos_right n hbpos; omega)
  have hC := fun (tmp : Nat) (t : List (List Nat)) (pr : List (Nat × Nat)) (r : Nat)
      (hr : s.rxpos ≤ r) => erase_ack rx
    { s with rxpos := r, tx := t, progress := pr, page_size := ps, nbytes := n,
             internalbuf := some (memcpy (memset (List.replicate (n + ps) 0) 255 (n + ps)) m.buf n),
             maxdelay := (m.max_write_delay * tmp * ps) % 4294967296 }
    4 (tmp % 256) [tmp / 256 % 256, tmp / 65536 % 256, tmp / 16777216 % 256] (hack r hr)
  simp only [avrootloader_paged_write_flash, hb, vla_eq (b + 2) 0 hvla, hlen, if_false, e0, hA,
    hB, hps0, le_bytes32]
  rw [hC _ _ _ _ (by omega)]
  simp only [zero_add, commit_frame, CMD_WRITEFLASH, if_true, Outcome.ok.injEq, true_and]
  simp [memcpy, memset, List.append_assoc]

/-- The complete run of the flash branch of avrootloader_paged_load on a device that
acknowledges every command. -/
theorem paged_load_flash_run (rx : Line) (s : Pgm) (p : AVRPART) (m : AVRMEM)
    (ps n b : Nat) (ib : List Nat) (hm : m.desc = "flash") (hib : s.internalbuf = some ib)
    (hack : ∀ k, s.rxpos ≤ k → rx k = some 0x30) (hps : 0 < ps)
    (hb : compute_bufsize p.sram ps n = some b) (hvla : b + 2 ≤ STACK_LIMIT)
    (hn : n ≤ m.buf.length) (hni : n ≤ ib.length) :
    avrootloader_paged_load rx s p m ps n =
      .ok (n, { m with buf := ib.take n ++ m.buf.drop n })
      { s with
          rxpos := s.rxpos + 1 + 2 * (chunks_from ib b n n 0).length,
          tx := s.tx ++ [set_addr_frame 0] ++
            (chunks_from ib b n n 0).flatMap (chunk_frames vrfyflash b),
          progress := s.progress ++
            (List.range (chunks_from ib b n n 0).length).map (fun j => ((j + 1) * b, n)),
          maxdelay := 5000 } := by
  obtain ⟨b1, hb1, hbpos⟩ := compute_bufsize_pos p.sram ps n hps
  rw [hb] at hb1
  cases hb1
  have hlen : ¬ (ib.length < n ∨ m.buf.length < n) := by omega
  have e0 : (0 : Nat) >>> 1 = 0 := rfl
  have hA := set_addr_ack rx s 0 (hack _ (le_refl _))
  obtain ⟨buf1, hB⟩ := paged_loop_run rx CMD_VERIFYFLASH ib b n (Or.inr (Or.inr rfl)) hni n
    { s with rxpos := s.rxpos + 1, tx := s.tx ++ [set_addr_frame 0], maxdelay := 5000 }
    0 (List.replicate (b + 2) 0) (by simp) (fun k hk => hack k (by simp only at hk; omega))
    (by have := Nat.le_mul_of_pos_right n hbpos; omega)
  simp only [hib] at hB
  simp only [avrootloader_paged_load, hm, if_true, hib, hb, vla_eq (b + 2) 0 hvla, e0, hA, hlen,
    if_false, hB]
  simp only [zero_add, commit_frame, CMD_WRITEFLASH, CMD_VERIFYFLASH, CMD_WRITEE, memcpy,
    List.append_assoc]
  simp

theorem erase_param_in_range (S w r ps : Nat) (h : w + r * ps ≤ S) (hS : S < 4294967296) :
    erase_param S w r ps = (S - w - r * ps) / ps := by
  unfold erase_param
  have h1 : ((S : Int) - (w : Int) - (r : Int) * (ps : Int)) = ((S - w - r * ps : Nat) : Int) := by
    push_cast [Nat.sub_sub, h]
    omega
  rw [h1]
  congr 1
  omega

theorem erase_frame_eq (x : Nat) :
    erase_frame x = [0x02, x % 256] ++ crc_bytes (crc16 [0x02, x % 256]) := by
  simp [erase_frame, erase, crc_lo, crc_hi_mod, crc_bytes]

/-- The INIT case of avrootloader_send_cmd only sends. -/
theorem send_cmd_INIT_pgm (rx : Line) (s : Pgm) (n : Nat) (ps : List Nat) :
    ∃ t, (avrootloader_send_cmd rx s CMD_INIT n ps).pgm = { s with tx := t } := by
  simp only [avrootloader_send_cmd, CMD_INIT, if_true, avrootloader_send, serial_send,
    Outcome.pgm]
  exact ⟨_, rfl⟩

/-- One round of the receive loop in terms of the event on the line. -/
theorem initialize_body_eq (rx : Line) (s : Pgm) (l : InitLocals)
    (hlen : l.rcv.length = 265) (hi : l.i < 265) :
    ∃ t, initialize_body rx s l =
      if is_error_trial rx s l = true then
        if l.errcnt + 1 > 100 then .abort .timeout { s with tx := t, rxpos := s.rxpos + 1 }
        else
          match rx s.rxpos with
          | none => .ok { l with errcnt := l.errcnt + 1 } { s with tx := t, rxpos := s.rxpos + 1 }
          | some b => .ok { rcv := l.rcv.set l.i (b % 256), tmp := b % 256, i := 0,
                            errcnt := l.errcnt + 1 } { s with tx := t, rxpos := s.rxpos + 1 }
      else
        if l.errcnt > 100 then .abort .timeout { s with tx := t, rxpos := s.rxpos + 1 }
        else
          match rx s.rxpos with
          | none => .ok l s
          | some b => .ok { rcv := l.rcv.set l.i (b % 256), tmp := b % 256, i := l.i + 1,
                            errcnt := l.errcnt } { s with tx := t, rxpos := s.rxpos + 1 } := by
  have hs1 : ∃ t, (if l.i = 0 then (avrootloader_send_cmd rx s CMD_INIT 0 [l.tmp]).pgm else s)
      = { s with tx := t } := by
    split
    · exact send_cmd_INIT_pgm rx s 0 [l.tmp]
    · exact ⟨s.tx, rfl⟩
  obtain ⟨t, ht⟩ := hs1
  refine ⟨t, ?_⟩
  unfold initialize_body
  rw [ht]
  cases hrx : rx s.rxpos with
  | none =>
    simp only [serial_probe, hrx, is_error_trial, INIT_TRIALS, if_true]
  | some b =>
    have hr := recv_one rx { s with tx := t } b hrx
    have hget : (l.rcv.set l.i (b % 256)).getD l.i 0 = b % 256 := by
      simp [List.getD_eq_getElem?_getD, List.getElem?_set_self (hlen ▸ hi)]
    simp only [serial_probe, hrx, is_error_trial, INIT_TRIALS, hr, List.headD_cons, hget]
    by_cases h1 : l.i < strlen s.trig
    · by_cases h2 : char_val (b % 256) = ((s.trig.getD l.i 0 : Nat) : Int)
      · simp only [h1, h2, if_true, decide_True, Bool.true_and, bne_self_eq_false,
          Bool.false_eq_true, if_false]
      · have h3 : (char_val (b % 256) != ((s.trig.getD l.i 0 : Nat) : Int)) = true := by
          simpa using h2
        simp only [h1, h2, h3, if_true, if_false, decide_True, Bool.true_and]
    · simp [h1]

theorem initialize_cond_lt (l : InitLocals) (h : initialize_cond l = true) : l.i < 265 := by
  simp only [initialize_cond, Bool.and_eq_true, decide_eq_true_eq] at h
  exact h.2

/-- What a round that returns leaves: the buffer keeps its size, the count stays
at most 100, and fewer rounds remain. -/
theorem initialize_body_inv (rx : Line) (s s1 : Pgm) (l l1 : InitLocals)
    (hlen : l.rcv.length = 265) (he : l.errcnt ≤ 100) (hc : initialize_cond l = true)
    (h : initialize_body rx s l = .ok l1 s1) :
    l1.rcv.length = 265 ∧ l1.errcnt ≤ 100 ∧ init_measure l1 < init_measure l := by
  have hi := initialize_cond_lt l hc
  obtain ⟨t, ht⟩ := initialize_body_eq rx s l hlen hi
  rw [ht] at h
  unfold init_measure
  by_cases htr : is_error_trial rx s l = true
  · simp only [htr, if_true] at h
    by_cases h100 : l.errcnt + 1 > 100
    · simp [h100] at h
    · simp only [h100, if_false] at h
      cases hrx : rx s.rxpos with
      | none =>
        simp only [hrx] at h
        cases h
        simp only
        refine ⟨hlen, by omega, ?_⟩
        omega
      | some b =>
        simp only [hrx] at h
        cases h
        simp only [List.length_set]
        refine ⟨hlen, by omega, ?_⟩
        omega
  · simp only [htr] at h
    have h100 : ¬ l.errcnt > 100 := by omega
    simp only [h100, if_false] at h
    cases hrx : rx s.rxpos with
    | none => simp [is_error_trial, hrx] at htr
    | some b =>
      simp only [hrx] at h
      cases h
      simp only [List.length_set]
      refine ⟨hlen, he, ?_⟩
      omega

theorem init_reach_inv (rx : Line) (s0 : Pgm) (tmp : Nat) (s : Pgm) (l : InitLocals)
    (h : InitReach rx s0 (initialize_entry tmp) s l) :
    l.rcv.length = 265 ∧ l.errcnt ≤ 100 := by
  induction h with
  | entry =>
    exact ⟨by simp only [initialize_entry, List.length_replicate],
      by simp only [initialize_entry]; omega⟩
  | round _ hc hb ih =>
    obtain ⟨h1, h2, _⟩ := initialize_body_inv rx _ _ _ _ ih.1 ih.2 hc hb
    exact ⟨h1, h2⟩

/-- A run of the loop passes through every state that is reachable, with fuel to
spare. -/
theorem init_reach_loop (rx : Line) (s0 : Pgm) (tmp : Nat) (s : Pgm) (l : InitLocals)
    (h : InitReach rx s0 (initialize_entry tmp) s l) :
    ∃ f, init_measure l < f ∧
      initialize_loop rx initialize_fuel s0 (initialize_entry tmp) = initialize_loop rx f s l := by
  induction h with
  | entry =>
    exact ⟨initialize_fuel,
      by simp only [init_measure, initialize_entry, initialize_fuel]; omega, rfl⟩
  | @round s s1 l l1 hr hc hb ih =>
    obtain ⟨f, hf, hloop⟩ := ih
    obtain ⟨hlen, he⟩ := init_reach_inv rx s0 tmp s l hr
    obtain ⟨_, _, hm⟩ := initialize_body_inv rx _ _ _ _ hlen he hc hb
    cases f with
    | zero => omega
    | succ f =>
      refine ⟨f, by omega, ?_⟩
      rw [hloop]
      simp only [initialize_loop, hc, if_true, hb]

/-- A run of the loop that stops with the timeout error went through a state with
100 error trials in which the round is an error trial. -/
theorem init_loop_timeout (rx : Line) (s0 : Pgm) (tmp : Nat) :
    ∀ (f : Nat) (s : Pgm) (l : InitLocals), InitReach rx s0 (initialize_entry tmp) s l →
      ∀ s2, initialize_loop rx f s l = .abort .timeout s2 →
      ∃ s1 l1, InitReach rx s0 (initialize_entry tmp) s1 l1 ∧ initialize_cond l1 = true ∧
        l1.errcnt = 100 ∧ is_error_trial rx s1 l1 = true := by
  intro f
  induction f with
  | zero =>
    intro s l _ s2 h
    simp only [initialize_loop] at h
    split at h <;> cases h
  | succ f ih =>
    intro s l hr s2 h
    simp only [initialize_loop] at h
    by_cases hc : initialize_cond l = true
    · simp only [hc, if_true] at h
      obtain ⟨hlen, he⟩ := init_reach_inv rx s0 tmp s l hr
      cases hb : initialize_body rx s l with
      | ok l1 s1 =>
        rw [hb] at h
        exact ih s1 l1 (InitReach.round hr hc hb) s2 h
      | abort e s1 =>
        refine ⟨s, l, hr, hc, ?_⟩
        obtain ⟨t, ht⟩ := initialize_body_eq rx s l hlen (initialize_cond_lt l hc)
        rw [ht] at hb
        by_cases htr : is_error_trial rx s l = true
        · simp only [htr, if_true] at hb
          refine ⟨?_, htr⟩
          by_cases h100 : l.errcnt + 1 > 100
          · omega
          · simp only [h100, if_false] at hb
            cases hrx : rx s.rxpos <;> simp [hrx] at hb
        · simp only [htr] at hb
          have h100 : ¬ l.errcnt > 100 := by omega
          simp only [h100, if_false] at hb
          cases hrx : rx s.rxpos <;> simp [hrx] at hb
    · simp [hc] at h

theorem initialize_parse_not_timeout (s : Pgm) (l : InitLocals) :
    (initialize_parse s l).error ≠ some .timeout := by
  unfold initialize_parse
  split
  · simp [Outcome.error]
  · split
    · simp [Outcome.error]
    · split <;> simp [Outcome.error]

theorem vfy_status (rx : Line) (s : Pgm) (c : Nat) (hc : c < 256)
    (hrx : rx s.rxpos = some c) :
    avrootloader_vfy_cmd_sent rx s =
      match status_kind c with
      | none => .ok () { s with rxpos := s.rxpos + 1 }
      | some e => .abort e { s with rxpos := s.rxpos + 1 } := by
  have hm : c % 256 = c := Nat.mod_eq_of_lt hc
  simp only [avrootloader_vfy_cmd_sent, recv_one rx s c hrx, List.headD_cons, hm, status_kind]
  split_ifs <;> rfl

theorem status_kind_table (c : Nat) (hc : c < 256) :
    ((status_kind c = none ↔ c = 0x30) ∧
    (c = 0xc0 → status_kind c = some .verification) ∧
    (c = 0xc1 → status_kind c = some .unknown_command) ∧
    (c = 0xc2 → status_kind c = some .crc) ∧
    (c = 0xc3 → status_kind c = some .boundary) ∧
    (c = 0xc4 → status_kind c = some .decryption) ∧
    (c = 0xc5 → status_kind c = some .programming) ∧
    (c = 0xc6 → status_kind c = some .wrong_version) ∧
    (c ≠ 0x30 → c < 0xc0 ∨ 0xc6 < c → status_kind c = some (.unknown c))) := by
  refine ⟨⟨fun h => ?_, fun h => ?_⟩, fun h => ?_, fun h => ?_, fun h => ?_, fun h => ?_,
    fun h => ?_, fun h => ?_, fun h => ?_, fun h h2 => ?_⟩
  · unfold status_kind at h
    split_ifs at h
    assumption
  · subst h; rfl
  · subst h; rfl
  · subst h; rfl
  · subst h; rfl
  · subst h; rfl
  · subst h; rfl
  · subst h; rfl
  · subst h; rfl
  · unfold status_kind
    rw [if_neg (by omega), if_neg (by omega), if_neg (by omega), if_neg (by omega),
      if_neg (by omega), if_neg (by omega), if_neg (by omega), if_neg h, and_ff,
      Nat.mod_eq_of_lt hc]

/-- The loop that grows bufsize from 0 ends at n rounded up to a multiple of the
page size. -/
theorem grow_bufsize_eq (ps n : Nat) : ∀ (fuel j : Nat),
    n ≤ j * ps + fuel * ps → (j = 0 ∨ (j - 1) * ps < n) →
    grow_bufsize ps n (fuel + 1) (j * ps) = some ((n + ps - 1) / ps * ps) := by
  have stop : ∀ j : Nat, n ≤ j * ps → (j = 0 ∨ (j - 1) * ps < n) → 0 < ps →
      (n + ps - 1) / ps = j := by
    intro j h1 h2 hps
    apply Nat.div_eq_of_lt_le
    · rcases h2 with h2 | h2
      · subst h2; simp
      · have : j * ps = (j - 1) * ps + ps := by
          cases j with
          | zero => simp at h2 h1; omega
          | succ k => simp [Nat.succ_mul]
        omega
    · rw [Nat.succ_mul]; omega
  intro fuel
  induction fuel with
  | zero =>
    intro j h1 h2
    have h3 : ¬ j * ps < n := by omega
    rw [grow_bufsize]
    simp only [h3, if_false]
    rcases Nat.eq_zero_or_pos ps with h0 | h0
    · subst h0; simp
    · rw [stop j (by omega) h2 h0]
  | succ f ih =>
    intro j h1 h2
    rw [grow_bufsize]
    by_cases hlt : j * ps < n
    · simp only [hlt, if_true]
      have := ih (j + 1) (by rw [Nat.succ_mul] at h1 ⊢; omega) (Or.inr (by simpa using hlt))
      rw [Nat.succ_mul] at this
      exact this
    · simp only [hlt, if_false]
      rcases Nat.eq_zero_or_pos ps with h0 | h0
      · subst h0; simp
      · rw [stop j (by omega) h2 h0]

/-- The chunk size in closed form, for a part whose sram is ps + cap. -/
theorem compute_bufsize_eq (ps n cap : Nat) (hps : 0 < ps) (hcap : cap < 4294967296) :
    compute_bufsize ((cap : Int) + (ps : Int)) ps n =
      some (if n < cap then (if n = 0 then ps else (n + ps - 1) / ps * ps)
            else if cap = 0 then ps else cap) := by
  unfold compute_bufsize
  have e : (cap : Int) + (ps : Int) - (ps : Int) = (cap : Int) := by omega
  rw [e]
  by_cases h : n < cap
  · have h1 : (n : Int) < (cap : Int) := by omega
    have hg := grow_bufsize_eq ps n n 0 (by have := Nat.le_mul_of_pos_right n hps; omega)
      (Or.inl rfl)
    rw [Nat.zero_mul] at hg
    simp only [h1, if_true, hg, h]
    congr 1
    by_cases hn : n = 0
    · subst hn
      have : (0 + ps - 1) / ps = 0 := by
        apply Nat.div_eq_of_lt; omega
      rw [this]
      simp
    · have hc : 0 < (n + ps - 1) / ps := by
        apply Nat.div_pos <;> omega
      have : 0 < (n + ps - 1) / ps * ps := Nat.mul_pos hc hps
      simp only [hn, if_false]
      rw [if_neg (by omega)]
  · have h1 : ¬ (n : Int) < (cap : Int) := by omega
    have h2 : ((cap : Int) % 4294967296).toNat = cap := by omega
    simp only [h1, if_false, h2, h]

/-- What the INIT case of avrootloader_send_cmd sends. -/
theorem send_cmd_INIT_tx (rx : Line) (s : Pgm) (n : Nat) (ps : List Nat) :
    (avrootloader_send_cmd rx s CMD_INIT n ps).pgm = { s with tx := s.tx ++ init_frames s.key } := by
  have h0 : strlen helo = 0 := by decide
  have h1 : List.take 10 helo = helo := by decide
  have h2 : crc_loop (crc_loop 0 []) (List.take (strlen s.key) s.key) =
      crc_loop 0 (List.take (strlen s.key) s.key) := rfl
  simp only [avrootloader_send_cmd, CMD_INIT, if_true, avrootloader_send, serial_send,
    Outcome.pgm, h0, h1, List.take_zero, h2, crc_lo, crc_hi, init_frames, crc_bytes,
    List.append_assoc, List.cons_append, List.nil_append]
  rfl

/-- The buffers sent during one round of the receive loop. -/
theorem initialize_body_tx (rx : Line) (s : Pgm) (l : InitLocals) :
    (initialize_body rx s l).pgm.tx =
      if l.i = 0 then s.tx ++ init_frames s.key else s.tx := by
  have hs1 : ∃ t, (if l.i = 0 then (avrootloader_send_cmd rx s CMD_INIT 0 [l.tmp]).pgm else s)
      = { s with tx := t } ∧ t = if l.i = 0 then s.tx ++ init_frames s.key else s.tx := by
    split
    · exact ⟨_, send_cmd_INIT_tx rx s 0 [l.tmp], rfl⟩
    · exact ⟨s.tx, rfl, rfl⟩
  obtain ⟨t, ht, htv⟩ := hs1
  unfold initialize_body
  rw [ht, ← htv]
  cases hrx : rx s.rxpos with
  | none =>
    simp only [serial_probe, hrx]
    split_ifs <;> rfl
  | some b =>
    have hr := recv_one rx { s with tx := t } b hrx
    simp only [serial_probe, hrx, hr]
    split_ifs <;> rfl

theorem rcv_at_eq (rcv : List Nat) (i k : Nat) (hk : k ≤ i) (hi : i < 4294967296) :
    rcv_at rcv i k = rcv.get? (i - k) := by
  unfold rcv_at
  congr 1
  omega

/-- The part of avrootloader_initialize behind the loop, when the loop has ended
at a position from 5 to 264: every read is inside rcv, and the terminal byte
alone decides between return and the unexpected response error. -/
theorem initialize_parse_in_range (s : Pgm) (l : InitLocals) (hlen : l.rcv.length = 265)
    (h5 : 5 ≤ l.i) (h264 : l.i ≤ 264) :
    ∃ last feat sig1 sig2, l.rcv.get? (l.i - 1) = some last ∧ l.rcv.get? l.i = some feat ∧
      l.rcv.get? (l.i - 5) = some sig1 ∧ l.rcv.get? (l.i - 4) = some sig2 ∧
      initialize_parse s l =
        if last &&& 0xf0 ≠ 0x30 then .abort (.unexpected_response last) s
        else .ok 0 { s with features := feat &&& 0x0f, bootpages := last,
                            sigbytes := [0x1e, sig1, sig2] } := by
  have hget : ∀ j, j < 265 → ∃ v, l.rcv.get? j = some v := by
    intro j hj
    exact ⟨l.rcv[j], by rw [List.get?_eq_getElem?, List.getElem?_eq_getElem (by omega)]⟩
  obtain ⟨last, h1⟩ := hget (l.i - 1) (by omega)
  obtain ⟨feat, h0⟩ := hget l.i (by omega)
  obtain ⟨ver, h3⟩ := hget (l.i - 3) (by omega)
  obtain ⟨sig1, h5'⟩ := hget (l.i - 5) (by omega)
  obtain ⟨sig2, h4⟩ := hget (l.i - 4) (by omega)
  refine ⟨last, feat, sig1, sig2, h1, h0, h5', h4, ?_⟩
  unfold initialize_parse
  simp only [VERSION_OFFSET_FROM_END, BOOTPAGES_OFFSET_FROM_END, SIG_OFFSET_FROM_END]
  rw [rcv_at_eq _ _ 1 (by omega) (by omega), rcv_at_eq _ _ 3 (by omega) (by omega),
    rcv_at_eq _ _ 0 (by omega) (by omega), rcv_at_eq _ _ (4 + 1) (by omega) (by omega),
    rcv_at_eq _ _ 4 (by omega) (by omega)]
  simp only [h1, h3, Nat.sub_zero, h0, h5', h4, Nat.reduceAdd]

theorem serial_recv_spec (rx : Line) : ∀ (len pos : Nat) (bs : List Nat) (p : Nat),
    serial_recv rx len pos = some (bs, p) → bs.length = len ∧ p = pos + len := by
  intro len
  induction len with
  | zero =>
    intro pos bs p h
    simp only [serial_recv, Option.some.injEq, Prod.mk.injEq] at h
    obtain ⟨h1, h2⟩ := h
    subst h1 h2
    exact ⟨rfl, rfl⟩
  | succ n ih =>
    intro pos bs p h
    simp only [serial_recv] at h
    cases hrx : rx pos with
    | none => simp [hrx] at h
    | some b =>
      simp only [hrx] at h
      cases hr : serial_recv rx n (pos + 1) with
      | none => simp [hr] at h
      | some q =>
        obtain ⟨bs1, p1⟩ := q
        simp only [hr, Option.some.injEq, Prod.mk.injEq] at h
        obtain ⟨h1, h2⟩ := h
        obtain ⟨h3, h4⟩ := ih (pos + 1) bs1 p1 hr
        subst h1 h2
        exact ⟨by simp [h3], by omega⟩

theorem serial_recv_head (rx : Line) (len pos : Nat) (bs : List Nat) (p : Nat)
    (hlen : 0 < len) (h : serial_recv rx len pos = some (bs, p)) : ∃ b, rx pos = some b := by
  cases len with
  | zero => omega
  | succ n =>
    simp only [serial_recv] at h
    cases hrx : rx pos with
    | none => simp [hrx] at h
    | some b => exact ⟨b, rfl⟩

/-- A receive of len > 0 bytes that are all on the line. -/
theorem recv_ok (rx : Line) (s : Pgm) (len : Nat) (bs : List Nat) (p : Nat)
    (hlen : 0 < len) (h : serial_recv rx len s.rxpos = some (bs, p)) :
    avrootloader_recv rx s len = .ok bs { s with rxpos := p } := by
  obtain ⟨b, hb⟩ := serial_recv_head rx len s.rxpos bs p hlen h
  simp only [avrootloader_recv, serial_probe, hb, h]

/-- One round of the EEPROM loop up to the CRC comparison: the block is in the
buffer, and the comparison is the one of the received pair with the CRC pair of
the block. -/
theorem load_eeprom_block_eq (rx : Line) (s : Pgm) (mbuf : List Nat) (written bufsize : Nat)
    (blk : List Nat) (c0 c1 p1 p2 : Nat) (hb : 0 < bufsize)
    (hroom : written + bufsize ≤ mbuf.length)
    (hblk : serial_recv rx bufsize s.rxpos = some (blk, p1))
    (hcrc : serial_recv rx 2 p1 = some ([c0, c1], p2)) :
    load_eeprom_block rx s mbuf written bufsize =
      (mbuf.take written ++ blk ++ mbuf.drop (written + bufsize),
        if [c0, c1] ≠ crc_bytes (crc16 blk) then
          .abort .eeprom_crc { s with tx := s.tx ++ [readeeprom], rxpos := p2 }
        else avrootloader_vfy_cmd_sent rx { s with tx := s.tx ++ [readeeprom], rxpos := p2 }) := by
  obtain ⟨hbl, _⟩ := serial_recv_spec rx bufsize s.rxpos blk p1 hblk
  have h1 := recv_ok rx { s with tx := s.tx ++ [readeeprom] } bufsize blk p1 hb hblk
  have h2 := recv_ok rx { s with tx := s.tx ++ [readeeprom], rxpos := p1 } 2 [c0, c1] p2
    (by omega) hcrc
  have hr : ¬ mbuf.length < written + bufsize := by omega
  have htk : List.take 4 readeeprom = readeeprom := by decide
  have hw : (List.take written mbuf).length = written := by
    simp only [List.length_take]; omega
  have hd : List.take bufsize
      (List.drop written (List.take written mbuf ++ blk ++ List.drop (written + bufsize) mbuf))
      = blk := by
    rw [List.append_assoc, List.drop_left' hw, List.take_left' hbl]
  have hl := crc16_lt blk
  simp only [load_eeprom_block, avrootloader_send, serial_send, htk, h1, hr, if_false, h2, hd,
    crc_loop_zero, and_ff, shr8, List.getD_cons_zero, List.getD_cons_succ, crc_bytes]
  by_cases hc : c0 = crc16 blk % 256 ∧ c1 = crc16 blk / 256
  · obtain ⟨hc0, hc1⟩ := hc
    subst hc0 hc1
    simp
  · have h3 : ¬ [c0, c1] = [crc16 blk % 256, crc16 blk / 256] := by
      intro h
      simp only [List.cons.injEq, and_true] at h
      exact hc h
    have h4 : crc16 blk % 256 ≠ c0 ∨ crc16 blk / 256 ≠ c1 := by
      by_contra hcon
      push_neg at hcon
      exact hc ⟨hcon.1.symm, hcon.2.symm⟩
    simp only [h4, if_true, ne_eq, h3, not_false_eq_true]

/-- The EEPROM loop stops with the CRC error at the first block whose pair does not
match, when the k blocks before it are good. -/
theorem load_eeprom_loop_bad (rx : Line) (B n : Nat) (hB : 0 < B) :
    ∀ (k fuel : Nat) (s : Pgm) (mbuf : List Nat) (w : Nat), k < fuel →
      (∀ j, j < k → good_block rx B (s.rxpos + j * (B + 3))) →
      bad_block rx B (s.rxpos + k * (B + 3)) →
      w + k * B < n → w + (k + 1) * B ≤ mbuf.length →
      ∃ mbuf1 s1, load_eeprom_loop rx B n fuel s mbuf w = (mbuf1, .abort .eeprom_crc s1) := by
  intro k
  induction k with
  | zero =>
    intro fuel s mbuf w hf _ hbad hw hroom
    obtain ⟨blk, c0, c1, p1, p2, h1, h2, h3⟩ := hbad
    simp only [Nat.zero_mul, Nat.add_zero] at h1 hw
    cases fuel with
    | zero => omega
    | succ f =>
      have hw0 : w < n := by omega
      simp only [load_eeprom_loop, hw0, if_true,
        load_eeprom_block_eq rx s mbuf w B blk c0 c1 p1 p2 hB (by omega) h1 h2, h3, ne_eq,
        not_false_eq_true]
      exact ⟨_, _, rfl⟩
  | succ k ih =>
    intro fuel s mbuf w hf hgood hbad hw hroom
    cases fuel with
    | zero => omega
    | succ f =>
      obtain ⟨blk, p1, p2, h1, h2, h3⟩ := hgood 0 (by omega)
      simp only [Nat.zero_mul, Nat.add_zero] at h1
      obtain ⟨hbl, hp1⟩ := serial_recv_spec rx B s.rxpos blk p1 h1
      obtain ⟨_, hp2⟩ := serial_recv_spec rx 2 p1 _ p2 h2
      have hmul : (k + 1) * B = k * B + B := Nat.succ_mul k B
      have hmul2 : (k + 1 + 1) * B = k * B + B + B := by rw [Nat.succ_mul, Nat.succ_mul]
      have hw0 : w < n := by omega
      have hblock := load_eeprom_block_eq rx s mbuf w B blk (crc16 blk % 256) (crc16 blk / 256)
        p1 p2 hB (by omega) h1 h2
      have hack := vfy_ack rx { s with tx := s.tx ++ [readeeprom], rxpos := p2 } h3
      simp only [crc_bytes, ne_eq, not_true_eq_false, if_false, hack] at hblock
      simp only [load_eeprom_loop, hw0, if_true, hblock]
      apply ih
      · omega
      · intro j hj
        have := hgood (j + 1) (by omega)
        simp only at this ⊢
        rw [Nat.succ_mul] at this
        rw [show p2 + 1 + j * (B + 3) = s.rxpos + (j * (B + 3) + (B + 3)) by omega]
        exact this
      · simp only
        rw [Nat.succ_mul] at hbad
        rw [show p2 + 1 + k * (B + 3) = s.rxpos + (k * (B + 3) + (B + 3)) by omega]
        exact hbad
      · omega
      · simp only [List.length_append, List.length_take, List.length_drop, hbl]
        omega

theorem recv_not_unsupported (rx : Line) (s : Pgm) (len : Nat) :
    (avrootloader_recv rx s len).error ≠ some .read_unsupported := by
  unfold avrootloader_recv serial_probe
  cases rx s.rxpos with
  | none => simp [Outcome.error]
  | some b =>
    simp only []
    cases serial_recv rx len s.rxpos with
    | none => simp [Outcome.error]
    | some r => simp [Outcome.error]

theorem vfy_not_unsupported (rx : Line) (s : Pgm) :
    (avrootloader_vfy_cmd_sent rx s).error ≠ some .read_unsupported := by
  unfold avrootloader_vfy_cmd_sent
  have h0 := recv_not_unsupported rx s 1
  cases h : avrootloader_recv rx s 1 with
  | abort e s1 =>
    rw [h] at h0
    simpa [Outcome.error] using h0
  | ok bs s1 =>
    simp only []
    split_ifs <;> simp [Outcome.error]

theorem send_cmd_SENDBUF_not_unsupported (rx : Line) (s : Pgm) (pb : Nat) (params : List Nat) :
    (send_cmd_SENDBUF rx s pb params).error ≠ some .read_unsupported := by
  unfold send_cmd_SENDBUF
  simp only []
  split_ifs
  · simp [Outcome.error]
  · have h0 := vfy_not_unsupported rx
      (avrootloader_send (avrootloader_send s (sendbuf_header pb) 6)
        ((params.set (pb - 2) (crc_loop 0 (params.take (pb - 2)) &&& 0xff)).set (pb - 1)
          ((crc_loop 0 (params.take (pb - 2)) >>> 8) &&& 0xff)) pb)
    cases h : avrootloader_vfy_cmd_sent rx
      (avrootloader_send (avrootloader_send s (sendbuf_header pb) 6)
        ((params.set (pb - 2) (crc_loop 0 (params.take (pb - 2)) &&& 0xff)).set (pb - 1)
          ((crc_loop 0 (params.take (pb - 2)) >>> 8) &&& 0xff)) pb) with
    | abort e s1 =>
      rw [h] at h0
      simpa [Outcome.error] using h0
    | ok u s1 => simp [Outcome.error]

theorem commit_not_unsupported (rx : Line) (s : Pgm) (pb : Nat) (params frame : List Nat) :
    (match send_cmd_SENDBUF rx s pb params with
      | .abort e s1 => (Outcome.abort e s1 : Outcome (Int × List Nat))
      | .ok (_, params) s1 =>
        match avrootloader_vfy_cmd_sent rx (avrootloader_send s1 frame 4) with
        | .abort e s1 => .abort e s1
        | .ok _ s1 => .ok (0, params) s1).error ≠ some .read_unsupported := by
  have h0 := send_cmd_SENDBUF_not_unsupported rx s pb params
  cases h : send_cmd_SENDBUF rx s pb params with
  | abort e s1 =>
    rw [h] at h0
    simpa [Outcome.error] using h0
  | ok r s1 =>
    obtain ⟨r1, r2⟩ := r
    simp only []
    have h1 := vfy_not_unsupported rx (avrootloader_send s1 frame 4)
    cases h2 : avrootloader_vfy_cmd_sent rx (avrootloader_send s1 frame 4) with
    | abort e s2 =>
      rw [h2] at h1
      simpa [Outcome.error] using h1
    | ok u s2 => simp [Outcome.error]

theorem send_cmd_not_unsupported (rx : Line) (s : Pgm) (cmd pb : Nat) (params : List Nat) :
    (avrootloader_send_cmd rx s cmd pb params).error ≠ some .read_unsupported := by
  unfold avrootloader_send_cmd
  split_ifs
  · simp [Outcome.error]
  · exact commit_not_unsupported rx s pb params writeflash
  · exact commit_not_unsupported rx s pb params writeeeprom
  · cases params with
    | nil => simp [Outcome.error]
    | cons p0 ps =>
      simp only []
      have h1 := vfy_not_unsupported rx (avrootloader_send s (erase_frame p0) 4)
      cases h2 : avrootloader_vfy_cmd_sent rx (avrootloader_send s (erase_frame p0) 4) with
      | abort e s2 =>
        rw [h2] at h1
        simpa [Outcome.error] using h1
      | ok u s2 => simp [Outcome.error]
  · exact commit_not_unsupported rx s pb params vrfyflash
  · exact send_cmd_SENDBUF_not_unsupported rx s pb params
  · simp [Outcome.error]

theorem paged_loop_not_unsupported (rx : Line) (cmd : Nat) (src : List Nat) (b n : Nat) :
    ∀ (fuel : Nat) (s : Pgm) (w : Nat) (buf : List Nat),
      (paged_loop rx cmd src b n fuel s w buf).error ≠ some .read_unsupported := by
  intro fuel
  induction fuel with
  | zero =>
    intro s w buf
    unfold paged_loop
    split_ifs <;> simp [Outcome.error]
  | succ fuel ih =>
    intro s w buf
    unfold paged_loop
    by_cases hw : w < n
    · simp only [hw, if_true]
      by_cases hov : buf.length < b
      · simp [hov, Outcome.error]
      · simp only [hov, if_false]
        generalize (if w + b > n then memcpy (memset buf 0xff b) (src.drop w) (n - w)
          else memcpy buf (src.drop w) b) = buf1
        have h1 := send_cmd_not_unsupported rx s cmd buf.length buf1
        cases h2 : avrootloader_send_cmd rx s cmd buf.length buf1 with
        | abort e s2 =>
          rw [h2] at h1
          simpa [Outcome.error] using h1
        | ok r s2 =>
          obtain ⟨r1, r2⟩ := r
          simp only []
          exact ih _ _ _
    · simp [hw, Outcome.error]

theorem set_addr_not_unsupported (rx : Line) (s : Pgm) (addr : Nat) :
    (avrootloader_set_addr rx s addr).error ≠ some .read_unsupported := by
  unfold avrootloader_set_addr
  exact vfy_not_unsupported rx _

theorem read_byte_flash_loop_not_unsupported (rx : Line) (src hdr : List Nat) (b : Nat) :
    ∀ (fuel : Nat) (s : Pgm) (w : Nat) (buf : List Nat),
      (read_byte_flash_loop rx src hdr b fuel s w buf).error ≠ some .read_unsupported := by
  intro fuel
  induction fuel with
  | zero =>
    intro s w buf
    unfold read_byte_flash_loop
    split_ifs <;> simp [Outcome.error]
  | succ fuel ih =>
    intro s w buf
    unfold read_byte_flash_loop
    by_cases hw : w < s.nbytes
    · simp only [hw, if_true]
      generalize (if w + b > s.nbytes then memcpy (memset buf 0xff b) (src.drop w) (s.nbytes - w)
        else memcpy buf (src.drop w) b) = buf1
      by_cases hl : buf1.length < b + 2
      · simp [hl, Outcome.error]
      · simp only [hl, if_false]
        generalize (buf1.set b (crc_loop 0 (buf1.take b) &&& 0xff)).set (b + 1)
          ((crc_loop 0 (buf1.take b) >>> 8) % 256) = buf2
        generalize avrootloader_send (avrootloader_send { s with maxdelay := 5000 } hdr 6) buf2
          (b + 2) = sA
        have h1 := vfy_not_unsupported rx sA
        cases h2 : avrootloader_vfy_cmd_sent rx sA with
        | abort e s2 =>
          rw [h2] at h1
          simpa [Outcome.error] using h1
        | ok u s2 =>
          simp only []
          have h3 := vfy_not_unsupported rx (avrootloader_send s2 vrfyflash 4)
          cases h4 : avrootloader_vfy_cmd_sent rx (avrootloader_send s2 vrfyflash 4) with
          | abort e s3 =>
            rw [h4] at h3
            simpa [Outcome.error] using h3
          | ok u s3 =>
            simp only []
            exact ih _ _ _
    · simp [hw, Outcome.error]

theorem paged_load_flash_not_unsupported (rx : Line) (s : Pgm) (p : AVRPART) (m : AVRMEM)
    (ps n : Nat) (ib : List Nat) (hm : m.desc = "flash") (hib : s.internalbuf = some ib) :
    (avrootloader_paged_load rx s p m ps n).error ≠ some .read_unsupported := by
  unfold avrootloader_paged_load
  simp only [hm, if_true, hib]
  cases compute_bufsize p.sram ps n with
  | none => simp [Outcome.error]
  | some b =>
    simp only []
    cases vla (b + 2) 0 with
    | none => simp [Outcome.error]
    | some buf =>
      simp only []
      have h1 := set_addr_not_unsupported rx s (0 >>> 1)
      cases h2 : avrootloader_set_addr rx s (0 >>> 1) with
      | abort e s2 =>
        rw [h2] at h1
        simpa [Outcome.error] using h1
      | ok u s2 =>
        simp only []
        split_ifs
        · simp [Outcome.error]
        · have h3 := paged_loop_not_unsupported rx CMD_VERIFYFLASH ib b n n
            { s2 with maxdelay := 5000 } 0 buf
          cases h4 : paged_loop rx CMD_VERIFYFLASH ib b n n
            { s2 with maxdelay := 5000 } 0 buf with
          | abort e s3 =>
            rw [h4] at h3
            simpa [Outcome.error] using h3
          | ok r s3 => simp [Outcome.error]

theorem read_byte_flash_not_unsupported (rx : Line) (s : Pgm) (p : AVRPART) (m : AVRMEM)
    (addr value junk : Nat) (ib : List Nat) (hib : s.internalbuf = some ib) :
    (avrootloader_read_byte_flash rx s p m addr value junk).error ≠ some .read_unsupported := by
  unfold avrootloader_read_byte_flash
  simp only [hib]
  generalize (if ((p.sram - (m.page_size : Int)) % 4294967296).toNat = 0 then m.page_size
    else ((p.sram - (m.page_size : Int)) % 4294967296).toNat) = b
  cases vla (b + 2) junk with
  | none => simp [Outcome.error]
  | some buf =>
    simp only []
    by_cases hps : m.page_size = 0
    · simp [hps, Outcome.error]
    · simp only [hps, if_false]
      by_cases hcur : s.current_page_vrfy = addr / m.page_size
      · simp only [hcur, ne_eq, not_true_eq_false, if_false]
        split_ifs
        · simp [Outcome.error]
        · cases buf.get? (addr % s.page_size) <;> simp [Outcome.error]
      · simp only [ne_eq, hcur, not_false_eq_true, if_true]
        have h1 := set_addr_not_unsupported rx s (addr >>> 1)
        cases h2 : avrootloader_set_addr rx s (addr >>> 1) with
        | abort e s2 =>
          rw [h2] at h1
          simpa [Outcome.error] using h1
        | ok u s2 =>
          simp only []
          have h3 := read_byte_flash_loop_not_unsupported rx m.buf read_byte_flash_header b
            s2.nbytes { s2 with current_page_vrfy := addr / m.page_size } 0 buf
          cases h4 : read_byte_flash_loop rx m.buf read_byte_flash_header b
            s2.nbytes { s2 with current_page_vrfy := addr / m.page_size } 0 buf with
          | abort e s3 =>
            rw [h4] at h3
            simpa [Outcome.error] using h3
          | ok r s3 =>
            obtain ⟨r1, buf3⟩ := r
            simp only []
            split_ifs
            · simp [Outcome.error]
            · cases buf3.get? (addr % s3.page_size) <;> simp [Outcome.error]

theorem send_cmd_SENDBUF_frames (rx : Line) (s : Pgm) (p : Nat) (buf : List Nat)
    (h2 : 2 ≤ p) (hp : p < 4294967296) (hlen : buf.length = p) :
    (avrootloader_send_cmd rx s CMD_SENDBUF p buf).pgm.tx = s.tx ++
      [[0xfe, 0x00, (p - 2) % 65536 / 256, (p - 2) % 65536 % 256] ++
         crc_bytes (crc16 [0xfe, 0x00, (p - 2) % 65536 / 256, (p - 2) % 65536 % 256]),
       buf.take (p - 2) ++ crc_bytes (crc16 (buf.take (p - 2)))] ∧
    (rx s.rxpos = some 0x30 →
      (avrootloader_send_cmd rx s CMD_SENDBUF p buf).returned = true) := by
  have hcmd : avrootloader_send_cmd rx s CMD_SENDBUF p buf = send_cmd_SENDBUF rx s p buf := by
    simp [avrootloader_send_cmd, CMD_SENDBUF, CMD_INIT, CMD_WRITEFLASH, CMD_WRITEE,
      CMD_ERASEPAGES, CMD_VERIFYFLASH]
  have e1 : (p - 2) % 65536 / 256 = (p - 2) / 256 % 256 := by omega
  have e2 : (p - 2) % 65536 % 256 = (p - 2) % 256 := by omega
  rw [hcmd, e1, e2]
  constructor
  · rw [send_cmd_SENDBUF_tx rx s p buf h2 (by omega), sendbuf_header_take,
      sendbuf_header_eq p h2 hp]
  · intro hack
    obtain ⟨q, rfl⟩ : ∃ q, p = q + 2 := ⟨p - 2, by omega⟩
    obtain ⟨buf1, _, h1⟩ := send_cmd_SENDBUF_ack rx s q buf hlen hack
    rw [h1]
    rfl

theorem frames_lengths (a b c d x y n : Nat) (v : Nat) :
    ([[a, b, c, d] ++ crc_bytes x, List.replicate n v ++ crc_bytes y].map List.length) =
      [6, n + 2] := by
  simp [crc_bytes]

/-- With the sram of the part at least a page and at most 65535 bytes, the chunk
size is positive, at most sram, and the array of bufsize + 2 bytes fits the
stack. -/
theorem compute_bufsize_le_sram (sram : Int) (ps n b : Nat) (hps : 0 < ps)
    (hcap : (ps : Int) ≤ sram) (hsram : sram ≤ 65535)
    (hb : compute_bufsize sram ps n = some b) :
    0 < b ∧ b ≤ 65535 ∧ b + 2 ≤ STACK_LIMIT := by
  obtain ⟨cap, hcap1⟩ : ∃ cap : Nat, sram = (cap : Int) + (ps : Int) :=
    ⟨(sram - (ps : Int)).toNat, by omega⟩
  have hc : cap + ps ≤ 65535 := by omega
  rw [hcap1, compute_bufsize_eq ps n cap hps (by omega)] at hb
  simp only [Option.some.injEq] at hb
  have hdiv : (n + ps - 1) / ps * ps ≤ n + ps - 1 := Nat.div_mul_le_self _ _
  have hpos : 0 < n → 0 < (n + ps - 1) / ps * ps :=
    fun h => Nat.mul_pos (Nat.div_pos (by omega) hps) hps
  simp only [STACK_LIMIT]
  subst hb
  split_ifs <;> omega

/-- A round of the receive loop that stops the driver stops it with the timeout
error. -/
theorem initialize_body_abort (rx : Line) (s s1 : Pgm) (l : InitLocals) (e : Fatal)
    (hlen : l.rcv.length = 265) (hi : l.i < 265)
    (h : initialize_body rx s l = .abort e s1) : e = .timeout := by
  obtain ⟨t, ht⟩ := initialize_body_eq rx s l hlen hi
  rw [ht] at h
  cases hrx : rx s.rxpos with
  | none =>
    simp only [hrx] at h
    split_ifs at h <;> cases h <;> rfl
  | some b =>
    simp only [hrx] at h
    split_ifs at h <;> cases h <;> rfl

/-- What a round that returns does to the locals: it counts one error trial, or
it leaves the count and advances the position by one. -/
theorem initialize_body_step (rx : Line) (s s1 : Pgm) (l l1 : InitLocals)
    (hlen : l.rcv.length = 265) (he : l.errcnt ≤ 100) (hc : initialize_cond l = true)
    (h : initialize_body rx s l = .ok l1 s1) :
    (l1.errcnt = l.errcnt + 1 ∧ l1.errcnt ≤ 100 ∧ l1.i ≤ l.i) ∨
    (l1.errcnt = l.errcnt ∧ l1.i = l.i + 1) := by
  have hi := initialize_cond_lt l hc
  obtain ⟨t, ht⟩ := initialize_body_eq rx s l hlen hi
  rw [ht] at h
  by_cases htr : is_error_trial rx s l = true
  · simp only [htr, if_true] at h
    by_cases h100 : l.errcnt + 1 > 100
    · simp [h100] at h
    · simp only [h100, if_false] at h
      left
      cases hrx : rx s.rxpos with
      | none =>
        simp only [hrx] at h
        cases h
        exact ⟨rfl, by simp only; omega, le_refl _⟩
      | some b =>
        simp only [hrx] at h
        cases h
        exact ⟨rfl, by simp only; omega, Nat.zero_le _⟩
  · simp only [htr] at h
    have h100 : ¬ l.errcnt > 100 := by omega
    simp only [h100, if_false] at h
    cases hrx : rx s.rxpos with
    | none => simp [is_error_trial, hrx] at htr
    | some b =>
      simp only [hrx] at h
      cases h
      right
      exact ⟨rfl, rfl⟩

/-- At the head of every round the byte in front of the position is the byte
received last. -/
theorem init_reach_last (rx : Line) (s0 : Pgm) (tmp : Nat) (s : Pgm) (l : InitLocals)
    (h : InitReach rx s0 (initialize_entry tmp) s l) :
    0 < l.i → l.rcv.get? (l.i - 1) = some l.tmp ∧ l.tmp < 256 := by
  induction h with
  | entry =>
    intro h0
    simp only [initialize_entry] at h0
    omega
  | @round s s1 l l1 hr hc hb ih =>
    obtain ⟨hlen, he⟩ := init_reach_inv rx s0 tmp s l hr
    have hi := initialize_cond_lt l hc
    obtain ⟨t, ht⟩ := initialize_body_eq rx s l hlen hi
    rw [ht] at hb
    intro h0
    cases hrx : rx s.rxpos with
    | none =>
      simp only [hrx] at hb
      split_ifs at hb <;> cases hb <;> exact ih h0
    | some b =>
      simp only [hrx] at hb
      split_ifs at hb <;> cases hb
      · simp at h0
      · simp only [Nat.add_sub_cancel]
        refine ⟨?_, Nat.mod_lt _ (by decide)⟩
        rw [List.get?_eq_getElem?, List.getElem?_set_self (by omega)]

/-- The receive loop ends when it is given more rounds than its measure: it
returns with the loop condition false, from a state the run goes through, or it
stops with the timeout error. -/
theorem init_loop_end (rx : Line) (s0 : Pgm) (tmp : Nat) :
    ∀ (f : Nat) (s : Pgm) (l : InitLocals), InitReach rx s0 (initialize_entry tmp) s l →
      init_measure l < f →
      (∃ l1 s1, initialize_loop rx f s l = .ok l1 s1 ∧
        InitReach rx s0 (initialize_entry tmp) s1 l1 ∧ initialize_cond l1 = false) ∨
      (∃ s1, initialize_loop rx f s l = .abort .timeout s1) := by
  intro f
  induction f with
  | zero => intro s l _ hm; omega
  | succ f ih =>
    intro s l hr hm
    by_cases hc : initialize_cond l = true
    · obtain ⟨hlen, he⟩ := init_reach_inv rx s0 tmp s l hr
      cases hb : initialize_body rx s l with
      | ok l1 s1 =>
        obtain ⟨_, _, hdec⟩ := initialize_body_inv rx s s1 l l1 hlen he hc hb
        simp only [initialize_loop, hc, if_true, hb]
        exact ih s1 l1 (InitReach.round hr hc hb) (by omega)
      | abort e s1 =>
        have := initialize_body_abort rx s s1 l e hlen (initialize_cond_lt l hc) hb
        subst this
        right
        simp only [initialize_loop, hc, if_true, hb]
        exact ⟨s1, rfl⟩
    · left
      have hc1 : initialize_cond l = false := by simpa using hc
      refine ⟨l, s, ?_, hr, hc1⟩
      simp [initialize_loop, hc1]

/-- The position with which the receive loop returns. -/
theorem initialize_cond_false (l : InitLocals) (h : initialize_cond l = false) :
    (l.tmp = 0x30 ∧ 0 < l.i) ∨ 265 ≤ l.i := by
  simp only [initialize_cond, Bool.and_eq_false_iff, Bool.or_eq_false_iff, bne_eq_false_iff_eq,
    beq_eq_false_iff_ne, decide_eq_false_iff_not] at h
  rcases h with ⟨h1, h2⟩ | h
  · left
    exact ⟨h1, by omega⟩
  · right
    omega

theorem init_reach_i_le (rx : Line) (s0 : Pgm) (tmp : Nat) (s : Pgm) (l : InitLocals)
    (h : InitReach rx s0 (initialize_entry tmp) s l) : l.i ≤ 265 := by
  induction h with
  | entry => simp only [initialize_entry]; omega
  | @round s s1 l l1 hr hc hb ih =>
    obtain ⟨hlen, he⟩ := init_reach_inv rx s0 tmp s l hr
    have hi := initialize_cond_lt l hc
    rcases initialize_body_step rx s s1 l l1 hlen he hc hb with h | h <;> omega

theorem take_drop_take_append (src rest : List Nat) (n w k : Nat) (hk : w + k ≤ n)
    (hn : n ≤ src.length) :
    ((src.take n ++ rest).drop w).take k = (src.drop w).take k := by
  have hl : (src.take n).length = n := by simp only [List.length_take]; omega
  apply List.ext_getElem?
  intro j
  by_cases hj : j < k
  · have h1 : (src.take n ++ rest)[w + j]? = (src.take n)[w + j]? :=
      List.getElem?_append_left (by omega)
    simp only [List.getElem?_take, hj, if_true, List.getElem?_drop, h1,
      show w + j < n by omega]
  · simp only [List.getElem?_take, hj, if_false]

theorem chunk_at_take_append (src rest : List Nat) (b n w : Nat) (hw : w < n)
    (hn : n ≤ src.length) :
    chunk_at (src.take n ++ rest) b n w = chunk_at src b n w := by
  unfold chunk_at
  split
  · rw [take_drop_take_append src rest n w (n - w) (by omega) hn]
  · rw [take_drop_take_append src rest n w b (by omega) hn]

/-- The chunks of a transfer depend only on the first n_bytes bytes of the source. -/
theorem chunks_from_take_append (src rest : List Nat) (b n : Nat) (hn : n ≤ src.length) :
    ∀ (fuel w : Nat), chunks_from (src.take n ++ rest) b n fuel w = chunks_from src b n fuel w := by
  intro fuel
  induction fuel with
  | zero => intro w; rfl
  | succ f ih =>
    intro w
    by_cases hw : w < n
    · simp only [chunks_from, hw, if_true, chunk_at_take_append src rest b n w hw hn, ih]
    · simp only [chunks_from, hw, if_false]

theorem high_nibble_three (x : Nat) (hx : x < 256) (h : x &&& 0xf0 = 0x30) :
    0x30 ≤ x ∧ x ≤ 0x3f := by
  have key : ∀ y : Fin 256, y.val &&& 0xf0 = 0x30 → 0x30 ≤ y.val ∧ y.val ≤ 0x3f := by
    decide!
  exact key ⟨x, hx⟩ h

/-- The locals with which the receive loop returns, when it returns. -/
theorem init_loop_returns (rx : Line) (s0 : Pgm) (tmp : Nat) (f : Nat) (l : InitLocals)
    (s1 : Pgm) (hf : initialize_fuel ≤ f)
    (h : initialize_loop rx f s0 (initialize_entry tmp) = .ok l s1) :
    initialize_cond l = false ∧ 0 < l.i ∧ l.i ≤ 265 ∧ l.rcv.length = 265 ∧
      l.rcv.get? (l.i - 1) = some l.tmp ∧ l.tmp < 256 ∧
      rcv_at l.rcv l.i 1 = some l.tmp := by
  have hm : init_measure (initialize_entry tmp) < f := by
    simp only [init_measure, initialize_entry, initialize_fuel] at hf ⊢
    omega
  rcases init_loop_end rx s0 tmp f s0 (initialize_entry tmp) InitReach.entry hm with
    ⟨l1, s2, h1, hr, hc⟩ | ⟨s2, h1⟩
  · rw [h] at h1
    cases h1
    have hi : 0 < l.i := by
      rcases initialize_cond_false l hc with h2 | h2 <;> omega
    obtain ⟨hlast, hlt⟩ := init_reach_last rx s0 tmp s1 l hr hi
    have hle := init_reach_i_le rx s0 tmp s1 l hr
    refine ⟨hc, hi, hle, (init_reach_inv rx s0 tmp s1 l hr).1, hlast, hlt, ?_⟩
    rw [rcv_at_eq _ _ 1 (by omega) (by omega), hlast]
  · rw [h] at h1
    cases h1

/-- The rounds the program counts as error trials are the error trials of the spec
and, besides, the rounds in which a byte from 0x80 up is received that equals
the trigger byte at the position. -/
theorem is_error_trial_iff (rx : Line) (s : Pgm) (l : InitLocals) :
    is_error_trial rx s l = true ↔
      (spec_error_trial rx s l = true ∨
        ∃ b, rx s.rxpos = some b ∧ l.i < strlen s.trig ∧ 128 ≤ b % 256 ∧
          b % 256 = s.trig.getD l.i 0) := by
  unfold is_error_trial spec_error_trial
  cases hrx : rx s.rxpos with
  | none => simp
  | some b =>
    have hb : b % 256 < 256 := Nat.mod_lt _ (by decide)
    simp only [Bool.and_eq_true, decide_eq_true_eq, bne_iff_ne, ne_eq, Option.some.injEq,
      exists_eq_left', char_val]
    by_cases h128 : b % 256 < 128
    · simp only [h128, if_true]
      constructor
      · rintro ⟨h1, h2⟩
        left
        exact ⟨h1, fun h => h2 (by rw [h])⟩
      · rintro (⟨h1, h2⟩ | ⟨_, h3, _⟩)
        · exact ⟨h1, fun h => h2 (by exact_mod_cast h)⟩
        · omega
    · simp only [h128, if_false]
      constructor
      · rintro ⟨h1, _⟩
        by_cases heq : b % 256 = s.trig.getD l.i 0
        · right
          exact ⟨h1, by omega, heq⟩
        · left
          exact ⟨h1, heq⟩
      · rintro (⟨h1, _⟩ | ⟨h1, _, _⟩)
        · exact ⟨h1, by omega⟩
        · exact ⟨h1, by omega⟩

/-! ## The claims -/

/-- C1: for a payload buffer of p bytes, 2 <= p <= 65537, whose first p-2 bytes are
the data d, avrootloader_send_cmd(CMD_SENDBUF, p, buf) hands to the serial line
exactly the 6 byte header [0xFE, 0x00, high byte of p-2, low byte of p-2, low byte
of h, high byte of h], h the CRC16 of the first four header bytes, and then d
unchanged followed by [low byte of c, high byte of c], c the CRC16 of d alone;
this holds whatever status byte the device answers with. -/
theorem C1_sendbuf_frame (rx : Line) (s : Pgm) (p : Nat) (buf : List Nat)
    (h2 : 2 ≤ p) (hp : p ≤ 65537) (hlen : buf.length = p) :
    (avrootloader_send_cmd rx s CMD_SENDBUF p buf).pgm.tx = s.tx ++
      [[0xfe, 0x00, (p - 2) / 256, (p - 2) % 256,
        crc16 [0xfe, 0x00, (p - 2) / 256, (p - 2) % 256] % 256,
        crc16 [0xfe, 0x00, (p - 2) / 256, (p - 2) % 256] / 256],
       buf.take (p - 2) ++
        [crc16 (buf.take (p - 2)) % 256, crc16 (buf.take (p - 2)) / 256]] := by
  have hcmd : avrootloader_send_cmd rx s CMD_SENDBUF p buf = send_cmd_SENDBUF rx s p buf := by
    simp [avrootloader_send_cmd, CMD_SENDBUF, CMD_INIT, CMD_WRITEFLASH, CMD_WRITEE,
      CMD_ERASEPAGES, CMD_VERIFYFLASH]
  have hm : (p - 2) / 256 % 256 = (p - 2) / 256 := by omega
  rw [hcmd, send_cmd_SENDBUF_tx rx s p buf h2 (by omega),
    sendbuf_header_eq p h2 (by omega), hm]
  simp [crc_bytes]

/-- A run of C1: a 5 byte buffer carrying the data 1, 2, 3. -/
theorem C1_sendbuf_frame_witness :
    (avrootloader_send_cmd (lineConst 0x30) {} CMD_SENDBUF 5 [1, 2, 3, 0, 0]).pgm.tx =
      ([] : List (List Nat)) ++
      [[0xfe, 0x00, (5 - 2) / 256, (5 - 2) % 256,
        crc16 [0xfe, 0x00, (5 - 2) / 256, (5 - 2) % 256] % 256,
        crc16 [0xfe, 0x00, (5 - 2) / 256, (5 - 2) % 256] / 256],
       [1, 2, 3, 0, 0].take (5 - 2) ++
        [crc16 ([1, 2, 3, 0, 0].take (5 - 2)) % 256,
         crc16 ([1, 2, 3, 0, 0].take (5 - 2)) / 256]] :=
  C1_sendbuf_frame (lineConst 0x30) {} 5 [1, 2, 3, 0, 0] (by decide) (by decide) (by decide)

/-- C2: for a flash image of length n and a positive page size, with the sram of the
part at least a page and at most 65535 bytes (so the chunk array fits the stack
and the data length the 16-bit field of the header), on a device that
acknowledges every command, the computed chunk size b is positive and
avrootloader_paged_write_flash sends SET ADDRESS 0, then for each chunk in turn,
in the order of the addresses, a SENDBUF header, the chunk data with its CRC and
a WRITEFLASH frame, then one ERASEPAGES frame.  There are ceil(n/b) chunks, each
has exactly b data bytes, and their concatenation is the image followed by 0xFF
up to ceil(n/b)*b bytes. -/
theorem C2_flash_chunking (rx : Line) (s : Pgm) (p : AVRPART) (m : AVRMEM)
    (ps n b : Nat) (hps : 0 < ps) (hcap : (ps : Int) ≤ p.sram) (hsram : p.sram ≤ 65535)
    (hb : compute_bufsize p.sram ps n = some b) (hn : n ≤ m.buf.length)
    (hack : ∀ k, s.rxpos ≤ k → rx k = some 0x30) :
    0 < b ∧
    ∃ chunks : List (List Nat),
      (avrootloader_paged_write_flash rx s p m ps n).value = some (n : Int) ∧
      (∃ x, (avrootloader_paged_write_flash rx s p m ps n).pgm.tx =
        s.tx ++ [set_addr_frame 0] ++
          chunks.flatMap (fun d => [sendbuf_header (b + 2), d ++ crc_bytes (crc16 d), writeflash])
          ++ [erase_frame x]) ∧
      chunks.length = (n + b - 1) / b ∧
      (∀ d ∈ chunks, d.length = b) ∧
      chunks.flatten = m.buf.take n ++ List.replicate ((n + b - 1) / b * b - n) 0xff := by
  obtain ⟨hbpos, _, hvla⟩ := compute_bufsize_le_sram p.sram ps n b hps hcap hsram hb
  refine ⟨hbpos, chunks_from m.buf b n n 0, ?_, ?_, chunks_from_ceil m.buf b n hbpos,
    chunks_from_length_each m.buf b n hn n 0, ?_⟩
  · rw [paged_write_flash_run rx s p m ps n b hack hps hb hvla hn]; rfl
  · rw [paged_write_flash_run rx s p m ps n b hack hps hb hvla hn]
    exact ⟨_, rfl⟩
  · have h := chunks_from_flatten m.buf b n hn n 0 (Nat.zero_le _)
      (by have := Nat.le_mul_of_pos_right n hbpos; omega)
    rw [h, chunks_from_ceil m.buf b n hbpos]
    simp

/-- A run of C2: a 5 byte image, page size 2, sram 6, so chunks of 4 bytes. -/
theorem C2_flash_chunking_witness :
    0 < 4 ∧
    ∃ chunks : List (List Nat),
      (avrootloader_paged_write_flash (lineConst 0x30) {} { sram := 6, mem := [] }
        { desc := "flash", size := 16, page_size := 2, offset := 0, max_write_delay := 0,
          buf := [1, 2, 3, 4, 5, 6, 7, 8] } 2 5).value = some ((5 : Nat) : Int) ∧
      (∃ x, (avrootloader_paged_write_flash (lineConst 0x30) {} { sram := 6, mem := [] }
        { desc := "flash", size := 16, page_size := 2, offset := 0, max_write_delay := 0,
          buf := [1, 2, 3, 4, 5, 6, 7, 8] } 2 5).pgm.tx =
        ([] : List (List Nat)) ++ [set_addr_frame 0] ++
          chunks.flatMap (fun d => [sendbuf_header (4 + 2), d ++ crc_bytes (crc16 d), writeflash])
          ++ [erase_frame x]) ∧
      chunks.length = (5 + 4 - 1) / 4 ∧
      (∀ d ∈ chunks, d.length = 4) ∧
      chunks.flatten = [1, 2, 3, 4, 5, 6, 7, 8].take 5 ++
        List.replicate ((5 + 4 - 1) / 4 * 4 - 5) 0xff :=
  C2_flash_chunking (lineConst 0x30) {} { sram := 6, mem := [] }
    { desc := "flash", size := 16, page_size := 2, offset := 0, max_write_delay := 0,
      buf := [1, 2, 3, 4, 5, 6, 7, 8] } 2 5 4 (by decide) (by decide) (by decide) (by decide)
    (by decide) (fun _ _ => rfl)

/-- C3: with a positive page size and the sram of the part at least a page and at
most 65535 bytes, on a device that acknowledges every command, after
avrootloader_paged_write_flash has written the first n bytes of the memory buffer
(n from 0 up to the size of the buffer), avrootloader_paged_load of the flash memory
with the same n returns, and the first n bytes of the buffer it leaves are the
image that was written, whatever the buffer held when the load was called (the
bytes behind them are left as they were). -/
theorem C3_shadow_round_trip (rx rx1 : Line) (s : Pgm) (p : AVRPART) (m m1 : AVRMEM)
    (ps n : Nat) (hps : 0 < ps) (hcap : (ps : Int) ≤ p.sram) (hsram : p.sram ≤ 65535)
    (hn : n ≤ m.buf.length) (hn1 : n ≤ m1.buf.length)
    (hm1 : m1.desc = "flash")
    (hack : ∀ k, s.rxpos ≤ k → rx k = some 0x30)
    (hack1 : ∀ k, (avrootloader_paged_write_flash rx s p m ps n).pgm.rxpos ≤ k →
      rx1 k = some 0x30) :
    (avrootloader_paged_write_flash rx s p m ps n).value = some (n : Int) ∧
    ∃ m2, (avrootloader_paged_load rx1 (avrootloader_paged_write_flash rx s p m ps n).pgm
        p m1 ps n).value = some ((n : Int), m2) ∧
      m2.buf.take n = m.buf.take n ∧ m2.buf.drop n = m1.buf.drop n := by
  obtain ⟨b, hb, _⟩ := compute_bufsize_pos p.sram ps n hps
  obtain ⟨_, _, hvla⟩ := compute_bufsize_le_sram p.sram ps n b hps hcap hsram hb
  have hrun := paged_write_flash_run rx s p m ps n b hack hps hb hvla hn
  rw [hrun] at hack1 ⊢
  refine ⟨rfl, ?_⟩
  simp only [Outcome.pgm] at hack1 ⊢
  have hl : (List.take n m.buf ++ List.replicate ps 255).length = n + ps := by
    simp only [List.length_append, List.length_take, List.length_replicate]; omega
  rw [paged_load_flash_run rx1 _ p m1 ps n b (List.take n m.buf ++ List.replicate ps 255)
    hm1 rfl hack1 hps hb hvla hn1 (by omega)]
  have h1 : (List.take n m.buf).length = n := by simp only [List.length_take]; omega
  have h2 : List.take n (List.take n m.buf ++ List.replicate ps 255) = List.take n m.buf :=
    List.take_left' h1
  refine ⟨_, rfl, ?_, ?_⟩
  · simp only [h2]
    exact List.take_left' h1
  · simp only [h2]
    exact List.drop_left' h1

/-- A run of C3: a 3 byte image, the buffer holding other bytes at the load. -/
theorem C3_shadow_round_trip_witness :
    (avrootloader_paged_write_flash (lineConst 0x30) {} { sram := 6, mem := [] }
      { desc := "flash", size := 4, page_size := 2, offset := 0, max_write_delay := 0,
        buf := [1, 2, 3, 4] } 2 3).value = some ((3 : Nat) : Int) ∧
    ∃ m2, (avrootloader_paged_load (lineConst 0x30)
        (avrootloader_paged_write_flash (lineConst 0x30) {} { sram := 6, mem := [] }
          { desc := "flash", size := 4, page_size := 2, offset := 0, max_write_delay := 0,
            buf := [1, 2, 3, 4] } 2 3).pgm
        { sram := 6, mem := [] }
        { desc := "flash", size := 4, page_size := 2, offset := 0, max_write_delay := 0,
          buf := [9, 9, 9, 9] } 2 3).value = some (((3 : Nat) : Int), m2) ∧
      m2.buf.take 3 = [1, 2, 3, 4].take 3 ∧ m2.buf.drop 3 = [9, 9, 9, 9].drop 3 :=
  C3_shadow_round_trip (lineConst 0x30) (lineConst 0x30) {} { sram := 6, mem := [] }
    { desc := "flash", size := 4, page_size := 2, offset := 0, max_write_delay := 0,
      buf := [1, 2, 3, 4] }
    { desc := "flash", size := 4, page_size := 2, offset := 0, max_write_delay := 0,
      buf := [9, 9, 9, 9] } 2 3 (by decide) (by decide) (by decide) (by decide) (by decide) rfl
    (fun _ _ => rfl) (fun _ _ => rfl)

/-- C4: avrootloader_vfy_cmd_sent consumes one status byte c and returns to its
caller if and only if c = 0x30; the bytes 0xC0 .. 0xC6 stop the driver with the
verification, unknown command, CRC, boundary, decryption, programming and wrong
version error respectively, and every other byte stops it with the unknown error
that carries c. -/
theorem C4_vfy_cmd_sent_status (rx : Line) (s : Pgm) (c : Nat) (hc : c < 256)
    (hrx : rx s.rxpos = some c) :
    ((avrootloader_vfy_cmd_sent rx s).returned = true ↔ c = 0x30) ∧
    (avrootloader_vfy_cmd_sent rx s).pgm = { s with rxpos := s.rxpos + 1 } ∧
    (c = 0xc0 → (avrootloader_vfy_cmd_sent rx s).error = some .verification) ∧
    (c = 0xc1 → (avrootloader_vfy_cmd_sent rx s).error = some .unknown_command) ∧
    (c = 0xc2 → (avrootloader_vfy_cmd_sent rx s).error = some .crc) ∧
    (c = 0xc3 → (avrootloader_vfy_cmd_sent rx s).error = some .boundary) ∧
    (c = 0xc4 → (avrootloader_vfy_cmd_sent rx s).error = some .decryption) ∧
    (c = 0xc5 → (avrootloader_vfy_cmd_sent rx s).error = some .programming) ∧
    (c = 0xc6 → (avrootloader_vfy_cmd_sent rx s).error = some .wrong_version) ∧
    (c ≠ 0x30 → c < 0xc0 ∨ 0xc6 < c →
      (avrootloader_vfy_cmd_sent rx s).error = some (.unknown c)) := by
  have hv := vfy_status rx s c hc hrx
  have hk := status_kind_table c hc
  rw [hv]
  refine ⟨?_, ?_, fun h => ?_, fun h => ?_, fun h => ?_, fun h => ?_, fun h => ?_,
    fun h => ?_, fun h => ?_, fun h h2 => ?_⟩
  · cases hsk : status_kind c with
    | none => exact ⟨fun _ => hk.1.1 hsk, fun _ => rfl⟩
    | some e =>
      refine ⟨fun h => (by cases h), fun h => ?_⟩
      rw [hk.1.2 h] at hsk
      cases hsk
  · cases status_kind c <;> rfl
  · rw [hk.2.1 h]; rfl
  · rw [hk.2.2.1 h]; rfl
  · rw [hk.2.2.2.1 h]; rfl
  · rw [hk.2.2.2.2.1 h]; rfl
  · rw [hk.2.2.2.2.2.1 h]; rfl
  · rw [hk.2.2.2.2.2.2.1 h]; rfl
  · rw [hk.2.2.2.2.2.2.2.1 h]; rfl
  · rw [hk.2.2.2.2.2.2.2.2 h h2]; rfl

/-- A run of C4: the status byte 0xC2. -/
theorem C4_vfy_cmd_sent_status_witness :
    (avrootloader_vfy_cmd_sent (lineConst 0xc2) {}).error = some .crc :=
  (C4_vfy_cmd_sent_status (lineConst 0xc2) {} 0xc2 (by decide) rfl).2.2.2.2.1 rfl

/-- C5: in every 4 byte fixed frame of the driver the bytes 2 and 3 are the CRC16
of the bytes 0 and 1, low byte first: the WRITEFLASH, VERIFYFLASH, WRITEE and
READEEPROM frames, and the ERASEPAGES frame [0x02, x, ..] that
avrootloader_send_cmd builds and sends for every parameter byte x. -/
theorem C5_fixed_frame_crc :
    writeflash = [0x01, 0x01] ++ crc_bytes (crc16 [0x01, 0x01]) ∧
    vrfyflash = [0x03, 0x01] ++ crc_bytes (crc16 [0x03, 0x01]) ∧
    writeeeprom = [0x05, 0x01] ++ crc_bytes (crc16 [0x05, 0x01]) ∧
    readeeprom = [0x04, 0x00] ++ crc_bytes (crc16 [0x04, 0x00]) ∧
    ∀ (rx : Line) (s : Pgm) (n x : Nat) (rest : List Nat),
      (avrootloader_send_cmd rx s CMD_ERASEPAGES n (x :: rest)).pgm.tx =
        s.tx ++ [[0x02, x % 256] ++ crc_bytes (crc16 [0x02, x % 256])] := by
  refine ⟨by decide, by decide, by decide, by decide, ?_⟩
  intro rx s n x rest
  have key : ∀ o : Outcome Unit, ∀ v : Int × List Nat,
      (match o with
        | .abort e s => (Outcome.abort e s : Outcome (Int × List Nat))
        | .ok _ s => .ok v s).pgm = o.pgm := by
    intro o v; cases o <;> rfl
  simp only [avrootloader_send_cmd, CMD_ERASEPAGES, CMD_INIT, CMD_WRITEFLASH, CMD_WRITEE]
  simp only [OfNat.ofNat_ne_one, if_false, Nat.reduceEqDiff, if_true]
  rw [key, vfy_tx]
  simp [avrootloader_send, serial_send, erase_frame, erase, crc_lo, crc_hi_mod, crc_bytes]

/-- C6: with the default key BOOTLOADER the bytes of the INIT frame are the hello
pattern, the key and the CRC16 of the key alone, low byte first (0x3E 0x1E); they
are not the hello pattern, the key and the CRC16 over hello followed by the key
(0x05 0xB2), which is what the claim asks for. -/
theorem C6_init_crc_covers_key_only :
    ( avrootloader_send_cmd (lineConst 0x30) { key := loader } CMD_INIT 0 []).pgm.sent =
      helo ++ loader.take 10 ++ crc_bytes (crc16 (loader.take 10)) ∧
    ( avrootloader_send_cmd (lineConst 0x30) { key := loader } CMD_INIT 0 []).pgm.sent ≠
      helo ++ loader.take 10 ++ crc_bytes (crc16 (helo ++ loader.take 10)) ∧
    crc_bytes (crc16 (loader.take 10)) = [0x3e, 0x1e] ∧
    crc_bytes (crc16 (helo ++ loader.take 10)) = [0x05, 0xb2] := by
  decide!

/-- C7: with the default trigger (c) 2009 HR, no noise, and a device that sends the
trigger followed by its reply, the receive loop of avrootloader_initialize ends
as soon as the first byte 0x30 of the trigger, its sixth byte, has been matched:
the match position is 6, not 11, the accumulated response is the first six bytes
of the trigger, and the handshake returns 0 with a signature and a page count
taken from the text of the trigger. -/
theorem C7_partial_trigger_match_ends_loop :
    (initialize_loop (lineOf ((back.take 11 ++ [0x94, 0x06, 5, 4, 0x30]).map some))
      initialize_fuel { trig := back, key := loader } (initialize_entry 0)).value.map
        (fun l => (l.i, l.rcv.take 11)) = some (6, [40, 99, 41, 32, 50, 48, 0, 0, 0, 0, 0]) ∧
    strlen back = 11 ∧
    ( avrootloader_initialize (lineOf ((back.take 11 ++ [0x94, 0x06, 5, 4, 0x30]).map some))
      { trig := back, key := loader } 0).value = some 0 ∧
    ( avrootloader_initialize (lineOf ((back.take 11 ++ [0x94, 0x06, 5, 4, 0x30]).map some))
      { trig := back, key := loader } 0).pgm.sigbytes = [0x1e, 99, 41] ∧
    ( avrootloader_initialize (lineOf ((back.take 11 ++ [0x94, 0x06, 5, 4, 0x30]).map some))
      { trig := back, key := loader } 0).pgm.bootpages = 48 := by
  decide!

/-- C8: the trigger is the one byte 0xC3.  A device sends 0xC3 and the reply 0x94
0x06 0x05 0x04 0x30: the first byte received equals trig[0], so the round is no
error trial in the sense of the claim, yet the program counts one and sets i back
to 0, because the plain char rcv[0] has the value -61 and trig[0] the value 195;
no byte ever matches, and the handshake stops with the timeout error.  A device
that sends nothing but 0xC3 gets the timeout error after 101 rounds none of which
is an error trial in the sense of the claim.
What the program does count, in every round that a run goes through: the count is
at most 100 on entry; a failed probe, and a received byte whose plain char value
differs from trig[i] while i is below the length of the trigger, add exactly one
(the mismatch also sets i to 0, the failed probe leaves i), any other received
byte adds nothing and advances i; the round stops the driver with the timeout
error exactly when it is a counted trial that takes the count from 100 to 101,
and the handshake fails with the timeout error if and only if the run reaches
such a round.  The counted rounds are the error trials of the claim and the
rounds in which a byte from 0x80 up equals trig[i]. -/
theorem C8_error_trials (rx : Line) (s0 : Pgm) (tmp : Nat) :
    (∀ s l, InitReach rx s0 (initialize_entry tmp) s l → initialize_cond l = true →
      l.errcnt ≤ 100 ∧
      (is_error_trial rx s l = true → l.errcnt = 100 →
        ∃ s1, initialize_body rx s l = .abort .timeout s1) ∧
      (is_error_trial rx s l = true → l.errcnt < 100 →
        ∃ l1 s1, initialize_body rx s l = .ok l1 s1 ∧ l1.errcnt = l.errcnt + 1 ∧
          l1.i = if rx s.rxpos = none then l.i else 0) ∧
      (is_error_trial rx s l = false →
        ∃ l1 s1, initialize_body rx s l = .ok l1 s1 ∧ l1.errcnt = l.errcnt ∧
          l1.i = l.i + 1)) ∧
    (( avrootloader_initialize rx s0 tmp).error = some .timeout ↔
      ∃ s l, InitReach rx s0 (initialize_entry tmp) s l ∧ initialize_cond l = true ∧
        l.errcnt = 100 ∧ is_error_trial rx s l = true) ∧
    (∀ s l, is_error_trial rx s l = true ↔
      (spec_error_trial rx s l = true ∨
        ∃ b, rx s.rxpos = some b ∧ l.i < strlen s.trig ∧ 128 ≤ b % 256 ∧
          b % 256 = s.trig.getD l.i 0)) ∧
    (spec_error_trial (lineOf ([0xc3, 0x94, 0x06, 5, 4, 0x30].map some))
        { trig := [0xc3, 0], key := loader } (initialize_entry 0) = false ∧
      (initialize_body (lineOf ([0xc3, 0x94, 0x06, 5, 4, 0x30].map some))
        { trig := [0xc3, 0], key := loader } (initialize_entry 0)).value.map
          (fun l => (l.i, l.errcnt, l.rcv.take 1)) = some (0, 1, [0xc3]) ∧
      char_val 0xc3 = -61 ∧
      ( avrootloader_initialize (lineOf ([0xc3, 0x94, 0x06, 5, 4, 0x30].map some))
        { trig := [0xc3, 0], key := loader } 0).error = some .timeout ∧
      spec_error_trial (lineConst 0xc3) { trig := [0xc3, 0], key := loader }
        (initialize_entry 0) = false ∧
      (initialize_body (lineConst 0xc3) { trig := [0xc3, 0], key := loader }
        (initialize_entry 0)).value.map (fun l => (l.i, l.errcnt)) = some (0, 1) ∧
      ( avrootloader_initialize (lineConst 0xc3)
        { trig := [0xc3, 0], key := loader } 0).error = some .timeout) := by
  refine ⟨?_, ?_, fun s l => is_error_trial_iff rx s l, by decide!⟩
  · intro s l hr hc
    obtain ⟨hlen, he⟩ := init_reach_inv rx s0 tmp s l hr
    obtain ⟨t, ht⟩ := initialize_body_eq rx s l hlen (initialize_cond_lt l hc)
    refine ⟨he, ?_, ?_, ?_⟩
    · intro htr h100
      rw [ht]
      simp only [htr, if_true, h100]
      exact ⟨_, rfl⟩
    · intro htr h100
      rw [ht]
      have h1 : ¬ l.errcnt + 1 > 100 := by omega
      simp only [htr, if_true, h1, if_false]
      cases hrx : rx s.rxpos with
      | none => exact ⟨_, _, rfl, rfl, by simp⟩
      | some b => exact ⟨_, _, rfl, rfl, by simp⟩
    · intro htr
      rw [ht]
      have h1 : ¬ l.errcnt > 100 := by omega
      simp only [htr, h1, if_false]
      cases hrx : rx s.rxpos with
      | none => simp [is_error_trial, hrx] at htr
      | some b => exact ⟨_, _, rfl, rfl, rfl⟩
  · constructor
    · intro h
      unfold avrootloader_initialize at h
      cases hl : initialize_loop rx initialize_fuel s0 (initialize_entry tmp) with
      | ok l s1 =>
        rw [hl] at h
        exact absurd h (initialize_parse_not_timeout s1 l)
      | abort e s1 =>
        rw [hl] at h
        simp only [Outcome.error, Option.some.injEq] at h
        subst h
        exact init_loop_timeout rx s0 tmp initialize_fuel s0 (initialize_entry tmp)
          InitReach.entry s1 hl
    · rintro ⟨s, l, hr, hc, h100, htr⟩
      obtain ⟨f, hf, hloop⟩ := init_reach_loop rx s0 tmp s l hr
      obtain ⟨hlen, _⟩ := init_reach_inv rx s0 tmp s l hr
      obtain ⟨t, ht⟩ := initialize_body_eq rx s l hlen (initialize_cond_lt l hc)
      cases f with
      | zero => omega
      | succ f =>
        unfold avrootloader_initialize
        rw [hloop]
        simp only [initialize_loop, hc, if_true, ht, htr, h100]
        rfl

/-- A line on which nothing ever arrives: 101 failed probes, then the timeout. -/
theorem initialize_silent_line :
    ( avrootloader_initialize (lineOf []) { trig := back, key := loader } 0).error =
      some .timeout := by
  decide!

/-- C9: writing the byte 0x12 to EEPROM address 3 with page size 4 sends SET ADDRESS
0, a SENDBUF header that announces 2 data bytes, the page bytes 0 and 1 followed by
their CRC16, and the WRITEE frame; the page bytes 2 and 3, and with them the value,
are never sent: the page with its CRC is not among the buffers sent. -/
theorem C9_write_byte_sends_short_page :
    (avrootloader_write_byte (fun s => .ok 0 s) (lineConst 0x30) {}
      { desc := "eeprom", size := 512, page_size := 4, offset := 0,
        max_write_delay := 0, buf := [] } 3 0x12).pgm.tx =
      [set_addr_frame 0,
       [0xfe, 0x00, 0x00, 0x02] ++ crc_bytes (crc16 [0xfe, 0x00, 0x00, 0x02]),
       [0xff, 0xff] ++ crc_bytes (crc16 [0xff, 0xff]),
       writeeeprom] ∧
    ([0xff, 0xff, 0xff, 0x12] ++ crc_bytes (crc16 [0xff, 0xff, 0xff, 0x12])) ∉
      (avrootloader_write_byte (fun s => .ok 0 s) (lineConst 0x30) {}
        { desc := "eeprom", size := 512, page_size := 4, offset := 0,
          max_write_delay := 0, buf := [] } 3 0x12).pgm.tx ∧
    0x12 ∉ (avrootloader_write_byte (fun s => .ok 0 s) (lineConst 0x30) {}
      { desc := "eeprom", size := 512, page_size := 4, offset := 0,
        max_write_delay := 0, buf := [] } 3 0x12).pgm.sent := by
  decide!

/-- C10: flash of 131072 bytes, page size 256, sram 4096, 48 reserved pages, an
image of 256 bytes (one chunk, w = 256), a device that acknowledges every command.
The pages beyond the written region and below the bootloader are
(131072 - 256 - 48*256)/256 = 463; the write ends with one ERASEPAGES frame, whose
parameter byte is 207, the low byte of 463, not 463. -/
theorem C10_erase_param_is_low_byte :
    (avrootloader_paged_write_flash (lineConst 0x30) { bootpages := 48 }
      { sram := 4096, mem := [] }
      { desc := "flash", size := 131072, page_size := 256, offset := 0, max_write_delay := 0,
        buf := List.replicate 256 0 } 256 256).pgm.tx.getLast? = some (erase_frame 207) ∧
    (erase_frame 207).get? 1 = some 207 ∧
    (erase_frame 207).get? 1 ≠ some ((131072 - 256 - 48 * 256) / 256) := by
  decide!

/-- C11, the claim as stated fails: with sram 1024 and page size 128 (capacity 896)
an image of 200 bytes gets the chunk size 256, not 896, the largest multiple of
the page size below the capacity; with sram 100 and page size 64 (capacity 36,
less than a page) an image of 500 bytes gets 36, not 64; with sram 164 and page
size 64 (capacity 100) an image of 90 bytes gets 128, more than max(100, 64). -/
theorem C11_chunk_size_follows_length :
    compute_bufsize 1024 128 200 = some 256 ∧ (1024 - 128) / 128 * 128 = 896 ∧
    compute_bufsize 100 64 500 = some 36 ∧ 100 - 64 < 64 ∧
    compute_bufsize 164 64 90 = some 128 ∧ max (164 - 64) 64 < 128 := by
  decide

/-- C11 amended: for a page size ps > 0, a capacity cap = sram - ps with
0 <= cap < 2^32 and an image length n, the chunk size of the paged write and load
routines is n rounded up to a multiple of ps when 0 < n < cap, cap itself when
n >= cap > 0, and ps when that would be 0 (n = 0 < cap, or cap = 0).  It is always
positive.  When cap is a multiple of ps it is a positive multiple of ps and does
not exceed max(cap, ps); for n >= cap > 0 it is then cap, the largest multiple of
ps that does not exceed cap. -/
theorem C11_chunk_size (ps n cap : Nat) (hps : 0 < ps) (hcap : cap < 4294967296) :
    ∃ b, compute_bufsize ((cap : Int) + (ps : Int)) ps n = some b ∧ 0 < b ∧
      (0 < n → n < cap → b = (n + ps - 1) / ps * ps) ∧
      (n = 0 → 0 < cap → b = ps) ∧
      (cap ≤ n → 0 < cap → b = cap) ∧
      (cap = 0 → b = ps) ∧
      (ps ∣ cap → ps ∣ b ∧ b ≤ max cap ps) := by
  refine ⟨_, compute_bufsize_eq ps n cap hps hcap, ?_, ?_, ?_, ?_, ?_, ?_⟩
  · split
    · split
      · exact hps
      · apply Nat.mul_pos _ hps
        apply Nat.div_pos <;> omega
    · split <;> omega
  · intro h1 h2
    rw [if_pos h2, if_neg (by omega)]
  · intro h1 h2
    rw [if_pos (by omega), if_pos h1]
  · intro h1 h2
    rw [if_neg (by omega), if_neg (by omega)]
  · intro h1
    rw [if_neg (by omega), if_pos h1]
  · rintro ⟨k, hk⟩
    by_cases h1 : n < cap
    · rw [if_pos h1]
      by_cases h2 : n = 0
      · rw [if_pos h2]
        exact ⟨dvd_refl _, le_max_right _ _⟩
      · rw [if_neg h2]
        refine ⟨Dvd.intro_left _ rfl, ?_⟩
        have h3 : (n + ps - 1) / ps ≤ k := by
          apply Nat.le_of_lt_succ
          apply (Nat.div_lt_iff_lt_mul hps).2
          rw [Nat.succ_mul, Nat.mul_comm]
          omega
        have h4 := Nat.mul_le_mul_right ps h3
        rw [Nat.mul_comm k ps, ← hk] at h4
        exact le_trans h4 (le_max_left _ _)
    · rw [if_neg h1]
      by_cases h2 : cap = 0
      · rw [if_pos h2]
        exact ⟨dvd_refl _, le_max_right _ _⟩
      · rw [if_neg h2]
        exact ⟨⟨k, hk⟩, le_max_left _ _⟩

/-- A run of C11: page size 64, capacity 256, image length 100. -/
theorem C11_chunk_size_witness :
    ∃ b, compute_bufsize (((256 : Nat) : Int) + ((64 : Nat) : Int)) 64 100 = some b ∧ 0 < b ∧
      (0 < 100 → 100 < 256 → b = (100 + 64 - 1) / 64 * 64) ∧
      (100 = 0 → 0 < 256 → b = 64) ∧
      (256 ≤ 100 → 0 < 256 → b = 256) ∧
      (256 = 0 → b = 64) ∧
      (64 ∣ 256 → 64 ∣ b ∧ b ≤ max 256 64) :=
  C11_chunk_size 64 100 256 (by decide) (by decide)

/-- C13, the claim as stated fails: flash page size 1, so blocks of 2 bytes; the
EEPROM buffer holds 9 9 9 9 and the device sends the block 0x11 0x22 with the pair
0x00 0x00, which is not its CRC.  The read stops with the CRC error, and the bytes
of the buffer that cover the block are 0x11 0x22, not 9 9 as before. -/
theorem C13_block_is_received_in_place :
    (avrootloader_paged_load (lineOf [some 0x11, some 0x22, some 0, some 0]) {}
      { sram := 6, mem := [{ desc := "flash", size := 8, page_size := 1, offset := 0,
                             max_write_delay := 0, buf := [] }] }
      { desc := "eeprom", size := 4, page_size := 1, offset := 0, max_write_delay := 0,
        buf := [9, 9, 9, 9] } 1 4).error = some .eeprom_crc ∧
    (load_eeprom_loop (lineOf [some 0x11, some 0x22, some 0, some 0]) 2 4 4
      { maxdelay := 5000 } [9, 9, 9, 9] 0).1 = [0x11, 0x22, 9, 9] ∧
    (load_eeprom_loop (lineOf [some 0x11, some 0x22, some 0, some 0]) 2 4 4
      { maxdelay := 5000 } [9, 9, 9, 9] 0).1.take 2 ≠ [9, 9] := by
  decide!

/-- C13 amended: in the EEPROM branch of avrootloader_paged_load (block size twice the
flash page size, positive), when the first k blocks arrive with their CRC pairs
and an acknowledging status byte and the next block arrives with a pair that
differs from [low byte, high byte] of the CRC16 over that block, the read fails
with the CRC error.  The block is received in place: in the round that fails, the
bytes of the buffer that cover the block hold the block as received, and the
bytes before and behind it are as they were when the round began. -/
theorem C13_eeprom_crc_mismatch (rx : Line) (s : Pgm) (p : AVRPART) (m fl : AVRMEM)
    (ps n k : Nat) (hm : m.desc = "eeprom") (hfl : avr_locate_mem p "flash" = some fl)
    (hB : 0 < fl.page_size)
    (hgood : ∀ j, j < k → good_block rx (fl.page_size * 2) (s.rxpos + j * (fl.page_size * 2 + 3)))
    (hbad : bad_block rx (fl.page_size * 2) (s.rxpos + k * (fl.page_size * 2 + 3)))
    (hk : k * (fl.page_size * 2) < n) (hroom : (k + 1) * (fl.page_size * 2) ≤ m.buf.length) :
    (avrootloader_paged_load rx s p m ps n).error = some .eeprom_crc ∧
    ∀ (s1 : Pgm) (mbuf : List Nat) (w fuel : Nat) (blk : List Nat) (c0 c1 p1 p2 : Nat),
      w < n → w + fl.page_size * 2 ≤ mbuf.length →
      serial_recv rx (fl.page_size * 2) s1.rxpos = some (blk, p1) →
      serial_recv rx 2 p1 = some ([c0, c1], p2) → [c0, c1] ≠ crc_bytes (crc16 blk) →
      (load_eeprom_loop rx (fl.page_size * 2) n (fuel + 1) s1 mbuf w).1 =
        mbuf.take w ++ blk ++ mbuf.drop (w + fl.page_size * 2) ∧
      (load_eeprom_loop rx (fl.page_size * 2) n (fuel + 1) s1 mbuf w).2.error =
        some .eeprom_crc := by
  constructor
  · have hkn : k < n := by
      have := Nat.le_mul_of_pos_right k (show 0 < fl.page_size * 2 by omega)
      omega
    obtain ⟨mbuf1, s1, h⟩ := load_eeprom_loop_bad rx (fl.page_size * 2) n (by omega) k n
      { s with maxdelay := 5000 } m.buf 0 hkn hgood hbad (by omega) (by omega)
    have hne : ¬ m.desc = "flash" := by rw [hm]; decide
    simp only [avrootloader_paged_load, hne, if_false, hm, if_true, hfl, h]
    rfl
  · intro s1 mbuf w fuel blk c0 c1 p1 p2 hw hroom1 h1 h2 h3
    simp only [load_eeprom_loop, hw, if_true,
      load_eeprom_block_eq rx s1 mbuf w (fl.page_size * 2) blk c0 c1 p1 p2 (by omega) hroom1
        h1 h2, h3, ne_eq, not_false_eq_true]
    exact ⟨trivial, rfl⟩

/-- A run of C13: blocks of 2 bytes, a first block 1 2 with its CRC pair and the
status byte 0x30, then the block 0x11 0x22 with the pair 0 0. -/
theorem C13_eeprom_crc_mismatch_witness :
    (avrootloader_paged_load
      (lineOf [some 1, some 2, some (crc16 [1, 2] % 256), some (crc16 [1, 2] / 256), some 0x30,
               some 0x11, some 0x22, some 0, some 0]) {}
      { sram := 6, mem := [{ desc := "flash", size := 8, page_size := 1, offset := 0,
                             max_write_delay := 0, buf := [] }] }
      { desc := "eeprom", size := 4, page_size := 1, offset := 0, max_write_delay := 0,
        buf := [9, 9, 9, 9] } 1 4).error = some .eeprom_crc ∧
    ∀ (s1 : Pgm) (mbuf : List Nat) (w fuel : Nat) (blk : List Nat) (c0 c1 p1 p2 : Nat),
      w < 4 → w + 1 * 2 ≤ mbuf.length →
      serial_recv (lineOf [some 1, some 2, some (crc16 [1, 2] % 256),
        some (crc16 [1, 2] / 256), some 0x30, some 0x11, some 0x22, some 0, some 0])
        (1 * 2) s1.rxpos = some (blk, p1) →
      serial_recv (lineOf [some 1, some 2, some (crc16 [1, 2] % 256),
        some (crc16 [1, 2] / 256), some 0x30, some 0x11, some 0x22, some 0, some 0])
        2 p1 = some ([c0, c1], p2) → [c0, c1] ≠ crc_bytes (crc16 blk) →
      (load_eeprom_loop (lineOf [some 1, some 2, some (crc16 [1, 2] % 256),
        some (crc16 [1, 2] / 256), some 0x30, some 0x11, some 0x22, some 0, some 0])
        (1 * 2) 4 (fuel + 1) s1 mbuf w).1 = mbuf.take w ++ blk ++ mbuf.drop (w + 1 * 2) ∧
      (load_eeprom_loop (lineOf [some 1, some 2, some (crc16 [1, 2] % 256),
        some (crc16 [1, 2] / 256), some 0x30, some 0x11, some 0x22, some 0, some 0])
        (1 * 2) 4 (fuel + 1) s1 mbuf w).2.error = some .eeprom_crc :=
  C13_eeprom_crc_mismatch
    (lineOf [some 1, some 2, some (crc16 [1, 2] % 256), some (crc16 [1, 2] / 256), some 0x30,
             some 0x11, some 0x22, some 0, some 0]) {}
    { sram := 6, mem := [{ desc := "flash", size := 8, page_size := 1, offset := 0,
                           max_write_delay := 0, buf := [] }] }
    { desc := "eeprom", size := 4, page_size := 1, offset := 0, max_write_delay := 0,
      buf := [9, 9, 9, 9] }
    { desc := "flash", size := 8, page_size := 1, offset := 0, max_write_delay := 0, buf := [] }
    1 4 1 rfl rfl (by decide)
    (fun j hj => by
      have hj0 : j = 0 := by omega
      subst hj0
      exact ⟨[1, 2], 2, 4, by decide!, by decide!, by decide!⟩)
    ⟨[0x11, 0x22], 0, 0, 7, 9, by decide!, by decide!, by decide!⟩
    (by decide) (by decide)

/-- C14: for every address below 2^24 avrootloader_set_addr hands to the serial line
exactly the 6 bytes [0xFF, addr >> 16, (addr >> 8) & 0xFF, addr & 0xFF, low byte of
c, high byte of c], c the CRC16 of the first four bytes; it then consumes exactly
one status byte and returns if and only if that byte is 0x30. -/
theorem C14_set_addr (rx : Line) (s : Pgm) (addr c : Nat) (haddr : addr < 16777216)
    (hc : c < 256) (hrx : rx s.rxpos = some c) :
    (avrootloader_set_addr rx s addr).pgm.tx = s.tx ++
      [[0xff, addr >>> 16, (addr >>> 8) &&& 0xff, addr &&& 0xff,
        crc16 [0xff, addr >>> 16, (addr >>> 8) &&& 0xff, addr &&& 0xff] % 256,
        crc16 [0xff, addr >>> 16, (addr >>> 8) &&& 0xff, addr &&& 0xff] / 256]] ∧
    (avrootloader_set_addr rx s addr).pgm.rxpos = s.rxpos + 1 ∧
    ((avrootloader_set_addr rx s addr).returned = true ↔ c = 0x30) := by
  have h16 : (addr >>> 16) &&& 0xff = addr >>> 16 := by
    rw [and_ff, Nat.shiftRight_eq_div_pow]; omega
  have hfr : set_addr_frame addr =
      [0xff, addr >>> 16, (addr >>> 8) &&& 0xff, addr &&& 0xff,
        crc16 [0xff, addr >>> 16, (addr >>> 8) &&& 0xff, addr &&& 0xff] % 256,
        crc16 [0xff, addr >>> 16, (addr >>> 8) &&& 0xff, addr &&& 0xff] / 256] := by
    have hl := crc16_lt [0xff, addr >>> 16, (addr >>> 8) &&& 0xff, addr &&& 0xff]
    simp only [set_addr_frame, h16, List.take, List.set, crc_loop_zero]
    generalize crc16 [0xff, addr >>> 16, (addr >>> 8) &&& 0xff, addr &&& 0xff] = x at hl ⊢
    have e1 : x % 256 &&& 255 = x % 256 := by rw [and_ff]; omega
    have e2 : x >>> 8 % 256 &&& 255 = x / 256 := by rw [and_ff, shr8]; omega
    rw [e1, e2]
  have hv := vfy_status rx { s with tx := s.tx ++ [set_addr_frame addr] } c hc hrx
  have hk := status_kind_table c hc
  simp only [avrootloader_set_addr, avrootloader_send, serial_send, set_addr_frame_take, hv]
  rw [hfr]
  cases hsk : status_kind c with
  | none => exact ⟨rfl, rfl, fun _ => hk.1.1 hsk, fun _ => rfl⟩
  | some e =>
    refine ⟨rfl, rfl, fun h => (by cases h), fun h => ?_⟩
    rw [hk.1.2 h] at hsk
    cases hsk

/-- A run of C14: address 0x012345, acknowledged. -/
theorem C14_set_addr_witness :
    (avrootloader_set_addr (lineConst 0x30) {} 0x012345).pgm.tx = ([] : List (List Nat)) ++
      [[0xff, 0x012345 >>> 16, (0x012345 >>> 8) &&& 0xff, 0x012345 &&& 0xff,
        crc16 [0xff, 0x012345 >>> 16, (0x012345 >>> 8) &&& 0xff, 0x012345 &&& 0xff] % 256,
        crc16 [0xff, 0x012345 >>> 16, (0x012345 >>> 8) &&& 0xff, 0x012345 &&& 0xff] / 256]] ∧
    (avrootloader_set_addr (lineConst 0x30) {} 0x012345).pgm.rxpos = 0 + 1 ∧
    ((avrootloader_set_addr (lineConst 0x30) {} 0x012345).returned = true ↔ 0x30 = 0x30) :=
  C14_set_addr (lineConst 0x30) {} 0x012345 0x30 (by decide) (by decide) rfl

/-- C15, the claim as stated fails: trigger A, a line on which the first probe
finds nothing and then A and the reply 0x94 0x06 0x05 0x04 0x30 arrive.  The
handshake returns 0 and has sent the INIT frame twice, in the first round and
again in the second. -/
theorem C15_init_sent_again :
    ( avrootloader_initialize
      (lineOf [none, some 65, some 0x94, some 0x06, some 5, some 4, some 0x30])
      { trig := [65, 0], key := loader } 0).value = some 0 ∧
    ( avrootloader_initialize
      (lineOf [none, some 65, some 0x94, some 0x06, some 5, some 4, some 0x30])
      { trig := [65, 0], key := loader } 0).pgm.tx = init_frames loader ++ init_frames loader := by
  decide!

/-- C15 amended: a round of the receive loop of avrootloader_initialize sends the
INIT frame (hello, key, CRC pair) if and only if it begins with match position
i = 0, and sends nothing else; the first round begins with i = 0.  So the frame
is sent in the first round and again in every round that follows a failed probe at
i = 0 or a trigger mismatch, and in no round that begins with i > 0. -/
theorem C15_init_sent_when_i_zero (rx : Line) (s : Pgm) (l : InitLocals) (tmp : Nat) :
    (initialize_body rx s l).pgm.tx =
      (if l.i = 0 then s.tx ++ init_frames s.key else s.tx) ∧
    (initialize_entry tmp).i = 0 :=
  ⟨initialize_body_tx rx s l, rfl⟩

/-- C12: after the 8 byte image 1, 2, ..., 8 has been written (page size 2, sram 6),
avrootloader_read_byte on the flash memory at address 2, with 0x55 in the variable
the caller passes for the value, leaves 0x55 there: the byte image[2] = 3 is not
delivered.  The function runs a verify pass and returns the first byte of the last
chunk, 5, as its return value.  At address 0, on the tracked page, it sends
nothing and returns the byte the unset local array happens to hold, as the value
of a plain char: -86 for the byte 0xAA. -/
theorem C12_read_byte_flash_leaves_value :
    (avrootloader_read_byte (lineConst 0x30)
      (avrootloader_paged_write_flash (lineConst 0x30) {} { sram := 6, mem := [] }
        { desc := "flash", size := 8, page_size := 2, offset := 0, max_write_delay := 0,
          buf := [1, 2, 3, 4, 5, 6, 7, 8] } 2 8).pgm
      { sram := 6, mem := [] }
      { desc := "flash", size := 8, page_size := 2, offset := 0, max_write_delay := 0,
        buf := [1, 2, 3, 4, 5, 6, 7, 8] } 2 0x55 0xaa).value = some (5, 0x55) ∧
    [1, 2, 3, 4, 5, 6, 7, 8].get? 2 = some 3 ∧
    (avrootloader_read_byte (lineConst 0x30)
      (avrootloader_paged_write_flash (lineConst 0x30) {} { sram := 6, mem := [] }
        { desc := "flash", size := 8, page_size := 2, offset := 0, max_write_delay := 0,
          buf := [1, 2, 3, 4, 5, 6, 7, 8] } 2 8).pgm
      { sram := 6, mem := [] }
      { desc := "flash", size := 8, page_size := 2, offset := 0, max_write_delay := 0,
        buf := [1, 2, 3, 4, 5, 6, 7, 8] } 0 0x55 0xaa).value = some (-86, 0x55) := by
  decide!

/-- C16: trigger A0 and a device that sends A0.  The receive loop ends without a
timeout at position 2 and the terminal byte is 0x30, whose high nibble is 3; the
handshake does not return: the next read is rcv[i - 3] with the unsigned index
2 - 3, outside the 265 bytes of rcv.  Likewise with trigger A and a device that
sends A and then 264 bytes 0x31: the loop ends at position 265 with terminal
byte 0x31, and the read of rcv[265] is outside rcv. -/
theorem C16_reads_outside_rcv_before_return :
    (initialize_loop (lineOf [some 65, some 0x30]) initialize_fuel
      { trig := [65, 0x30, 0], key := loader } (initialize_entry 0)).value.map
        (fun l => (l.i, l.rcv.get? (l.i - 1))) = some (2, some 0x30) ∧
    0x30 &&& 0xf0 = 0x30 ∧
    ( avrootloader_initialize (lineOf [some 65, some 0x30])
      { trig := [65, 0x30, 0], key := loader } 0).error = some .memory_fault ∧
    (initialize_loop (lineOf (some 65 :: List.replicate 264 (some 0x31))) initialize_fuel
      { trig := [65, 0], key := loader } (initialize_entry 0)).value.map
        (fun l => (l.i, l.rcv.get? (l.i - 1))) = some (265, some 0x31) ∧
    0x31 &&& 0xf0 = 0x30 ∧
    ( avrootloader_initialize (lineOf (some 65 :: List.replicate 264 (some 0x31)))
      { trig := [65, 0], key := loader } 0).error = some .memory_fault := by
  decide!

/-- C17: trigger BOOT and a device that sends BOOT, the signature bytes 0x94 0x06,
the version 5, the page count 4 and the terminal byte 0x30.  The handshake
returns 0 with the response of length 9; the signature is 0x1E 0x94 0x06, but the
reserved page count stored is 48, the terminal byte itself and not the byte 4
that precedes it, and the feature nibble is 0, taken from the cell behind the
terminal byte.  avrootloader_read_sig_bytes copies the three signature bytes and
returns 3, and returns -1 leaving the buffer alone when the size is below 3. -/
theorem C17_bootpages_is_terminal_byte :
    (initialize_loop (lineOf ([66, 79, 79, 84, 0x94, 0x06, 5, 4, 0x30].map some))
      initialize_fuel { trig := [66, 79, 79, 84, 0], key := loader }
      (initialize_entry 0)).value.map (fun l => (l.i, l.rcv.take 10)) =
        some (9, [66, 79, 79, 84, 0x94, 0x06, 5, 4, 0x30, 0]) ∧
    ( avrootloader_initialize (lineOf ([66, 79, 79, 84, 0x94, 0x06, 5, 4, 0x30].map some))
      { trig := [66, 79, 79, 84, 0], key := loader } 0).value = some 0 ∧
    ( avrootloader_initialize (lineOf ([66, 79, 79, 84, 0x94, 0x06, 5, 4, 0x30].map some))
      { trig := [66, 79, 79, 84, 0], key := loader } 0).pgm.sigbytes = [0x1e, 0x94, 0x06] ∧
    ( avrootloader_initialize (lineOf ([66, 79, 79, 84, 0x94, 0x06, 5, 4, 0x30].map some))
      { trig := [66, 79, 79, 84, 0], key := loader } 0).pgm.bootpages = 0x30 ∧
    ( avrootloader_initialize (lineOf ([66, 79, 79, 84, 0x94, 0x06, 5, 4, 0x30].map some))
      { trig := [66, 79, 79, 84, 0], key := loader } 0).pgm.features = 0 ∧
    (avrootloader_read_sig_bytes { sigbytes := [0x1e, 0x94, 0x06] }
      { desc := "signature", size := 3, page_size := 0, offset := 0, max_write_delay := 0,
        buf := [0, 0, 0] }).value =
      some (3, { desc := "signature", size := 3, page_size := 0, offset := 0,
                 max_write_delay := 0, buf := [0x1e, 0x94, 0x06] }) ∧
    (avrootloader_read_sig_bytes { sigbytes := [0x1e, 0x94, 0x06] }
      { desc := "signature", size := 2, page_size := 0, offset := 0, max_write_delay := 0,
        buf := [0, 0] }).value =
      some (-1, { desc := "signature", size := 2, page_size := 0, offset := 0,
                  max_write_delay := 0, buf := [0, 0] }) := by
  decide!

/-- C18: on the "flash" memory, when the shadow buffer (internalbuf) is absent, as it
is in a session without a flash write, avrootloader_paged_load and
avrootloader_read_byte both stop with the read-unsupported error in the state they
were called in, so nothing has been sent; when it is present, neither stops with
that error. -/
theorem C18_flash_reads_need_shadow_buffer (rx : Line) (s : Pgm) (p : AVRPART) (m : AVRMEM)
    (ps n addr value junk : Nat) (hm : m.desc = "flash") :
    (s.internalbuf = none →
      avrootloader_paged_load rx s p m ps n = .abort .read_unsupported s ∧
      avrootloader_read_byte rx s p m addr value junk = .abort .read_unsupported s ∧
      (avrootloader_paged_load rx s p m ps n).pgm.tx = s.tx ∧
      (avrootloader_read_byte rx s p m addr value junk).pgm.tx = s.tx) ∧
    (s.internalbuf ≠ none →
      (avrootloader_paged_load rx s p m ps n).error ≠ some .read_unsupported ∧
      (avrootloader_read_byte rx s p m addr value junk).error ≠ some .read_unsupported) := by
  constructor
  · intro h
    have h1 : avrootloader_paged_load rx s p m ps n = .abort .read_unsupported s := by
      simp only [avrootloader_paged_load, hm, if_true, h]
    have h2 : avrootloader_read_byte rx s p m addr value junk = .abort .read_unsupported s := by
      simp only [avrootloader_read_byte, hm, if_true, avrootloader_read_byte_flash, h]
    exact ⟨h1, h2, by rw [h1]; rfl, by rw [h2]; rfl⟩
  · intro h
    cases hib : s.internalbuf with
    | none => exact absurd hib h
    | some ib =>
      refine ⟨paged_load_flash_not_unsupported rx s p m ps n ib hm hib, ?_⟩
      simp only [avrootloader_read_byte, hm, if_true]
      exact read_byte_flash_not_unsupported rx s p m addr value junk ib hib

/-- Two runs of C18 on a flash memory of 8 bytes with pages of 2: a fresh session,
and a session that holds a shadow buffer. -/
theorem C18_flash_reads_need_shadow_buffer_witness :
    ((({} : Pgm).internalbuf = none →
      avrootloader_paged_load (lineConst 0x30) {} { sram := 6, mem := [] }
        { desc := "flash", size := 8, page_size := 2, offset := 0, max_write_delay := 0,
          buf := [0, 0, 0, 0, 0, 0, 0, 0] } 2 8 = .abort .read_unsupported {} ∧
      avrootloader_read_byte (lineConst 0x30) {} { sram := 6, mem := [] }
        { desc := "flash", size := 8, page_size := 2, offset := 0, max_write_delay := 0,
          buf := [0, 0, 0, 0, 0, 0, 0, 0] } 3 0x55 0 = .abort .read_unsupported {} ∧
      (avrootloader_paged_load (lineConst 0x30) {} { sram := 6, mem := [] }
        { desc := "flash", size := 8, page_size := 2, offset := 0, max_write_delay := 0,
          buf := [0, 0, 0, 0, 0, 0, 0, 0] } 2 8).pgm.tx = ({} : Pgm).tx ∧
      (avrootloader_read_byte (lineConst 0x30) {} { sram := 6, mem := [] }
        { desc := "flash", size := 8, page_size := 2, offset := 0, max_write_delay := 0,
          buf := [0, 0, 0, 0, 0, 0, 0, 0] } 3 0x55 0).pgm.tx = ({} : Pgm).tx) ∧
    (({} : Pgm).internalbuf ≠ none →
      (avrootloader_paged_load (lineConst 0x30) {} { sram := 6, mem := [] }
        { desc := "flash", size := 8, page_size := 2, offset := 0, max_write_delay := 0,
          buf := [0, 0, 0, 0, 0, 0, 0, 0] } 2 8).error ≠ some .read_unsupported ∧
      (avrootloader_read_byte (lineConst 0x30) {} { sram := 6, mem := [] }
        { desc := "flash", size := 8, page_size := 2, offset := 0, max_write_delay := 0,
          buf := [0, 0, 0, 0, 0, 0, 0, 0] } 3 0x55 0).error ≠ some .read_unsupported)) ∧
    ({ internalbuf := some [1, 2, 3, 4, 5, 6, 7, 8, 255, 255], nbytes := 8, page_size := 2 } :
      Pgm).internalbuf ≠ none ∧
    (avrootloader_paged_load (lineConst 0x30)
      { internalbuf := some [1, 2, 3, 4, 5, 6, 7, 8, 255, 255], nbytes := 8, page_size := 2 }
      { sram := 6, mem := [] }
      { desc := "flash", size := 8, page_size := 2, offset := 0, max_write_delay := 0,
        buf := [0, 0, 0, 0, 0, 0, 0, 0] } 2 8).error ≠ some .read_unsupported ∧
    (avrootloader_read_byte (lineConst 0x30)
      { internalbuf := some [1, 2, 3, 4, 5, 6, 7, 8, 255, 255], nbytes := 8, page_size := 2 }
      { sram := 6, mem := [] }
      { desc := "flash", size := 8, page_size := 2, offset := 0, max_write_delay := 0,
        buf := [0, 0, 0, 0, 0, 0, 0, 0] } 3 0x55 0).error ≠ some .read_unsupported :=
  ⟨C18_flash_reads_need_shadow_buffer (lineConst 0x30) {} { sram := 6, mem := [] }
      { desc := "flash", size := 8, page_size := 2, offset := 0, max_write_delay := 0,
        buf := [0, 0, 0, 0, 0, 0, 0, 0] } 2 8 3 0x55 0 rfl,
    by decide,
    (C18_flash_reads_need_shadow_buffer (lineConst 0x30)
      { internalbuf := some [1, 2, 3, 4, 5, 6, 7, 8, 255, 255], nbytes := 8, page_size := 2 }
      { sram := 6, mem := [] }
      { desc := "flash", size := 8, page_size := 2, offset := 0, max_write_delay := 0,
        buf := [0, 0, 0, 0, 0, 0, 0, 0] } 2 8 3 0x55 0 rfl).2 (by decide)⟩

/-- C19, the claim as stated fails: a SENDBUF of 65538 bytes, so of a data length
65536 that does not fit the 16-bit length field, to a device that acknowledges.
The command returns; it has sent a header whose length bytes are 0 0 and then all
65538 bytes. -/
theorem C19_long_payload_is_sent :
    (avrootloader_send_cmd (lineConst 0x30) {} CMD_SENDBUF 65538
      (List.replicate 65538 0)).returned = true ∧
    (avrootloader_send_cmd (lineConst 0x30) {} CMD_SENDBUF 65538
      (List.replicate 65538 0)).pgm.tx =
      [[0xfe, 0x00, 0, 0] ++ crc_bytes (crc16 [0xfe, 0x00, 0, 0]),
       List.replicate 65536 0 ++ crc_bytes (crc16 (List.replicate 65536 0))] ∧
    ((avrootloader_send_cmd (lineConst 0x30) {} CMD_SENDBUF 65538
      (List.replicate 65538 0)).pgm.tx.map List.length) = [6, 65538] := by
  have h := send_cmd_SENDBUF_frames (lineConst 0x30) {} 65538 (List.replicate 65538 0)
    (by decide) (by decide) (List.length_replicate _ _)
  have ht : (List.replicate 65538 0).take (65538 - 2) = List.replicate 65536 0 := by
    rw [List.take_replicate]
    congr 1
  refine ⟨h.2 rfl, ?_, ?_⟩
  · rw [h.1, ht]
    rfl
  · rw [h.1, ht]
    exact frames_lengths _ _ _ _ _ _ _ _

/-- C19 amended: avrootloader_send_cmd has no check of the SENDBUF payload length.
For every parambytes p from 2 up (an unsigned int) with a buffer of p bytes,
whatever the device does, the command sends the header with the length bytes of
(p - 2) mod 65536, high byte first, and then the p - 2 data bytes with their CRC;
and when the device acknowledges, it returns. -/
theorem C19_sendbuf_sends_any_length (rx : Line) (s : Pgm) (p : Nat) (buf : List Nat)
    (h2 : 2 ≤ p) (hp : p < 4294967296) (hlen : buf.length = p) :
    (avrootloader_send_cmd rx s CMD_SENDBUF p buf).pgm.tx = s.tx ++
      [[0xfe, 0x00, (p - 2) % 65536 / 256, (p - 2) % 65536 % 256] ++
         crc_bytes (crc16 [0xfe, 0x00, (p - 2) % 65536 / 256, (p - 2) % 65536 % 256]),
       buf.take (p - 2) ++ crc_bytes (crc16 (buf.take (p - 2)))] ∧
    (rx s.rxpos = some 0x30 →
      (avrootloader_send_cmd rx s CMD_SENDBUF p buf).returned = true) :=
  send_cmd_SENDBUF_frames rx s p buf h2 hp hlen

/-- A run of C19 with 65540 bytes, a data length of 65538, whose length bytes are
those of 2. -/
theorem C19_sendbuf_sends_any_length_witness :
    (avrootloader_send_cmd (lineConst 0x30) {} CMD_SENDBUF 65540
      (List.replicate 65540 7)).pgm.tx = ({} : Pgm).tx ++
      [[0xfe, 0x00, (65540 - 2) % 65536 / 256, (65540 - 2) % 65536 % 256] ++
         crc_bytes (crc16 [0xfe, 0x00, (65540 - 2) % 65536 / 256, (65540 - 2) % 65536 % 256]),
       (List.replicate 65540 7).take (65540 - 2) ++
         crc_bytes (crc16 ((List.replicate 65540 7).take (65540 - 2)))] ∧
    (lineConst 0x30 ({} : Pgm).rxpos = some 0x30 →
      (avrootloader_send_cmd (lineConst 0x30) {} CMD_SENDBUF 65540
        (List.replicate 65540 7)).returned = true) :=
  C19_sendbuf_sends_any_length (lineConst 0x30) {} 65540 (List.replicate 65540 7)
    (by decide) (by decide) (List.length_replicate _ _)

/-- C21: the 8 byte image 1, ..., 8 is written with page size 2 and sram 6, so in
chunks of 4 bytes, and avrootloader_read_byte on the flash memory at address 2,
off the tracked page, runs its verify pass.  Both SENDBUF headers of the pass are
0xFE 0x00 0x0F 0x00 0x34 0x18: the length bytes are 0x0F 0x00, where the data
length of the chunk is 4 and avrootloader_send_cmd sends 0x00 0x04 for it.  With
sram 4, so chunks of 2 bytes, the header is the same.  The header is the local
setbuf of the function with its CRC stored again; the last two bytes are the
CRC16 of the first four, low byte first. -/
theorem C21_read_byte_flash_header_is_fixed :
    (avrootloader_read_byte (lineConst 0x30)
      (avrootloader_paged_write_flash (lineConst 0x30) {} { sram := 6, mem := [] }
        { desc := "flash", size := 8, page_size := 2, offset := 0, max_write_delay := 0,
          buf := [1, 2, 3, 4, 5, 6, 7, 8] } 2 8).pgm
      { sram := 6, mem := [] }
      { desc := "flash", size := 8, page_size := 2, offset := 0, max_write_delay := 0,
        buf := [1, 2, 3, 4, 5, 6, 7, 8] } 2 0x55 0xaa).pgm.tx =
      (avrootloader_paged_write_flash (lineConst 0x30) {} { sram := 6, mem := [] }
        { desc := "flash", size := 8, page_size := 2, offset := 0, max_write_delay := 0,
          buf := [1, 2, 3, 4, 5, 6, 7, 8] } 2 8).pgm.tx ++
      [set_addr_frame 1,
       [0xfe, 0x00, 0x0f, 0x00, 0x34, 0x18], [1, 2, 3, 4] ++ crc_bytes (crc16 [1, 2, 3, 4]),
       vrfyflash,
       [0xfe, 0x00, 0x0f, 0x00, 0x34, 0x18], [5, 6, 7, 8] ++ crc_bytes (crc16 [5, 6, 7, 8]),
       vrfyflash] ∧
    compute_bufsize 6 2 8 = some 4 ∧
    sendbuf_header (4 + 2) = [0xfe, 0x00, 0x00, 0x04, 0x30, 0x2b] ∧
    (avrootloader_read_byte (lineConst 0x30)
      (avrootloader_paged_write_flash (lineConst 0x30) {} { sram := 4, mem := [] }
        { desc := "flash", size := 8, page_size := 2, offset := 0, max_write_delay := 0,
          buf := [1, 2, 3, 4] } 2 4).pgm
      { sram := 4, mem := [] }
      { desc := "flash", size := 8, page_size := 2, offset := 0, max_write_delay := 0,
        buf := [1, 2, 3, 4] } 2 0x55 0xaa).pgm.tx =
      (avrootloader_paged_write_flash (lineConst 0x30) {} { sram := 4, mem := [] }
        { desc := "flash", size := 8, page_size := 2, offset := 0, max_write_delay := 0,
          buf := [1, 2, 3, 4] } 2 4).pgm.tx ++
      [set_addr_frame 1,
       [0xfe, 0x00, 0x0f, 0x00, 0x34, 0x18], [1, 2] ++ crc_bytes (crc16 [1, 2]), vrfyflash,
       [0xfe, 0x00, 0x0f, 0x00, 0x34, 0x18], [3, 4] ++ crc_bytes (crc16 [3, 4]), vrfyflash] ∧
    read_byte_flash_header = [0xfe, 0x00, 0x0f, 0x00] ++ crc_bytes (crc16 [0xfe, 0x00, 0x0f, 0x00]) ∧
    crc_bytes (crc16 [0xfe, 0x00, 0x0f, 0x00]) = [0x34, 0x18] := by
  decide!

/-- C22: whenever avrootloader_initialize returns, the receive loop has returned
with a final position i > 0, and the reserved page count stored in the session is
rcv[i - 1], the terminal byte of the response, which is the byte received last;
it lies in the range 0x30 .. 0x3F. -/
theorem C22_bootpages_in_range (rx : Line) (s0 : Pgm) (tmp : Nat)
    (h : ( avrootloader_initialize rx s0 tmp).returned = true) :
    ∃ l s1, initialize_loop rx initialize_fuel s0 (initialize_entry tmp) = .ok l s1 ∧
      0 < l.i ∧
      l.rcv.get? (l.i - 1) = some ( avrootloader_initialize rx s0 tmp).pgm.bootpages ∧
      l.tmp = ( avrootloader_initialize rx s0 tmp).pgm.bootpages ∧
      0x30 ≤ ( avrootloader_initialize rx s0 tmp).pgm.bootpages ∧
      ( avrootloader_initialize rx s0 tmp).pgm.bootpages ≤ 0x3f := by
  unfold avrootloader_initialize at h ⊢
  cases hl : initialize_loop rx initialize_fuel s0 (initialize_entry tmp) with
  | abort e s1 =>
    rw [hl] at h
    cases h
  | ok l s1 =>
    rw [hl] at h
    obtain ⟨hc, hi, hle, hlen, hlast, hlt, h1⟩ :=
      init_loop_returns rx s0 tmp initialize_fuel l s1 (le_refl _) hl
    refine ⟨l, s1, rfl, hi, ?_⟩
    unfold initialize_parse at h ⊢
    simp only [BOOTPAGES_OFFSET_FROM_END, h1] at h ⊢
    by_cases hn : l.tmp &&& 0xf0 ≠ 0x30
    · rw [if_pos hn] at h
      cases h
    · rw [if_neg hn] at h ⊢
      have hn1 : l.tmp &&& 0xf0 = 0x30 := by simpa using hn
      obtain ⟨r1, r2⟩ := high_nibble_three l.tmp hlt hn1
      split at h
      · rename_i v3 v0 v1 v5 v4 e3 e0 e1 e5 e4
        cases e1
        exact ⟨hlast, rfl, r1, r2⟩
      · cases h

/-- A run of C22: trigger BOOT and a device that sends BOOT, 0x94 0x06, the version
5, the byte 4 and the terminal byte 0x30. -/
theorem C22_bootpages_in_range_witness :
    ∃ l s1, initialize_loop (lineOf ([66, 79, 79, 84, 0x94, 0x06, 5, 4, 0x30].map some))
        initialize_fuel { trig := [66, 79, 79, 84, 0], key := loader } (initialize_entry 0) =
        .ok l s1 ∧
      0 < l.i ∧
      l.rcv.get? (l.i - 1) = some ( avrootloader_initialize
        (lineOf ([66, 79, 79, 84, 0x94, 0x06, 5, 4, 0x30].map some))
        { trig := [66, 79, 79, 84, 0], key := loader } 0).pgm.bootpages ∧
      l.tmp = ( avrootloader_initialize
        (lineOf ([66, 79, 79, 84, 0x94, 0x06, 5, 4, 0x30].map some))
        { trig := [66, 79, 79, 84, 0], key := loader } 0).pgm.bootpages ∧
      0x30 ≤ ( avrootloader_initialize
        (lineOf ([66, 79, 79, 84, 0x94, 0x06, 5, 4, 0x30].map some))
        { trig := [66, 79, 79, 84, 0], key := loader } 0).pgm.bootpages ∧
      ( avrootloader_initialize
        (lineOf ([66, 79, 79, 84, 0x94, 0x06, 5, 4, 0x30].map some))
        { trig := [66, 79, 79, 84, 0], key := loader } 0).pgm.bootpages ≤ 0x3f :=
  C22_bootpages_in_range (lineOf ([66, 79, 79, 84, 0x94, 0x06, 5, 4, 0x30].map some))
    { trig := [66, 79, 79, 84, 0], key := loader } 0 (by decide!)

/-- C23: with a positive page size and the sram of the part at least a page and at
most 65535 bytes, a flash write of n bytes to a device that acknowledges every
command, then the flash branch of avrootloader_paged_load with the same n, page
size and sram, in the state the write left (so with its shadow buffer), on a
memory whose buffer may hold other bytes.  Both calls return.  There is one list of chunks such that
the write sent, after SET ADDRESS, for each chunk d the SENDBUF header, the payload
d with its CRC trailer and the WRITEFLASH frame, and the load sent, after SET
ADDRESS, for each chunk d the same header, the same payload and the VERIFYFLASH
frame: the payloads are equal chunk for chunk. -/
theorem C23_load_resends_written_payloads (rx rx1 : Line) (s : Pgm) (p : AVRPART)
    (m m1 : AVRMEM) (ps n : Nat) (hps : 0 < ps) (hcap : (ps : Int) ≤ p.sram)
    (hsram : p.sram ≤ 65535) (hn : n ≤ m.buf.length)
    (hn1 : n ≤ m1.buf.length) (hm1 : m1.desc = "flash")
    (hack : ∀ k, s.rxpos ≤ k → rx k = some 0x30)
    (hack1 : ∀ k, (avrootloader_paged_write_flash rx s p m ps n).pgm.rxpos ≤ k →
      rx1 k = some 0x30) :
    ∃ (b : Nat) (chunks : List (List Nat)),
      compute_bufsize p.sram ps n = some b ∧
      chunks.length = (n + b - 1) / b ∧
      (avrootloader_paged_write_flash rx s p m ps n).returned = true ∧
      (∃ x, (avrootloader_paged_write_flash rx s p m ps n).pgm.tx =
        s.tx ++ [set_addr_frame 0] ++
          chunks.flatMap (fun d => [sendbuf_header (b + 2), d ++ crc_bytes (crc16 d), writeflash])
          ++ [erase_frame x]) ∧
      (avrootloader_paged_load rx1 (avrootloader_paged_write_flash rx s p m ps n).pgm
        p m1 ps n).returned = true ∧
      (avrootloader_paged_load rx1 (avrootloader_paged_write_flash rx s p m ps n).pgm
        p m1 ps n).pgm.tx =
        (avrootloader_paged_write_flash rx s p m ps n).pgm.tx ++ [set_addr_frame 0] ++
          chunks.flatMap (fun d => [sendbuf_header (b + 2), d ++ crc_bytes (crc16 d), vrfyflash])
      := by
  obtain ⟨b, hb, hbpos⟩ := compute_bufsize_pos p.sram ps n hps
  obtain ⟨_, _, hvla⟩ := compute_bufsize_le_sram p.sram ps n b hps hcap hsram hb
  have hrun := paged_write_flash_run rx s p m ps n b hack hps hb hvla hn
  obtain ⟨sw, hsw, hib, htx⟩ : ∃ sw, avrootloader_paged_write_flash rx s p m ps n = .ok n sw ∧
      sw.internalbuf = some (m.buf.take n ++ List.replicate ps 0xff) ∧
      sw.tx = s.tx ++ [set_addr_frame 0] ++
        (chunks_from m.buf b n n 0).flatMap (chunk_frames writeflash b) ++
        [erase_frame (erase_param m.size ((chunks_from m.buf b n n 0).length * b)
          s.bootpages ps % 256)] := ⟨_, hrun, rfl, rfl⟩
  rw [hsw] at hack1 ⊢
  simp only [Outcome.pgm] at hack1 ⊢
  have hl : (List.take n m.buf ++ List.replicate ps 255).length = n + ps := by
    simp only [List.length_append, List.length_take, List.length_replicate]; omega
  have hload := paged_load_flash_run rx1 sw p m1 ps n b
    (List.take n m.buf ++ List.replicate ps 255) hm1 hib hack1 hps hb hvla hn1 (by omega)
  rw [chunks_from_take_append m.buf (List.replicate ps 255) b n hn n 0] at hload
  refine ⟨b, chunks_from m.buf b n n 0, hb, chunks_from_ceil m.buf b n hbpos, rfl,
    ⟨_, htx⟩, ?_, ?_⟩
  · rw [hload]; rfl
  · rw [hload]; rfl

/-- A run of C23: a 5 byte image with page size 2 and sram 6, the buffer holding
other bytes at the load. -/
theorem C23_load_resends_written_payloads_witness :
    ∃ (b : Nat) (chunks : List (List Nat)),
      compute_bufsize 6 2 5 = some b ∧
      chunks.length = (5 + b - 1) / b ∧
      (avrootloader_paged_write_flash (lineConst 0x30) {} { sram := 6, mem := [] }
        { desc := "flash", size := 16, page_size := 2, offset := 0, max_write_delay := 0,
          buf := [1, 2, 3, 4, 5, 6, 7, 8] } 2 5).returned = true ∧
      (∃ x, (avrootloader_paged_write_flash (lineConst 0x30) {} { sram := 6, mem := [] }
        { desc := "flash", size := 16, page_size := 2, offset := 0, max_write_delay := 0,
          buf := [1, 2, 3, 4, 5, 6, 7, 8] } 2 5).pgm.tx =
        ({} : Pgm).tx ++ [set_addr_frame 0] ++
          chunks.flatMap (fun d => [sendbuf_header (b + 2), d ++ crc_bytes (crc16 d), writeflash])
          ++ [erase_frame x]) ∧
      (avrootloader_paged_load (lineConst 0x30)
        (avrootloader_paged_write_flash (lineConst 0x30) {} { sram := 6, mem := [] }
        { desc := "flash", size := 16, page_size := 2, offset := 0, max_write_delay := 0,
          buf := [1, 2, 3, 4, 5, 6, 7, 8] } 2 5).pgm
        { sram := 6, mem := [] }
        { desc := "flash", size := 16, page_size := 2, offset := 0, max_write_delay := 0,
          buf := [9, 9, 9, 9, 9, 9, 9, 9] } 2 5).returned = true ∧
      (avrootloader_paged_load (lineConst 0x30)
        (avrootloader_paged_write_flash (lineConst 0x30) {} { sram := 6, mem := [] }
        { desc := "flash", size := 16, page_size := 2, offset := 0, max_write_delay := 0,
          buf := [1, 2, 3, 4, 5, 6, 7, 8] } 2 5).pgm
        { sram := 6, mem := [] }
        { desc := "flash", size := 16, page_size := 2, offset := 0, max_write_delay := 0,
          buf := [9, 9, 9, 9, 9, 9, 9, 9] } 2 5).pgm.tx =
        (avrootloader_paged_write_flash (lineConst 0x30) {} { sram := 6, mem := [] }
        { desc := "flash", size := 16, page_size := 2, offset := 0, max_write_delay := 0,
          buf := [1, 2, 3, 4, 5, 6, 7, 8] } 2 5).pgm.tx ++ [set_addr_frame 0] ++
          chunks.flatMap (fun d => [sendbuf_header (b + 2), d ++ crc_bytes (crc16 d), vrfyflash]) :=
  C23_load_resends_written_payloads (lineConst 0x30) (lineConst 0x30) {}
    { sram := 6, mem := [] }
    { desc := "flash", size := 16, page_size := 2, offset := 0, max_write_delay := 0,
          buf := [1, 2, 3, 4, 5, 6, 7, 8] }
    { desc := "flash", size := 16, page_size := 2, offset := 0, max_write_delay := 0,
          buf := [9, 9, 9, 9, 9, 9, 9, 9] } 2 5 (by decide) (by decide) (by decide) (by decide)
    (by decide) rfl (fun _ _ => rfl) (fun _ _ => rfl)

/-- C24: trigger B and a device that sends B and the byte 0x30.  The receive loop
ends without a timeout at position i = 2; the reads of rcv[i - 3], rcv[i - 4] and
rcv[i - 5] that follow have the unsigned indices 4294967295, 4294967294 and
4294967293, outside the 265 bytes of rcv.  With a device that sends B and then 264
bytes 0x32 the loop ends at i = 265, and the read of rcv[i] is outside rcv.  In
the model both runs end as a memory fault. -/
theorem C24_reads_outside_rcv :
    (initialize_loop (lineOf [some 66, some 0x30]) initialize_fuel
      { trig := [66, 0], key := loader } (initialize_entry 0)).value.map
        (fun l => (l.i, l.rcv.length)) = some (2, 265) ∧
    (initialize_loop (lineOf [some 66, some 0x30]) initialize_fuel
      { trig := [66, 0], key := loader } (initialize_entry 0)).value.map
        (fun l => (rcv_at l.rcv l.i 1, rcv_at l.rcv l.i 0)) = some (some 0x30, some 0) ∧
    (initialize_loop (lineOf [some 66, some 0x30]) initialize_fuel
      { trig := [66, 0], key := loader } (initialize_entry 0)).value.map
        (fun l => (rcv_at l.rcv l.i 3, rcv_at l.rcv l.i 4, rcv_at l.rcv l.i 5)) =
      some (none, none, none) ∧
    (2 + 4294967296 - 3) % 4294967296 = 4294967295 ∧
    (2 + 4294967296 - 4) % 4294967296 = 4294967294 ∧
    (2 + 4294967296 - 5) % 4294967296 = 4294967293 ∧
    (initialize_loop (lineOf (some 66 :: List.replicate 264 (some 0x32))) initialize_fuel
      { trig := [66, 0], key := loader } (initialize_entry 0)).value.map
        (fun l => (l.i, l.rcv.length)) = some (265, 265) ∧
    (initialize_loop (lineOf (some 66 :: List.replicate 264 (some 0x32))) initialize_fuel
      { trig := [66, 0], key := loader } (initialize_entry 0)).value.map
        (fun l => (rcv_at l.rcv l.i 1, rcv_at l.rcv l.i 0)) = some (some 0x32, none) ∧
    (initialize_loop (lineOf (some 66 :: List.replicate 264 (some 0x32))) initialize_fuel
      { trig := [66, 0], key := loader } (initialize_entry 0)).value.map
        (fun l => (rcv_at l.rcv l.i 3, rcv_at l.rcv l.i 4, rcv_at l.rcv l.i 5)) =
      some (some 0x32, some 0x32, some 0x32) ∧
    ( avrootloader_initialize (lineOf [some 66, some 0x30])
      { trig := [66, 0], key := loader } 0).error = some .memory_fault ∧
    ( avrootloader_initialize (lineOf (some 66 :: List.replicate 264 (some 0x32)))
      { trig := [66, 0], key := loader } 0).error = some .memory_fault := by
  decide!

/-- C25: the receive loop of avrootloader_initialize ends, for every trigger and
every line.  In every round that a run goes through, the position is below 265
and the count of error trials at most 100 on entry; a round that returns either
counts one error trial (the position does not grow) or leaves the count and
advances the position by one, so the pair (101 - error trials, 265 - i) decreases
lexicographically; a round that does not return stops with the timeout error.
Given as many rounds as 102 * 266 or more, the loop never runs out of them: it
stops with the timeout error, or it returns with the loop condition false at a
position from 1 to 265, where the terminal byte rcv[i - 1] decides: the handshake
stops with the unexpected response error when the high nibble of that byte is
not 3, and goes on to store the reply otherwise (and returns when the position
is from 5 to 264). -/
theorem C25_receive_loop_terminates (rx : Line) (s0 : Pgm) (tmp : Nat) :
    (∀ s l, InitReach rx s0 (initialize_entry tmp) s l → initialize_cond l = true →
      l.i < 265 ∧ l.errcnt ≤ 100 ∧
      (∀ l1 s1, initialize_body rx s l = .ok l1 s1 →
        ((l1.errcnt = l.errcnt + 1 ∧ l1.errcnt ≤ 100 ∧ l1.i ≤ l.i) ∨
          (l1.errcnt = l.errcnt ∧ l1.i = l.i + 1)) ∧
        Prod.Lex (fun a b : Nat => a < b) (fun a b : Nat => a < b)
          (101 - l1.errcnt, 265 - l1.i) (101 - l.errcnt, 265 - l.i)) ∧
      (∀ e s1, initialize_body rx s l = .abort e s1 → e = .timeout)) ∧
    (∀ f, initialize_fuel ≤ f →
      (∃ s1, initialize_loop rx f s0 (initialize_entry tmp) = .abort .timeout s1) ∨
      (∃ l s1, initialize_loop rx f s0 (initialize_entry tmp) = .ok l s1 ∧
        initialize_cond l = false ∧ 0 < l.i ∧ l.i ≤ 265)) ∧
    ((∃ s1, ( avrootloader_initialize rx s0 tmp) = .abort .timeout s1) ∨
      (∃ l s1 b, initialize_loop rx initialize_fuel s0 (initialize_entry tmp) = .ok l s1 ∧
        l.rcv.get? (l.i - 1) = some b ∧
        (b &&& 0xf0 ≠ 0x30 →
          ( avrootloader_initialize rx s0 tmp) = .abort (.unexpected_response b) s1) ∧
        (b &&& 0xf0 = 0x30 →
          ( avrootloader_initialize rx s0 tmp).error ≠ some (.unexpected_response b) ∧
          (5 ≤ l.i → l.i ≤ 264 → ( avrootloader_initialize rx s0 tmp).returned = true)))) := by
  have hend : ∀ f, initialize_fuel ≤ f →
      (∃ s1, initialize_loop rx f s0 (initialize_entry tmp) = .abort .timeout s1) ∨
      (∃ l s1, initialize_loop rx f s0 (initialize_entry tmp) = .ok l s1 ∧
        initialize_cond l = false ∧ 0 < l.i ∧ l.i ≤ 265) := by
    intro f hf
    have hm : init_measure (initialize_entry tmp) < f := by
      simp only [init_measure, initialize_entry, initialize_fuel] at hf ⊢
      omega
    rcases init_loop_end rx s0 tmp f s0 (initialize_entry tmp) InitReach.entry hm with
      ⟨l1, s2, h1, hr, hc⟩ | ⟨s2, h1⟩
    · right
      obtain ⟨_, hi, hle, _⟩ := init_loop_returns rx s0 tmp f l1 s2 hf h1
      exact ⟨l1, s2, h1, hc, hi, hle⟩
    · left
      exact ⟨s2, h1⟩
  refine ⟨?_, hend, ?_⟩
  · intro s l hr hc
    obtain ⟨hlen, he⟩ := init_reach_inv rx s0 tmp s l hr
    have hi := initialize_cond_lt l hc
    refine ⟨hi, he, ?_, ?_⟩
    · intro l1 s1 hb
      have hstep := initialize_body_step rx s s1 l l1 hlen he hc hb
      refine ⟨hstep, ?_⟩
      rcases hstep with ⟨h1, h2, h3⟩ | ⟨h1, h2⟩
      · exact Prod.Lex.left _ _ (by omega)
      · have e1 : 101 - l1.errcnt = 101 - l.errcnt := by rw [h1]
        rw [e1]
        exact Prod.Lex.right _ (by omega)
    · intro e s1 hb
      exact initialize_body_abort rx s s1 l e hlen hi hb
  · rcases hend initialize_fuel (le_refl _) with ⟨s1, h1⟩ | ⟨l, s1, h1, hc, hi, hle⟩
    · left
      exact ⟨s1, by simp only [ avrootloader_initialize, h1]⟩
    · right
      obtain ⟨_, _, _, hlen, hlast, hlt, hr1⟩ :=
        init_loop_returns rx s0 tmp initialize_fuel l s1 (le_refl _) h1
      refine ⟨l, s1, l.tmp, h1, hlast, ?_, ?_⟩
      · intro hn
        simp only [ avrootloader_initialize, h1, initialize_parse, hr1]
        rw [if_pos hn]
      · intro hn
        have hn1 : ¬ l.tmp &&& 0xf0 ≠ 0x30 := by simpa using hn
        constructor
        · simp only [ avrootloader_initialize, h1, initialize_parse, hr1]
          rw [if_neg hn1]
          split <;> simp [Outcome.error]
        · intro h5 h264
          obtain ⟨last, feat, sig1, sig2, g1, _, _, _, g⟩ :=
            initialize_parse_in_range s1 l hlen h5 h264
          rw [hlast] at g1
          cases g1
          simp only [ avrootloader_initialize, h1, g]
          rw [if_neg hn1]
          rfl

end Avrootloader
